import Mathlib

/-!
# PaperUI: layout engine and screen

A shallow embedding of the widget tree of PaperUI (`src/types.h`, `src/widget.h`,
`src/layout.h`, `src/layouts/*.h`, `src/widgets/*.h`) and of its driver (`src/screen.h`,
`src/state.h`, `src/pool.h`).

Conventions of the embedding:

* a value of type `int16_t` is an `Int`; every place where the C++ stores the result of
  an `int` computation into an `int16_t` is a `wrap16`;
* C++ `/` on integers is `Int.tdiv` (truncation toward zero);
* a widget tree is a value of `Widget`; the parent back-reference of a node is its
  position in the tree; a method that mutates the receiver returns the new receiver;
* a method that may call `markDirty()` also returns a `Bool` telling whether it did, which
  is what `Layout::onChildDirty` propagates along the parent links;
* the members of `Screen` are a value of `Screen`; a pass returns the new members and the
  list of the calls it made on the drawing surface, or of the touch events it dispatched;
  the clock `millis()` and the touch panel are arguments; unsigned counters are `Nat` with
  an explicit `%` at every increment.
-/

namespace PaperUI

/-! ## Machine integers -/

/-- Conversion of an `int` to `int16_t`: two's complement wrap-around. -/
def wrap16 (n : Int) : Int := (n + 32768) % 65536 - 32768

/-- The values an `int16_t` can hold. -/
def inInt16 (n : Int) : Prop := -32768 ≤ n ∧ n ≤ 32767

instance (n : Int) : Decidable (inInt16 n) := by
  unfold inInt16; infer_instance

/-- Modelled from the spec: the Arduino macro `constrain(amt, low, high)`, which the
sources use and do not define; the spec describes it as clamping a size into the box
`[min, max]`. It is `(amt) < (low) ? (low) : ((amt) > (high) ? (high) : (amt))`. -/
def constrain (amt low high : Int) : Int :=
  if amt < low then low else if amt > high then high else amt

/-! ## `types.h` -/

/-- The struct `Rect`. -/
structure Rect where
  x : Int := 0
  y : Int := 0
  w : Int := 0
  h : Int := 0
  deriving DecidableEq, Repr

/-- The struct `Constraints`. -/
structure Constraints where
  min_w : Int := 0
  min_h : Int := 0
  max_w : Int := 0
  max_h : Int := 0
  deriving DecidableEq, Repr

/-- The struct `Size`. -/
structure Size where
  w : Int := 0
  h : Int := 0
  deriving DecidableEq, Repr

/-- The enum `Align`. -/
inductive Align where
  | START | CENTER | END | STRETCH
  deriving DecidableEq, Repr

/-- The enum `Arrangement`. -/
inductive Arrangement where
  | START | CENTER | END | SPACE_BETWEEN | SPACE_EVENLY
  deriving DecidableEq, Repr

/-- The struct `EdgeInsets`. -/
structure EdgeInsets where
  left : Int := 0
  top : Int := 0
  right : Int := 0
  bottom : Int := 0
  deriving DecidableEq, Repr

/-! ## Leaf widgets: the configuration read by `measure` -/

/-- The concrete leaf classes, each with the members its `measure` reads.
String members are represented by their `strlen`. -/
inductive LeafKind where
  /-- Class `Spacer`: `_fixed_w`, `_fixed_h`. -/
  | spacer (fixed_w fixed_h : Int)
  /-- Class `BatteryWidget`. -/
  | battery
  /-- Class `ButtonWidget`: `strlen(_label)`, `_pad`. -/
  | button (label_len : Nat) (pad : EdgeInsets)
  /-- Class `CheckboxWidget`: `_label` (null, or its `strlen`). -/
  | checkbox (label : Option Nat)
  /-- Class `KeyboardWidget`. -/
  | keyboard
  /-- Class `ProgressBarWidget`. -/
  | progressBar
  /-- Class `SliderWidget`. -/
  | slider
  /-- Class `SwitchWidget`: `_track_w`, `_track_h`. -/
  | switch (track_w track_h : Int)
  /-- Class `TextAreaWidget`: `_height`. -/
  | textArea (height : Int)
  /-- Class `TextWidget`: `strlen(_text)`, `_font_size`. -/
  | text (text_len : Nat) (font_size : Nat)
  /-- Class `ValueWidget`: `_min_chars`, `_font_size`. -/
  | value (min_chars : Nat) (font_size : Nat)
  deriving DecidableEq, Repr

/-- The `measure` override of each leaf class. -/
def LeafKind.measure : LeafKind → Constraints → Size
  | .spacer fw fh, c =>
      ⟨constrain fw c.min_w c.max_w, constrain fh c.min_h c.max_h⟩
  | .battery, c =>
      -- ICON_W + NUB_W + GAP + 6 * CHAR_W * 2, ICON_H
      let w := wrap16 (40 + 4 + 6 + 6 * 6 * 2)
      ⟨constrain w c.min_w c.max_w, constrain 20 c.min_h c.max_h⟩
  | .button n pad, c =>
      let tw := wrap16 (6 * (n : Int) * 2 + pad.left + pad.right)
      let th := wrap16 (8 * 2 + pad.top + pad.bottom)
      ⟨constrain tw c.min_w c.max_w, constrain th c.min_h c.max_h⟩
  | .checkbox label, c =>
      let label_w : Int :=
        match label with
        | some n => wrap16 ((n : Int) * 6 * 2)
        | none => 0
      let tw := wrap16 (28 + 8 + label_w)
      ⟨constrain tw c.min_w c.max_w, constrain 28 c.min_h c.max_h⟩
  | .keyboard, c =>
      -- NUM_ROWS * ROW_H
      ⟨c.max_w, constrain (wrap16 (5 * 48)) c.min_h c.max_h⟩
  | .progressBar, c =>
      ⟨constrain 200 c.min_w c.max_w, constrain 20 c.min_h c.max_h⟩
  | .slider, c =>
      ⟨constrain 200 c.min_w c.max_w, constrain 40 c.min_h c.max_h⟩
  | .switch tw th, c =>
      ⟨constrain tw c.min_w c.max_w, constrain th c.min_h c.max_h⟩
  | .textArea height, c =>
      ⟨c.max_w, constrain height c.min_h c.max_h⟩
  | .text n fs, c =>
      let tw := wrap16 (6 * (n : Int) * (fs : Int))
      let th := wrap16 (8 * (fs : Int))
      ⟨constrain tw c.min_w c.max_w, constrain th c.min_h c.max_h⟩
  | .value chars fs, c =>
      let tw := wrap16 (6 * (chars : Int) * (fs : Int))
      let th := wrap16 (8 * (fs : Int))
      ⟨constrain tw c.min_w c.max_w, constrain th c.min_h c.max_h⟩

/-! ## `widget.h`, `layout.h`: the tree -/

/-- The data members of `class Widget` (the parent link is the position in the tree). -/
structure WidgetBase where
  bounds : Rect := {}
  dirty : Bool := true
  visible : Bool := true
  deriving DecidableEq, Repr

/-- The three concrete subclasses of `Layout`. -/
inductive LayoutKind where
  | column | row | stack
  deriving DecidableEq, Repr

/-- The data members of `class Layout` other than the children, together with the
members of its subclasses: the cache `_measured` (an array indexed by child slot), and
`_cross_align` and `_arrangement` (which `Stack` does not have and never reads). -/
structure LayoutData where
  spacing : Int := 4
  padding : EdgeInsets := {}
  bg : Nat := 0xFFFFFF
  measured : Nat → Size := fun _ => {}
  cross_align : Align := .START
  arrangement : Arrangement := .START

/-- A node of the widget tree: a leaf widget, or a `Layout` with its children in
insertion order. -/
inductive Widget where
  | leaf (base : WidgetBase) (kind : LeafKind)
  | composite (base : WidgetBase) (kind : LayoutKind) (cfg : LayoutData)
      (children : List Widget)

namespace Widget

/-- The `Widget` members of a node. -/
def base : Widget → WidgetBase
  | .leaf b _ => b
  | .composite b _ _ _ => b

/-- Method `Widget::bounds`. -/
def bounds (w : Widget) : Rect := w.base.bounds

/-- Method `Widget::isDirty`. -/
def isDirty (w : Widget) : Bool := w.base.dirty

/-- Method `Widget::isVisible`. -/
def isVisible (w : Widget) : Bool := w.base.visible

/-- Method `Widget::isLayout`. -/
def isLayout : Widget → Bool
  | .leaf _ _ => false
  | .composite _ _ _ _ => true

/-- The children of a node (none for a leaf). -/
def children : Widget → List Widget
  | .leaf _ _ => []
  | .composite _ _ _ cs => cs

/-- The `Layout` members of a node (the defaults for a leaf). -/
def cfg : Widget → LayoutData
  | .leaf _ _ => {}
  | .composite _ _ c _ => c

/-- The cache `_measured` of a layout node. -/
def measured : Widget → Nat → Size
  | .leaf _ _ => fun _ => {}
  | .composite _ _ cfg _ => cfg.measured

end Widget

/-! ## The measure pass: `measure` of `Column`, `Row`, `Stack` and the leaves -/

/-- The variables the loop of a `measure` leaves behind: the children (whose own caches
were refreshed), the main-axis running total (`total_h` of `Column`, `total_w` of `Row`;
unused by `Stack`, which keeps two maxima in `cross` and `total`), the cross-axis maximum
and the cache `_measured`. -/
structure MeasureLoop where
  children : List Widget
  total : Int
  cross : Int
  measured : Nat → Size

mutual

/-- The virtual `measure(c)`: the returned `Size`, and the node afterwards (a layout
caches its children's sizes in `_measured`). -/
def Widget.measure : Widget → Constraints → Size × Widget
  | .leaf b k, c => (k.measure c, .leaf b k)
  | .composite b .column cfg cs, c =>
      let total_h := wrap16 (cfg.padding.top + cfg.padding.bottom)
      let content_w := wrap16 (c.max_w - cfg.padding.left - cfg.padding.right)
      let r := Column.measureLoop cfg.spacing content_w c.max_h cs 0 total_h 0 cfg.measured
      let max_w := wrap16 (r.cross + cfg.padding.left + cfg.padding.right)
      (⟨constrain max_w c.min_w c.max_w, constrain r.total c.min_h c.max_h⟩,
        .composite b .column { cfg with measured := r.measured } r.children)
  | .composite b .row cfg cs, c =>
      let total_w := wrap16 (cfg.padding.left + cfg.padding.right)
      let content_h := wrap16 (c.max_h - cfg.padding.top - cfg.padding.bottom)
      let r := Row.measureLoop cfg.spacing content_h c.max_w cs 0 total_w 0 cfg.measured
      let max_h := wrap16 (r.cross + cfg.padding.top + cfg.padding.bottom)
      (⟨constrain r.total c.min_w c.max_w, constrain max_h c.min_h c.max_h⟩,
        .composite b .row { cfg with measured := r.measured } r.children)
  | .composite b .stack cfg cs, c =>
      let r := Stack.measureLoop c cs 0 0 0 cfg.measured
      (⟨constrain (r.cross + cfg.padding.left + cfg.padding.right) c.min_w c.max_w,
        constrain (r.total + cfg.padding.top + cfg.padding.bottom) c.min_h c.max_h⟩,
        .composite b .stack { cfg with measured := r.measured } r.children)

/-- The loop of `Column::measure` from child slot `i` on, with the current `total_h`,
`max_w` and `_measured`. -/
def Column.measureLoop (spacing content_w max_h : Int) :
    List Widget → Nat → Int → Int → (Nat → Size) → MeasureLoop
  | [], _, total_h, max_w, m => ⟨[], total_h, max_w, m⟩
  | w :: ws, i, total_h, max_w, m =>
      if !w.isVisible then
        let r := Column.measureLoop spacing content_w max_h ws (i + 1) total_h max_w m
        { r with children := w :: r.children }
      else
        let cc : Constraints := ⟨0, 0, content_w, wrap16 (max_h - total_h)⟩
        let p := Widget.measure w cc
        let cs := p.1
        let total_h1 := if i > 0 then wrap16 (total_h + spacing) else total_h
        let total_h2 := wrap16 (total_h1 + cs.h)
        let max_w1 := if cs.w > max_w then cs.w else max_w
        let r := Column.measureLoop spacing content_w max_h ws (i + 1) total_h2 max_w1
          (Function.update m i cs)
        { r with children := p.2 :: r.children }

/-- The loop of `Row::measure` from child slot `i` on, with the current `total_w`,
`max_h` and `_measured`. -/
def Row.measureLoop (spacing content_h max_w : Int) :
    List Widget → Nat → Int → Int → (Nat → Size) → MeasureLoop
  | [], _, total_w, max_h, m => ⟨[], total_w, max_h, m⟩
  | w :: ws, i, total_w, max_h, m =>
      if !w.isVisible then
        let r := Row.measureLoop spacing content_h max_w ws (i + 1) total_w max_h m
        { r with children := w :: r.children }
      else
        let cc : Constraints := ⟨0, 0, wrap16 (max_w - total_w), content_h⟩
        let p := Widget.measure w cc
        let cs := p.1
        let total_w1 := if i > 0 then wrap16 (total_w + spacing) else total_w
        let total_w2 := wrap16 (total_w1 + cs.w)
        let max_h1 := if cs.h > max_h then cs.h else max_h
        let r := Row.measureLoop spacing content_h max_w ws (i + 1) total_w2 max_h1
          (Function.update m i cs)
        { r with children := p.2 :: r.children }

/-- The loop of `Stack::measure` from child slot `i` on, with the current `max_w`
(field `cross`), `max_h` (field `total`) and `_measured`. -/
def Stack.measureLoop (c : Constraints) :
    List Widget → Nat → Int → Int → (Nat → Size) → MeasureLoop
  | [], _, max_w, max_h, m => ⟨[], max_h, max_w, m⟩
  | w :: ws, i, max_w, max_h, m =>
      if !w.isVisible then
        let r := Stack.measureLoop c ws (i + 1) max_w max_h m
        { r with children := w :: r.children }
      else
        let p := Widget.measure w c
        let s := p.1
        let max_w1 := if s.w > max_w then s.w else max_w
        let max_h1 := if s.h > max_h then s.h else max_h
        let r := Stack.measureLoop c ws (i + 1) max_w1 max_h1 (Function.update m i s)
        { r with children := p.2 :: r.children }

end

/-! ## `Widget::place` and `Widget::markDirty` -/

/-- The assignment `_dirty = true` of `Widget::markDirty` (and of `Layout::onChildDirty`);
the call on the parent is the `Bool` returned by the callers. -/
def WidgetBase.markDirty (b : WidgetBase) : WidgetBase := { b with dirty := true }

/-- Method `Widget::place(x, y, w, h)` on the `Widget` members: the members afterwards,
and whether `markDirty()` ran (and so notified the parent chain). -/
def WidgetBase.place (b : WidgetBase) (x y w h : Int) : WidgetBase × Bool :=
  let nb : Rect := ⟨x, y, w, h⟩
  if nb ≠ b.bounds then
    let b1 := b.markDirty
    let b2 : WidgetBase := { b1 with bounds := nb }
    (b2.markDirty, true)
  else (b, false)

/-- Replace the `Widget` members of a node. -/
def Widget.setBase : Widget → WidgetBase → Widget
  | .leaf _ k, b => .leaf b k
  | .composite _ kind cfg cs, b => .composite b kind cfg cs

/-- Method `Widget::place(x, y, w, h)` on a node. -/
def Widget.place (n : Widget) (x y w h : Int) : Widget × Bool :=
  let p := n.base.place x y w h
  (n.setBase p.1, p.2)

/-- Method `Widget::markDirty()` on a node (always notifies the parent chain). -/
def Widget.markDirty (n : Widget) : Widget × Bool :=
  (n.setBase n.base.markDirty, true)

/-! ## The layout pass: `layout` of `Column`, `Row`, `Stack` -/

/-- The first loop of `Column::layout`, from child slot `i` on: `total_child_h` and
`visible` (a `uint8_t`; a layout has at most 16 children). -/
def Column.countLoop (measured : Nat → Size) : List Widget → Nat → Int → Nat → Int × Nat
  | [], _, total_child_h, visible => (total_child_h, visible)
  | w :: ws, i, total_child_h, visible =>
      if !w.isVisible then Column.countLoop measured ws (i + 1) total_child_h visible
      else Column.countLoop measured ws (i + 1)
        (wrap16 (total_child_h + (measured i).h)) (visible + 1)

/-- The first loop of `Row::layout`, from child slot `i` on: `total_child_w` and
`visible`. -/
def Row.countLoop (measured : Nat → Size) : List Widget → Nat → Int → Nat → Int × Nat
  | [], _, total_child_w, visible => (total_child_w, visible)
  | w :: ws, i, total_child_w, visible =>
      if !w.isVisible then Row.countLoop measured ws (i + 1) total_child_w visible
      else Row.countLoop measured ws (i + 1)
        (wrap16 (total_child_w + (measured i).w)) (visible + 1)

/-- The `total_spacing` of `Column::layout` and `Row::layout`:
`(visible > 1) ? _spacing * (visible - 1) : 0`, stored in an `int16_t`. -/
def totalSpacing (spacing : Int) (visible : Nat) : Int :=
  if visible > 1 then wrap16 (spacing * ((visible : Int) - 1)) else 0

/-- The `extra` of `Column::layout` and `Row::layout`: the container size minus the two
paddings, the children and the spacing, stored in an `int16_t` and floored at 0. -/
def extraSpace (size pad_start pad_end total_child total_spacing : Int) : Int :=
  let extra := wrap16 (size - pad_start - pad_end - total_child - total_spacing)
  if extra < 0 then 0 else extra

/-- The statements of `Column::layout` (and, with `x`, `w`, `left`, `right` for `y`, `h`,
`top`, `bottom`, of `Row::layout`) between the two loops: `total_spacing`, `extra`, and the
`switch (_arrangement)`. `origin` and `size` are `_bounds.y` and `_bounds.h`, `pad_start`
and `pad_end` are `_padding.top` and `_padding.bottom`. Returns the starting cursor and
the gap. -/
def arrangeMain (arrangement : Arrangement) (spacing origin size pad_start pad_end : Int)
    (total_child : Int) (visible : Nat) : Int × Int :=
  let total_spacing := totalSpacing spacing visible
  let extra := extraSpace size pad_start pad_end total_child total_spacing
  let cursor := wrap16 (origin + pad_start)
  let gap := spacing
  match arrangement with
  | .CENTER => (wrap16 (cursor + Int.tdiv extra 2), gap)
  | .END => (wrap16 (cursor + extra), gap)
  | .SPACE_BETWEEN =>
      if visible > 1 then
        (cursor, wrap16 (Int.tdiv (extra + total_spacing) ((visible : Int) - 1)))
      else (cursor, gap)
  | .SPACE_EVENLY =>
      if visible > 0 then
        let eg := wrap16 (Int.tdiv (extra + total_spacing) ((visible : Int) + 1))
        (wrap16 (cursor + eg), eg)
      else (cursor, gap)
  | .START => (cursor, gap)

/-- The `switch (_cross_align)` of `Column::layout` on `child_x`, `child_w` (and of
`Row::layout` on `child_y`, `child_h`): `start` is the initial `child_x`, `avail` is
`avail_w`, `child` the cached `_measured[i].w`. Returns `child_x` and `child_w`. -/
def alignCross (a : Align) (start avail child : Int) : Int × Int :=
  match a with
  | .CENTER => (wrap16 (start + Int.tdiv (avail - child) 2), child)
  | .END => (wrap16 (start + (avail - child)), child)
  | .STRETCH => (start, avail)
  | .START => (start, child)

mutual

/-- Method `layout()` of the node once its `Widget` members are `b` (for a leaf, which has
no `layout()`, only the members are replaced): the node afterwards, and whether a
`markDirty()` of a descendant reached it. `w.place(..)` followed by `layout()` is
`layoutIn w (w.base.place ..).1`. -/
def Widget.layoutIn : Widget → WidgetBase → Widget × Bool
  | .leaf _ k, b => (.leaf b k, false)
  | .composite _ .column cfg cs, b =>
      let avail_w := wrap16 (b.bounds.w - cfg.padding.left - cfg.padding.right)
      let cnt := Column.countLoop cfg.measured cs 0 0 0
      let a := arrangeMain cfg.arrangement cfg.spacing b.bounds.y b.bounds.h
        cfg.padding.top cfg.padding.bottom cnt.1 cnt.2
      let r := Column.layoutLoop b.bounds cfg avail_w a.2 cs 0 a.1
      (.composite { b with dirty := b.dirty || r.2 } .column cfg r.1, r.2)
  | .composite _ .row cfg cs, b =>
      let avail_h := wrap16 (b.bounds.h - cfg.padding.top - cfg.padding.bottom)
      let cnt := Row.countLoop cfg.measured cs 0 0 0
      let a := arrangeMain cfg.arrangement cfg.spacing b.bounds.x b.bounds.w
        cfg.padding.left cfg.padding.right cnt.1 cnt.2
      let r := Row.layoutLoop b.bounds cfg avail_h a.2 cs 0 a.1
      (.composite { b with dirty := b.dirty || r.2 } .row cfg r.1, r.2)
  | .composite _ .stack cfg cs, b =>
      let cx := wrap16 (b.bounds.x + cfg.padding.left)
      let cy := wrap16 (b.bounds.y + cfg.padding.top)
      let cw := wrap16 (b.bounds.w - cfg.padding.left - cfg.padding.right)
      let ch := wrap16 (b.bounds.h - cfg.padding.top - cfg.padding.bottom)
      let r := Stack.layoutLoop cx cy cw ch cs
      (.composite { b with dirty := b.dirty || r.2 } .stack cfg r.1, r.2)

/-- The second loop of `Column::layout` from child slot `i` on, with the current
`cursor_y`: the children afterwards, and whether one of them called `markDirty()`. -/
def Column.layoutLoop (bounds : Rect) (cfg : LayoutData) (avail_w gap : Int) :
    List Widget → Nat → Int → List Widget × Bool
  | [], _, _ => ([], false)
  | w :: ws, i, cursor_y =>
      if !w.isVisible then
        let r := Column.layoutLoop bounds cfg avail_w gap ws (i + 1) cursor_y
        (w :: r.1, r.2)
      else
        let cross := alignCross cfg.cross_align (wrap16 (bounds.x + cfg.padding.left))
          avail_w (cfg.measured i).w
        let p := w.base.place cross.1 cursor_y cross.2 (cfg.measured i).h
        let l := Widget.layoutIn w p.1
        let r := Column.layoutLoop bounds cfg avail_w gap ws (i + 1)
          (wrap16 (cursor_y + (cfg.measured i).h + gap))
        (l.1 :: r.1, p.2 || l.2 || r.2)

/-- The second loop of `Row::layout` from child slot `i` on, with the current
`cursor_x`. -/
def Row.layoutLoop (bounds : Rect) (cfg : LayoutData) (avail_h gap : Int) :
    List Widget → Nat → Int → List Widget × Bool
  | [], _, _ => ([], false)
  | w :: ws, i, cursor_x =>
      if !w.isVisible then
        let r := Row.layoutLoop bounds cfg avail_h gap ws (i + 1) cursor_x
        (w :: r.1, r.2)
      else
        let cross := alignCross cfg.cross_align (wrap16 (bounds.y + cfg.padding.top))
          avail_h (cfg.measured i).h
        let p := w.base.place cursor_x cross.1 (cfg.measured i).w cross.2
        let l := Widget.layoutIn w p.1
        let r := Row.layoutLoop bounds cfg avail_h gap ws (i + 1)
          (wrap16 (cursor_x + (cfg.measured i).w + gap))
        (l.1 :: r.1, p.2 || l.2 || r.2)

/-- The loop of `Stack::layout`. -/
def Stack.layoutLoop (cx cy cw ch : Int) : List Widget → List Widget × Bool
  | [] => ([], false)
  | w :: ws =>
      if !w.isVisible then
        let r := Stack.layoutLoop cx cy cw ch ws
        (w :: r.1, r.2)
      else
        let p := w.base.place cx cy cw ch
        let l := Widget.layoutIn w p.1
        let r := Stack.layoutLoop cx cy cw ch ws
        (l.1 :: r.1, p.2 || l.2 || r.2)

end

/-- Method `layout()` of a layout node. -/
def Widget.layout (n : Widget) : Widget × Bool := n.layoutIn n.base

/-! ## Nodes addressed by their position in the tree -/

mutual

/-- The node reached from `n` by following the child indices of the path. -/
def Widget.nodeAt : Widget → List Nat → Option Widget
  | .leaf b k, [] => some (.leaf b k)
  | .composite b kind cfg cs, [] => some (.composite b kind cfg cs)
  | .leaf _ _, _ :: _ => none
  | .composite _ _ _ cs, i :: path => Widget.childAt cs i path

/-- The node reached from the `i`-th widget of a child list by the path. -/
def Widget.childAt : List Widget → Nat → List Nat → Option Widget
  | [], _, _ => none
  | w :: _, 0, path => Widget.nodeAt w path
  | _ :: ws, i + 1, path => Widget.childAt ws i path

end

mutual

/-- Run the method `f` on the node at the path. When `f` reports a `markDirty()`, every
node on the way from the root is an ancestor reached through the parent links, on which
`Layout::onChildDirty` sets `_dirty`. -/
def Widget.applyAt (f : Widget → Widget × Bool) : Widget → List Nat → Widget × Bool
  | .leaf b k, [] => f (.leaf b k)
  | .composite b kind cfg cs, [] => f (.composite b kind cfg cs)
  | .leaf b k, _ :: _ => (.leaf b k, false)
  | .composite b kind cfg cs, i :: path =>
      let r := Widget.applyAtChild f cs i path
      (.composite (if r.2 then b.markDirty else b) kind cfg r.1, r.2)

/-- Run `f` on the node reached from the `i`-th widget of a child list. -/
def Widget.applyAtChild (f : Widget → Widget × Bool) :
    List Widget → Nat → List Nat → List Widget × Bool
  | [], _, _ => ([], false)
  | w :: ws, 0, path =>
      let r := Widget.applyAt f w path
      (r.1 :: ws, r.2)
  | w :: ws, i + 1, path =>
      let r := Widget.applyAtChild f ws i path
      (w :: r.1, r.2)

end

/-- Method `place(x, y, w, h)` called on the node at the path of the tree `root`. -/
def Widget.placeAt (root : Widget) (path : List Nat) (x y w h : Int) : Widget × Bool :=
  Widget.applyAt (fun n => n.place x y w h) root path

/-! ## Vocabulary of the layout claims -/

/-- The child slots from slot `i` on: for each child, whether it is visible, and the size
cached for it in `_measured`. -/
def slotsFrom (measured : Nat → Size) : List Widget → Nat → List (Bool × Size)
  | [], _ => []
  | w :: ws, i => (w.isVisible, measured i) :: slotsFrom measured ws (i + 1)

/-- Main-axis origin and size of a rect: `y`, `h` for a `Column`, `x`, `w` for a `Row`. -/
def LayoutKind.mainOf : LayoutKind → Rect → Int × Int
  | .row, r => (r.x, r.w)
  | _, r => (r.y, r.h)

/-- Cross-axis origin and size of a rect: `x`, `w` for a `Column`, `y`, `h` for a `Row`. -/
def LayoutKind.crossOf : LayoutKind → Rect → Int × Int
  | .row, r => (r.y, r.h)
  | _, r => (r.x, r.w)

/-- Main-axis component of a size: `h` for a `Column`, `w` for a `Row`. -/
def LayoutKind.mainSize : LayoutKind → Size → Int
  | .row, s => s.w
  | _, s => s.h

/-- Cross-axis component of a size: `w` for a `Column`, `h` for a `Row`. -/
def LayoutKind.crossSize : LayoutKind → Size → Int
  | .row, s => s.h
  | _, s => s.w

/-- Leading and trailing padding on the main axis: `top`, `bottom` for a `Column`,
`left`, `right` for a `Row`. -/
def LayoutKind.mainPad : LayoutKind → EdgeInsets → Int × Int
  | .row, p => (p.left, p.right)
  | _, p => (p.top, p.bottom)

/-- Leading and trailing padding on the cross axis: `left`, `right` for a `Column`,
`top`, `bottom` for a `Row`. -/
def LayoutKind.crossPad : LayoutKind → EdgeInsets → Int × Int
  | .row, p => (p.top, p.bottom)
  | _, p => (p.left, p.right)

/-- The cached main-axis sizes of the visible children among the first `k` children. -/
def visibleMainBefore (kind : LayoutKind) (measured : Nat → Size) (cs : List Widget)
    (k : Nat) : List Int :=
  (((slotsFrom measured cs 0).take k).filter (fun s => s.1)).map (fun s => kind.mainSize s.2)

/-- The cached main-axis sizes `s_1 .. s_n` of all the visible children. -/
def visibleMain (kind : LayoutKind) (measured : Nat → Size) (cs : List Widget) : List Int :=
  visibleMainBefore kind measured cs cs.length

/-- Sum of `s + g` over the cached main-axis sizes `s` of the visible children among the
first `k` children of a list whose head occupies slot `i`. -/
def offsetFrom (kind : LayoutKind) (measured : Nat → Size) (g : Int) (cs : List Widget)
    (i k : Nat) : Int :=
  ((((slotsFrom measured cs i).take k).filter (fun s => s.1)).map
    (fun s => kind.mainSize s.2 + g)).sum

/-- The start of the content box on the main axis: bounds origin plus leading padding. -/
def contentStart (kind : LayoutKind) (b : Rect) (p : EdgeInsets) : Int :=
  (kind.mainOf b).1 + (kind.mainPad p).1

/-- The main-axis size of the content box: container size minus both paddings. -/
def contentSize (kind : LayoutKind) (b : Rect) (p : EdgeInsets) : Int :=
  (kind.mainOf b).2 - (kind.mainPad p).1 - (kind.mainPad p).2

/-- The start of the content box on the cross axis. -/
def crossStart (kind : LayoutKind) (b : Rect) (p : EdgeInsets) : Int :=
  (kind.crossOf b).1 + (kind.crossPad p).1

/-- The available cross-axis size: container cross size minus both cross paddings. -/
def crossAvail (kind : LayoutKind) (b : Rect) (p : EdgeInsets) : Int :=
  (kind.crossOf b).2 - (kind.crossPad p).1 - (kind.crossPad p).2

/-- The number `n` of visible children. -/
def visibleCount (cs : List Widget) : Nat := (cs.filter Widget.isVisible).length

/-- The main-axis space left over by the children, before flooring: content size minus
the sum of the cached main sizes of the visible children minus `spacing * (n - 1)`. -/
def spareSpace (kind : LayoutKind) (b : Rect) (cfg : LayoutData) (cs : List Widget) : Int :=
  contentSize kind b cfg.padding - (visibleMain kind cfg.measured cs).sum -
    cfg.spacing * ((visibleCount cs : Int) - 1)

/-- The main-axis origin of slot `k` when the first visible child starts at `start` and
each visible child is followed by `gap`: `start` plus the sum of `s_j + gap` over the
visible children `j` before slot `k`. -/
def originAt (kind : LayoutKind) (cfg : LayoutData) (cs : List Widget) (start gap : Int)
    (k : Nat) : Int :=
  start + ((visibleMainBefore kind cfg.measured cs k).map (fun s => s + gap)).sum

/-- The bounds of the `k`-th child (slot `k`) after `layout()` of the node. -/
def Widget.placedBounds (n : Widget) (k : Nat) : Option Rect :=
  n.layout.1.children[k]?.map Widget.bounds

/-! ## Update hints -/

/-- The enum `UpdateHint`, ordered by its numeric value
`NONE = 0 < MONO = 1 < FAST = 2 < TEXT = 3 < QUALITY = 4`. -/
inductive UpdateHint where
  | NONE | MONO | FAST | TEXT | QUALITY
  deriving DecidableEq, Repr

/-- The numeric value of an `UpdateHint` (the cast `(uint8_t)hint`). -/
def UpdateHint.toNat : UpdateHint → Nat
  | .NONE => 0
  | .MONO => 1
  | .FAST => 2
  | .TEXT => 3
  | .QUALITY => 4

/-- The `updateHint()` override of each leaf class (`BatteryWidget`, `ProgressBarWidget`
and `SliderWidget` return FAST, which is also the default of `Widget`). -/
def LeafKind.updateHint : LeafKind → UpdateHint
  | .spacer _ _ => .NONE
  | .battery => .FAST
  | .button _ _ => .MONO
  | .checkbox _ => .MONO
  | .keyboard => .MONO
  | .progressBar => .FAST
  | .slider => .FAST
  | .switch _ _ => .QUALITY
  | .textArea _ => .TEXT
  | .text _ _ => .TEXT
  | .value _ _ => .QUALITY

/-- The virtual `updateHint()`: a `Layout` keeps the default FAST of `Widget`. -/
def Widget.updateHint : Widget → UpdateHint
  | .leaf _ k => k.updateHint
  | .composite _ _ _ _ => .FAST

/-! ## Vocabulary of the `Stack` claims -/

/-- The sizes returned by `measure(c)` of the visible children, all measured under the
same constraints `c`, in insertion order. -/
def visibleMeasured (c : Constraints) (cs : List Widget) : List Size :=
  (cs.filter Widget.isVisible).map (fun w => (w.measure c).1)

/-- The maximum of a list of sizes on one axis, starting from 0 (so 0 for no size). -/
def maxFromZero (l : List Int) : Int := l.foldl max 0

/-! ## `types.h`: the methods of `Rect` -/

/-- Method `Rect::contains(px, py)` (the sums are computed in `int`). -/
def Rect.contains (r : Rect) (px py : Int) : Bool :=
  decide (px ≥ r.x) && decide (px < r.x + r.w) && decide (py ≥ r.y) && decide (py < r.y + r.h)

/-- Method `Rect::isEmpty()`: `w == 0 && h == 0`. -/
def Rect.isEmpty (r : Rect) : Bool := decide (r.w = 0) && decide (r.h = 0)

/-- Method `Rect::unite(o)`. -/
def Rect.unite (r o : Rect) : Rect :=
  if r.w = 0 ∧ r.h = 0 then o
  else if o.w = 0 ∧ o.h = 0 then r
  else
    let nx := min r.x o.x
    let ny := min r.y o.y
    let nr := max (wrap16 (r.x + r.w)) (wrap16 (o.x + o.w))
    let nb := max (wrap16 (r.y + r.h)) (wrap16 (o.y + o.h))
    ⟨nx, ny, wrap16 (nr - nx), wrap16 (nb - ny)⟩

/-- The rect `r` contains the rect `a`: every edge of `a` lies within `r`. -/
def Rect.encloses (r a : Rect) : Prop :=
  r.x ≤ a.x ∧ r.y ≤ a.y ∧ a.x + a.w ≤ r.x + r.w ∧ a.y + a.h ≤ r.y + r.h

instance (r a : Rect) : Decidable (r.encloses a) := by
  unfold Rect.encloses; infer_instance

/-- A rect of non-negative size whose edges lie in `[-16384, 16383]`, so that no
difference of two of its coordinates or edges overflows an `int16_t`. -/
def Rect.inRange (r : Rect) : Prop :=
  0 ≤ r.w ∧ 0 ≤ r.h ∧ -16384 ≤ r.x ∧ -16384 ≤ r.y ∧ r.x + r.w ≤ 16383 ∧ r.y + r.h ≤ 16383

instance (r : Rect) : Decidable r.inRange := by
  unfold Rect.inRange; infer_instance

/-! ## `screen.h`: collecting and merging the dirty rects -/

/-- The constant `MAX_DIRTY_RECTS`. -/
def MAX_DIRTY_RECTS : Nat := 8

mutual

/-- Method `Screen::collectDirtyRects(w)` for a non-null `w`; the list is
`_dirty_rects[0 .. _dirty_count)` before and after the call. A leaf is not a layout, so it
is recorded when dirty and has no children; a layout is never recorded and its children
are visited in order. -/
def Screen.collectDirtyRects : Widget → List Rect → List Rect
  | .leaf b _, rects =>
      if !b.visible then rects
      else if b.dirty then
        if rects.length < MAX_DIRTY_RECTS then rects ++ [b.bounds] else rects
      else rects
  | .composite b _ _ cs, rects =>
      if !b.visible then rects
      else Screen.collectDirtyChildren cs rects

/-- The loop of `Screen::collectDirtyRects` over the children of a layout. -/
def Screen.collectDirtyChildren : List Widget → List Rect → List Rect
  | [], rects => rects
  | w :: ws, rects => Screen.collectDirtyChildren ws (Screen.collectDirtyRects w rects)

end

/-- The merge step of `Screen::render` ("merge if too fragmented"): more than
`MAX_DIRTY_RECTS / 2` rects are replaced by the one rect `merged`. -/
def Screen.mergeDirtyRects (rects : List Rect) : List Rect :=
  if rects.length > MAX_DIRTY_RECTS / 2 then
    match rects with
    | [] => []
    | r0 :: rest => [rest.foldl Rect.unite r0]
  else rects

/-- The dirty rects that `Screen::render` clears, redraws and pushes for the tree `root`
(none when it returns early on `_dirty_count == 0`). -/
def Screen.renderRects (root : Widget) : List Rect :=
  Screen.mergeDirtyRects (Screen.collectDirtyRects root [])

mutual

/-- The bounds of the leaves that are dirty and visible and have only visible ancestors, in
pre-order. -/
def Widget.damageLeaves : Widget → List Rect
  | .leaf b _ => if b.visible && b.dirty then [b.bounds] else []
  | .composite b _ _ cs => if b.visible then Widget.damageLeavesOf cs else []

/-- The damage leaves of a list of sibling subtrees. -/
def Widget.damageLeavesOf : List Widget → List Rect
  | [] => []
  | w :: ws => Widget.damageLeaves w ++ Widget.damageLeavesOf ws

end

mutual

/-- Whether the node at the path and all its ancestors up to `n` are visible. -/
def Widget.visibleAlong : Widget → List Nat → Bool
  | .leaf b _, [] => b.visible
  | .composite b _ _ _, [] => b.visible
  | .leaf _ _, _ :: _ => false
  | .composite b _ _ cs, i :: path => b.visible && Widget.visibleAlongChild cs i path

/-- The same from the `i`-th widget of a child list. -/
def Widget.visibleAlongChild : List Widget → Nat → List Nat → Bool
  | [], _, _ => false
  | w :: _, 0, path => Widget.visibleAlong w path
  | _ :: ws, i + 1, path => Widget.visibleAlongChild ws i path

end

/-! ## `layout.h`: input dispatch -/

/-- The enum `TouchAction`. -/
inductive TouchAction where
  | DOWN | MOVE | UP
  deriving DecidableEq, Repr

/-- The struct `TouchEvent`. -/
structure TouchEvent where
  x : Int := 0
  y : Int := 0
  action : TouchAction := .DOWN
  deriving DecidableEq, Repr

/-- The loop `for (int8_t i = _child_count - 1; i >= 0; i--)` of `Layout::onTouch` over
the children still to visit, listed from the topmost slot down, each with its slot `i`.
`childTouch` is the virtual call `_children[i]->onTouch(event)` and its returned value.
Returns the slots on which that call was made, in the order of the calls, and the value
returned by `Layout::onTouch`. -/
def Layout.onTouchLoop (childTouch : Widget → TouchEvent → Bool) (event : TouchEvent) :
    List (Nat × Widget) → List Nat × Bool
  | [] => ([], false)
  | (i, w) :: rest =>
      if w.isVisible && w.bounds.contains event.x event.y then
        if childTouch w event then ([i], true)
        else
          let r := Layout.onTouchLoop childTouch event rest
          (i :: r.1, r.2)
      else Layout.onTouchLoop childTouch event rest

/-- Method `Layout::onTouch(event)` of a layout with the children `cs` (in insertion
order, slot 0 first). -/
def Layout.onTouch (childTouch : Widget → TouchEvent → Bool) (cs : List Widget)
    (event : TouchEvent) : List Nat × Bool :=
  Layout.onTouchLoop childTouch event cs.enum.reverse

/-- The children that are visible and whose bounds contain the point of the event, with
their slots, from the topmost (inserted last) down to slot 0. -/
def Layout.hitChildren (cs : List Widget) (event : TouchEvent) : List (Nat × Widget) :=
  cs.enum.reverse.filter (fun p => p.2.isVisible && p.2.bounds.contains event.x event.y)

/-! ## `layout.h`: `Layout::add` -/

/-- The constant `MAX_CHILDREN`. -/
def MAX_CHILDREN : Nat := 16

/-- The part of the object graph that `Layout::add` reads and writes, with widgets named
by their addresses: the entries `_children[0 .. _child_count)` of the receiver, and the
`_parent` link of every widget (`none` is `nullptr`). -/
structure AddState where
  children : List Nat
  parent : Nat → Option Nat

/-- Method `Layout::add(child)` of the layout at address `self`. -/
def Layout.add (self : Nat) (s : AddState) (child : Nat) : AddState :=
  if s.children.length < MAX_CHILDREN then
    ⟨s.children ++ [child], Function.update s.parent child (some self)⟩
  else s

/-! ## `widget.cpp`: `markDirty` on a node of the tree -/

/-- Method `markDirty()` called on the node at the path of the tree `root`. -/
def Widget.markDirtyAt (root : Widget) (path : List Nat) : Widget × Bool :=
  Widget.applyAt Widget.markDirty root path

/-- Whether the node at path `q` is the node at path `p` or one of its ancestors, that is,
whether `q` is an initial segment of `p`. -/
def onParentChain : List Nat → List Nat → Bool
  | [], _ => true
  | _ :: _, [] => false
  | j :: q, i :: p => decide (j = i) && onParentChain q p

/-! ## `screen.h`: drawing, clearing and pushing -/

/-- Method `Rect::intersects(o)` (the sums are computed in `int`). -/
def Rect.intersects (r o : Rect) : Bool :=
  !(decide (r.x + r.w ≤ o.x) || decide (o.x + o.w ≤ r.x) ||
    decide (r.y + r.h ≤ o.y) || decide (o.y + o.h ≤ r.y))

/-- The constants `SCREEN_W` and `SCREEN_H`. -/
def SCREEN_W : Int := 540

/-- The constant `SCREEN_H`. -/
def SCREEN_H : Int := 960

/-- The constant `Colors::WHITE`. -/
def WHITE : Nat := 0xFFFFFF

/-- Modelled from the spec: the refresh modes `epd_mode_t` of the display driver (M5GFX),
of which the toolkit uses `epd_quality`, `epd_text`, `epd_fast` and `epd_fastest`. -/
inductive EpdMode where
  | epd_quality | epd_text | epd_fast | epd_fastest
  deriving DecidableEq, Repr

/-- The calls that the `Screen` makes on the drawing surface `_gfx`, and the virtual
`draw(gfx)` calls it makes on leaf widgets (whose own drawing primitives are not listed:
no leaf `draw` writes a member of the widget). -/
inductive GfxCall where
  | fillScreen (color : Nat)
  | fillRect (r : Rect) (color : Nat)
  | drawLeaf (bounds : Rect) (kind : LeafKind)
  | setEpdMode (mode : EpdMode)
  | display
  | displayRect (r : Rect)
  deriving DecidableEq

mutual

/-- Method `Screen::clearAllDirty(w)` for a non-null `w`. -/
def Screen.clearAllDirty : Widget → Widget
  | .leaf b k => .leaf { b with dirty := false } k
  | .composite b kind cfg cs =>
      .composite { b with dirty := false } kind cfg (Screen.clearAllDirtyChildren cs)

/-- The loop of `Screen::clearAllDirty` over the children of a layout. -/
def Screen.clearAllDirtyChildren : List Widget → List Widget
  | [] => []
  | w :: ws => Screen.clearAllDirty w :: Screen.clearAllDirtyChildren ws

end

mutual

/-- The virtual `draw(gfx)`: `Layout::draw` fills its bounds when the background is not
white and draws its visible children in order; a leaf draws itself. -/
def Widget.draw : Widget → List GfxCall
  | .leaf b k => [.drawLeaf b.bounds k]
  | .composite b _ cfg cs =>
      (if cfg.bg ≠ WHITE then [GfxCall.fillRect b.bounds cfg.bg] else []) ++
        Widget.drawChildren cs

/-- The loop of `Layout::draw` over the children. -/
def Widget.drawChildren : List Widget → List GfxCall
  | [] => []
  | w :: ws => (if w.isVisible then Widget.draw w else []) ++ Widget.drawChildren ws

end

mutual

/-- Method `Screen::redrawRegion(w, region)` for a non-null `w`. -/
def Screen.redrawRegion : Widget → Rect → List GfxCall
  | .leaf b k, region =>
      if !b.visible then []
      else if !b.bounds.intersects region then []
      else [.drawLeaf b.bounds k]
  | .composite b _ cfg cs, region =>
      if !b.visible then []
      else if !b.bounds.intersects region then []
      else
        (if cfg.bg ≠ WHITE then [GfxCall.fillRect b.bounds cfg.bg] else []) ++
          Screen.redrawChildren cs region

/-- The loop of `Screen::redrawRegion` over the children of a layout. -/
def Screen.redrawChildren : List Widget → Rect → List GfxCall
  | [], _ => []
  | w :: ws, region => Screen.redrawRegion w region ++ Screen.redrawChildren ws region

end

mutual

/-- Method `Screen::worstHintInRegion(w, region)` for a non-null `w`. -/
def Screen.worstHintInRegion : Widget → Rect → UpdateHint
  | .leaf b k, region =>
      if !b.visible || !b.bounds.intersects region then .NONE
      else if b.dirty then k.updateHint else .NONE
  | .composite b _ _ cs, region =>
      if !b.visible || !b.bounds.intersects region then .NONE
      else Screen.worstHintChildren cs region (if b.dirty then .FAST else .NONE)

/-- The loop of `Screen::worstHintInRegion` over the children, `result` being the local
of that name. -/
def Screen.worstHintChildren : List Widget → Rect → UpdateHint → UpdateHint
  | [], _, result => result
  | w :: ws, region, result =>
      let ch := Screen.worstHintInRegion w region
      Screen.worstHintChildren ws region (if ch.toNat > result.toNat then ch else result)

end

/-- Method `Screen::selectEpdMode(region)`; `root` is the member `_root` (`none` is
`nullptr`, for which `worstHintInRegion` returns NONE). -/
def Screen.selectEpdMode (root : Option Widget) (region : Rect) : EpdMode :=
  let worst := match root with
    | none => UpdateHint.NONE
    | some w => Screen.worstHintInRegion w region
  match worst with
  | .QUALITY => .epd_quality
  | .TEXT => .epd_text
  | .FAST => .epd_fast
  | .MONO => .epd_fastest
  | .NONE => .epd_fast

/-- Method `Screen::pushDirtyRect(dr)`. -/
def Screen.pushDirtyRect (root : Option Widget) (dr : Rect) : List GfxCall :=
  [.setEpdMode (Screen.selectEpdMode root dr), .displayRect dr]

/-! ## `screen.h`: the `Screen` -/

/-- The members of `Screen` that its passes read and write: `_gfx` (only whether it is
non-null), `_root` (`none` is `nullptr`), `_last_synced_gen` (uint32_t), the touch state
`_touch_active`, `_last_x`, `_last_y`, `_debounce_until` (unsigned long, 32 bits), and the
refresh counter `_partial_count` with `_full_refresh_interval` (both uint16_t). The
scratch members `_dirty_rects` and `_dirty_count` are rebuilt by every `render` and are
kept local to it. -/
structure Screen where
  gfx : Bool := false
  root : Option Widget := none
  last_synced_gen : Nat := 0
  touch_active : Bool := false
  last_x : Int := 0
  last_y : Int := 0
  debounce_until : Nat := 0
  partial_count : Nat := 0
  full_refresh_interval : Nat := 10

/-- Method `Screen::fullRefresh()`: the new members and the calls made on the surface. -/
def Screen.fullRefresh (s : Screen) : Screen × List GfxCall :=
  match s.gfx, s.root with
  | true, some root =>
      ({ s with partial_count := 0 },
        [GfxCall.fillScreen WHITE] ++ root.draw ++ [.setEpdMode .epd_quality, .display])
  | _, _ => (s, [])

/-- Method `Screen::performLayout()`: the new members and the calls made on the surface. -/
def Screen.performLayout (s : Screen) : Screen × List GfxCall :=
  match s.root, s.gfx with
  | some root, true =>
      let r1 := (root.measure ⟨SCREEN_W, SCREEN_H, SCREEN_W, SCREEN_H⟩).2
      let r2 := (r1.place 0 0 SCREEN_W SCREEN_H).1
      let r3 := r2.layout.1
      ({ s with root := some (Screen.clearAllDirty r3) },
        [GfxCall.fillScreen WHITE] ++ r3.draw ++ [.setEpdMode .epd_quality, .display])
  | _, _ => (s, [])

/-- The first loop of `Screen::render`: every dirty rect is filled with white and the
widgets intersecting it are redrawn. -/
def Screen.redrawCalls (root : Widget) : List Rect → List GfxCall
  | [] => []
  | r :: rs => GfxCall.fillRect r WHITE :: Screen.redrawRegion root r ++
      Screen.redrawCalls root rs

/-- The second loop of `Screen::render`: every dirty rect is pushed by `pushDirtyRect`;
`root` is the tree at that point of the pass. -/
def Screen.pushCalls (root : Widget) : List Rect → List GfxCall
  | [] => []
  | r :: rs => Screen.pushDirtyRect (some root) r ++ Screen.pushCalls root rs

/-- Method `Screen::render()`: the new members and the calls made on the surface. The
result is `none` when the pass dereferences the null `_gfx` (a root with a dirty rect and
no surface bound). -/
def Screen.render (s : Screen) : Option (Screen × List GfxCall) :=
  match s.root with
  | none => some (s, [])
  | some root =>
      let collected := Screen.collectDirtyRects root []
      if collected.length = 0 then some (s, [])
      else if !s.gfx then none
      else
        let rects := Screen.mergeDirtyRects collected
        let redraw := Screen.redrawCalls root rects
        let cleared := Screen.clearAllDirty root
        let pushes := Screen.pushCalls cleared rects
        let count := (s.partial_count + 1) % 65536
        let s1 : Screen := { s with root := some cleared, partial_count := count }
        if s.full_refresh_interval > 0 ∧ count ≥ s.full_refresh_interval then
          let f := s1.fullRefresh
          some (f.1, redraw ++ pushes ++ f.2)
        else some (s1, redraw ++ pushes)

/-- The constant `TOUCH_DEBOUNCE_MS`. -/
def TOUCH_DEBOUNCE_MS : Nat := 80

/-- Method `Screen::processTouch()`. `now` is the value of `millis()` during the call,
`sample` the first touch point of the panel (`none` when `getCount()` is 0), and
`rootTouch` the effect of `_root->onTouch(ev)` on the tree. Returns the new members and
the events dispatched to the root. -/
def Screen.processTouch (rootTouch : Widget → TouchEvent → Widget) (s : Screen) (now : Nat)
    (sample : Option (Int × Int)) : Screen × List TouchEvent :=
  match s.root with
  | none => (s, [])
  | some root =>
      if s.debounce_until ≠ 0 ∧ now < s.debounce_until then (s, [])
      else
        let s0 : Screen := { s with debounce_until := 0 }
        match sample with
        | some (x, y) =>
            let ev : TouchEvent := ⟨x, y, if s0.touch_active then .MOVE else .DOWN⟩
            ({ s0 with touch_active := true, last_x := x, last_y := y,
                       root := some (rootTouch root ev) }, [ev])
        | none =>
            if s0.touch_active then
              let ev : TouchEvent := ⟨s0.last_x, s0.last_y, .UP⟩
              ({ s0 with touch_active := false,
                         debounce_until := (now + TOUCH_DEBOUNCE_MS) % 2 ^ 32,
                         root := some (rootTouch root ev) }, [ev])
            else (s0, [])

/-- A run of `processTouch` over successive ticks, each with its time and its sample:
the final members and all events dispatched, in order. -/
def Screen.touchRun (rootTouch : Widget → TouchEvent → Widget) (s : Screen) :
    List (Nat × Option (Int × Int)) → Screen × List TouchEvent
  | [] => (s, [])
  | (now, sample) :: rest =>
      let r := Screen.processTouch rootTouch s now sample
      let q := Screen.touchRun rootTouch r.1 rest
      (q.1, r.2 ++ q.2)

mutual

/-- Method `Screen::syncAll(w)` for a non-null `w`: the nodes on which `sync()` is called,
in the order of the calls, each named by its path from `w`. -/
def Screen.syncAll : Widget → List (List Nat)
  | .leaf _ _ => [[]]
  | .composite _ _ _ cs => [] :: Screen.syncAllChildren cs 0

/-- The loop of `Screen::syncAll` over the children from slot `i` on. -/
def Screen.syncAllChildren : List Widget → Nat → List (List Nat)
  | [], _ => []
  | w :: ws, i => (Screen.syncAll w).map (fun p => i :: p) ++ Screen.syncAllChildren ws (i + 1)

end

/-- The first statement of `Screen::update()`: `global_gen` is the value of
`StateBase::global_gen()`. Returns the new members and the nodes on which `sync()` was
called (the effect of `sync()` on a widget is that of its class and is not followed
here). -/
def Screen.syncStep (s : Screen) (global_gen : Nat) : Screen × List (List Nat) :=
  if global_gen ≠ s.last_synced_gen then
    ({ s with last_synced_gen := global_gen },
      match s.root with
      | none => []
      | some root => Screen.syncAll root)
  else (s, [])

/-! ## `state.h` and `pool.h` -/

/-- The members of `State<T>`: `_value` and `_generation` (uint32_t). -/
structure State (T : Type) where
  value : T
  generation : Nat := 0

/-- Method `State<T>::get()`. -/
def State.get {T : Type} (s : State T) : T := s.value

/-- Method `State<T>::set(new_val)`; `global_gen` is the static counter behind
`StateBase::global_gen()`. Returns the returned flag, the new cell and the new counter. -/
def State.set {T : Type} [DecidableEq T] (s : State T) (global_gen : Nat) (new_val : T) :
    Bool × State T × Nat :=
  if s.value ≠ new_val then
    (true, ⟨new_val, (s.generation + 1) % 2 ^ 32⟩, (global_gen + 1) % 2 ^ 32)
  else (false, s, global_gen)

/-- Method `StaticPool<T, N>::alloc()` on a pool whose `_count` is `count`: the index of
the slot of `_items` that is returned, and the new `_count` (uint16_t). -/
def StaticPool.alloc (N : Nat) (count : Nat) : Int × Nat :=
  if count < N then ((count : Int), (count + 1) % 65536)
  else ((N : Int) - 1, count)

/-- Successive calls of `alloc()`: the slots returned by `k` calls, in order, and the
final `_count`. -/
def StaticPool.allocMany (N : Nat) : Nat → Nat → List Int × Nat
  | count, 0 => ([], count)
  | count, k + 1 =>
      let r := StaticPool.alloc N count
      let q := StaticPool.allocMany N r.2 k
      (r.1 :: q.1, q.2)

/-- A sequence of render passes on one `Screen`; before each pass the application has
brought the tree to the listed state. Returns, for each pass, whether it performed a full
refresh (a call of `display()` on the whole screen) and the value of `_partial_count`
after it; `none` when a pass dereferences the null `_gfx`. -/
def Screen.renderRun (s : Screen) : List Widget → Option (List (Bool × Nat))
  | [] => some []
  | root :: rest =>
      match Screen.render { s with root := some root } with
      | none => none
      | some out =>
          match Screen.renderRun out.1 rest with
          | none => none
          | some l => some ((decide (GfxCall.display ∈ out.2), out.1.partial_count) :: l)

/-- Whether a render pass on the tree collects at least one dirty rect. -/
def dirtyPass (t : Widget) : Bool := decide (Screen.collectDirtyRects t [] ≠ [])

/-- The number of passes, among the first `k` of a sequence, that collect at least one
dirty rect. -/
def dirtyPasses (trees : List Widget) (k : Nat) : Nat :=
  ((trees.take k).filter dirtyPass).length

/-! ## Vocabulary of the update-hint reduction -/

mutual

/-- Whether the node at the path and all its ancestors up to `n` are visible and have
bounds intersecting the region. -/
def Widget.hitAlong : Widget → Rect → List Nat → Bool
  | .leaf b _, region, [] => b.visible && b.bounds.intersects region
  | .composite b _ _ _, region, [] => b.visible && b.bounds.intersects region
  | .leaf _ _, _, _ :: _ => false
  | .composite b _ _ cs, region, i :: path =>
      (b.visible && b.bounds.intersects region) && Widget.hitAlongChild cs region i path

/-- The same from the `i`-th widget of a child list. -/
def Widget.hitAlongChild : List Widget → Rect → Nat → List Nat → Bool
  | [], _, _, _ => false
  | w :: _, region, 0, path => Widget.hitAlong w region path
  | _ :: ws, region, i + 1, path => Widget.hitAlongChild ws region i path

end

/-! ## `widgets/*.h`: the value members of the leaf widgets and their setters

A setter returns the members afterwards and whether `markDirty()` ran. -/

/-- The members `_value`, `_min` and `_max` of `SliderWidget`. -/
structure SliderWidget where
  value : Int := 0
  min : Int := 0
  max : Int := 100
  deriving DecidableEq, Repr

/-- Method `SliderWidget::setValue(v)`. -/
def SliderWidget.setValue (s : SliderWidget) (v : Int) : SliderWidget × Bool :=
  let v1 := constrain v s.min s.max
  if s.value ≠ v1 then ({ s with value := v1 }, true) else (s, false)

/-- Method `SliderWidget::setRange(min_val, max_val)`. -/
def SliderWidget.setRange (s : SliderWidget) (min_val max_val : Int) : SliderWidget × Bool :=
  let s1 : SliderWidget := { s with min := min_val, max := max_val }
  s1.setValue s1.value

/-- The members `_value` and `_max` of `ProgressBarWidget`. -/
structure ProgressBarWidget where
  value : Int := 0
  max : Int := 100
  deriving DecidableEq, Repr

/-- Method `ProgressBarWidget::setValue(v)`. -/
def ProgressBarWidget.setValue (p : ProgressBarWidget) (v : Int) : ProgressBarWidget × Bool :=
  let v1 := constrain v 0 p.max
  if p.value ≠ v1 then ({ p with value := v1 }, true) else (p, false)

/-- Method `ProgressBarWidget::setMax(m)`. -/
def ProgressBarWidget.setMax (p : ProgressBarWidget) (m : Int) : ProgressBarWidget × Bool :=
  let p1 : ProgressBarWidget := { p with max := m }
  p1.setValue p1.value

/-- Method `SwitchWidget::setOn(on)` on the member `_on`. -/
def SwitchWidget.setOn (cur v : Bool) : Bool × Bool :=
  if cur ≠ v then (v, true) else (cur, false)

/-- Method `CheckboxWidget::setChecked(c)` on the member `_checked`. -/
def CheckboxWidget.setChecked (cur c : Bool) : Bool × Bool :=
  if cur ≠ c then (c, true) else (cur, false)

/-- Method `TextWidget::setText(text)` on the member `_text`, a `const char*` compared as a
pointer (here an address). -/
def TextWidget.setText (cur text : Nat) : Nat × Bool :=
  if cur ≠ text then (text, true) else (cur, false)

/-- Method `BatteryWidget::setVoltage(mv)` on the member `_mv`. -/
def BatteryWidget.setVoltage (cur mv : Int) : Int × Bool :=
  if cur ≠ mv then (mv, true) else (cur, false)

/-- The members `_val` and `_buf` of `ValueWidget`; `F` stands for `float` and the buffer
is the string it holds. -/
structure ValueWidget (F : Type) where
  val : F
  buf : List Nat := []

/-- The assignment `ValueWidget::operator=(float v)`; `render` is the `snprintf` of the
value under the current format. -/
def ValueWidget.assign {F : Type} [DecidableEq F] (render : F → List Nat)
    (w : ValueWidget F) (v : F) : ValueWidget F × Bool :=
  if v = w.val ∧ w.buf ≠ [] then (w, false)
  else (⟨v, render v⟩, true)

/-! ## `widgets/*.h`: `bind` and `sync()` -/

/-- The members that `bind` and `sync()` of a bindable widget class read and write: the
value members `members` of the class, whether `_bound` is non-null, and `_last_gen`
(uint32_t). -/
structure Bound (M : Type) where
  members : M
  bound : Bool := false
  last_gen : Nat := 0

/-- The `bind(s)` of every bindable class (`SwitchWidget`, `CheckboxWidget`,
`SliderWidget`, `ProgressBarWidget`, `TextWidget`, `ValueWidget`, `BatteryWidget`):
`_bound = &s; _last_gen = 0`. -/
def Bound.bind {M : Type} (w : Bound M) : Bound M :=
  { w with bound := true, last_gen := 0 }

/-- The `sync()` of every bindable class:
`if (_bound && _bound->generation() != _last_gen)` then
`_last_gen = _bound->generation(); set(_bound->get())`, where `set` is the setter that the
class calls (with its conversion of the cell value) and `cell` is the `State` that
`_bound` points to. -/
def Bound.sync {M C : Type} (set : M → C → M × Bool) (w : Bound M) (cell : State C) :
    Bound M × Bool :=
  if w.bound = true ∧ cell.generation ≠ w.last_gen then
    let r := set w.members cell.get
    ({ w with members := r.1, last_gen := cell.generation }, r.2)
  else (w, false)

/-- Method `SwitchWidget::sync()`. -/
def SwitchWidget.sync : Bound Bool → State Bool → Bound Bool × Bool :=
  Bound.sync SwitchWidget.setOn

/-- Method `CheckboxWidget::sync()`. -/
def CheckboxWidget.sync : Bound Bool → State Bool → Bound Bool × Bool :=
  Bound.sync CheckboxWidget.setChecked

/-- Method `SliderWidget::sync()`; `toInt16` is the conversion `(int16_t)` of a `float`. -/
def SliderWidget.sync {F : Type} (toInt16 : F → Int) :
    Bound SliderWidget → State F → Bound SliderWidget × Bool :=
  Bound.sync (fun s v => s.setValue (toInt16 v))

/-- Method `ProgressBarWidget::sync()`. -/
def ProgressBarWidget.sync {F : Type} (toInt16 : F → Int) :
    Bound ProgressBarWidget → State F → Bound ProgressBarWidget × Bool :=
  Bound.sync (fun p v => p.setValue (toInt16 v))

/-- Method `TextWidget::sync()`. -/
def TextWidget.sync : Bound Nat → State Nat → Bound Nat × Bool :=
  Bound.sync TextWidget.setText

/-- Method `ValueWidget::sync()`. -/
def ValueWidget.sync {F : Type} [DecidableEq F] (render : F → List Nat) :
    Bound (ValueWidget F) → State F → Bound (ValueWidget F) × Bool :=
  Bound.sync (ValueWidget.assign render)

/-- Method `BatteryWidget::sync()`. -/
def BatteryWidget.sync {F : Type} (toInt16 : F → Int) :
    Bound Int → State F → Bound Int × Bool :=
  Bound.sync (fun mv v => BatteryWidget.setVoltage mv (toInt16 v))

/-! ## `widgets/text_area_widget.h` -/

/-- The members `_buf` (256 bytes, given by index) and `_len` (uint16_t) of
`TextAreaWidget`. -/
structure TextAreaWidget where
  buf : Nat → Nat
  len : Nat

/-- The constructor `TextAreaWidget()`: `_buf[0] = 0`, `_len = 0`; the other bytes of the
array are not initialised and are whatever `junk` holds. -/
def TextAreaWidget.init (junk : Nat → Nat) : TextAreaWidget :=
  ⟨Function.update junk 0 0, 0⟩

/-- Method `TextAreaWidget::appendChar(c)`. -/
def TextAreaWidget.appendChar (t : TextAreaWidget) (c : Nat) : TextAreaWidget × Bool :=
  if t.len < 256 - 1 then
    let buf1 := Function.update t.buf t.len c
    let len1 := (t.len + 1) % 65536
    (⟨Function.update buf1 len1 0, len1⟩, true)
  else (t, false)

/-- Method `TextAreaWidget::deleteChar()`. -/
def TextAreaWidget.deleteChar (t : TextAreaWidget) : TextAreaWidget × Bool :=
  if t.len > 0 then
    let len1 := t.len - 1
    (⟨Function.update t.buf len1 0, len1⟩, true)
  else (t, false)

/-- Method `TextAreaWidget::clear()`. -/
def TextAreaWidget.clear (t : TextAreaWidget) : TextAreaWidget × Bool :=
  if t.len > 0 then (⟨Function.update t.buf 0 0, 0⟩, true)
  else (t, false)

/-- Method `TextAreaWidget::length()`. -/
def TextAreaWidget.length (t : TextAreaWidget) : Nat := t.len

/-- The string that `TextAreaWidget::text()` points to: the bytes of `_buf` before the
first NUL. -/
def TextAreaWidget.text (t : TextAreaWidget) : List Nat :=
  ((List.range 256).map t.buf).takeWhile (fun c => decide (c ≠ 0))

/-- The three editing operations of `TextAreaWidget`. -/
inductive TextOp where
  | appendChar (c : Nat)
  | deleteChar
  | clear

/-- One editing operation. -/
def TextAreaWidget.apply (t : TextAreaWidget) : TextOp → TextAreaWidget × Bool
  | .appendChar c => t.appendChar c
  | .deleteChar => t.deleteChar
  | .clear => t.clear

/-- A sequence of editing operations, in order. -/
def TextAreaWidget.run (t : TextAreaWidget) : List TextOp → TextAreaWidget
  | [] => t
  | op :: ops => TextAreaWidget.run (t.apply op).1 ops

/-- The constructor `State(T initial)`: the value is `initial` and `_generation` is 0. -/
def State.init {T : Type} (initial : T) : State T := ⟨initial, 0⟩

/-! ## `widget.h` and `layout.h`: setters that only mark dirty -/

/-- Method `Widget::setVisible(v)` on a node. -/
def Widget.setVisible (n : Widget) (v : Bool) : Widget × Bool :=
  if n.base.visible ≠ v then
    (n.setBase ({ n.base with visible := v } : WidgetBase).markDirty, true)
  else (n, false)

/-- Method `Layout::setBackground(c)` on a layout node (a leaf has no such method and is
left alone). -/
def Layout.setBackground (c : Nat) : Widget → Widget × Bool
  | .composite b kind cfg cs => (.composite b.markDirty kind { cfg with bg := c } cs, true)
  | .leaf b k => (.leaf b k, false)

/-- Method `Layout::setPadding(p)` on a layout node. -/
def Layout.setPadding (p : EdgeInsets) : Widget → Widget × Bool
  | .composite b kind cfg cs => (.composite b.markDirty kind { cfg with padding := p } cs, true)
  | .leaf b k => (.leaf b k, false)

/-- Method `Layout::setSpacing(s)` on a layout node. -/
def Layout.setSpacing (s : Int) : Widget → Widget × Bool
  | .composite b kind cfg cs => (.composite b.markDirty kind { cfg with spacing := s } cs, true)
  | .leaf b k => (.leaf b k, false)

mutual

/-- The nodes of a tree in pre-order (a node before its children, the children in
insertion order), each with a flag telling whether all its proper ancestors are visible;
`anc` is that flag for the root of the subtree. -/
def Widget.preorderNodes : Widget → Bool → List (Widget × Bool)
  | .leaf b k, anc => [(.leaf b k, anc)]
  | .composite b kind cfg cs, anc =>
      (.composite b kind cfg cs, anc) :: Widget.preorderNodesOf cs (anc && b.visible)

/-- The pre-order of a list of sibling subtrees. -/
def Widget.preorderNodesOf : List Widget → Bool → List (Widget × Bool)
  | [], _ => []
  | w :: ws, anc => Widget.preorderNodes w anc ++ Widget.preorderNodesOf ws anc

end

/-- The rect that a node contributes to the damage: its bounds when it is dirty, not a
layout, visible, and has only visible ancestors. -/
def damageOf (p : Widget × Bool) : Option Rect :=
  if p.1.isDirty && !p.1.isLayout && p.1.isVisible && p.2 then some p.1.bounds else none

/-! ## The constraints passed down by `Column::measure` and `Row::measure` -/

/-- The values `cc` that the loop of `Column::measure` passes to
`_children[i]->measure(cc)` from child slot `i` on, in order; the arguments are those of
`Column.measureLoop`. -/
def Column.passedLoop (spacing content_w max_h : Int) :
    List Widget → Nat → Int → List Constraints
  | [], _, _ => []
  | w :: ws, i, total_h =>
      if !w.isVisible then Column.passedLoop spacing content_w max_h ws (i + 1) total_h
      else
        let cc : Constraints := ⟨0, 0, content_w, wrap16 (max_h - total_h)⟩
        let cs := (Widget.measure w cc).1
        let total_h1 := if i > 0 then wrap16 (total_h + spacing) else total_h
        let total_h2 := wrap16 (total_h1 + cs.h)
        cc :: Column.passedLoop spacing content_w max_h ws (i + 1) total_h2

/-- The values `cc` that the loop of `Row::measure` passes to its children. -/
def Row.passedLoop (spacing content_h max_w : Int) :
    List Widget → Nat → Int → List Constraints
  | [], _, _ => []
  | w :: ws, i, total_w =>
      if !w.isVisible then Row.passedLoop spacing content_h max_w ws (i + 1) total_w
      else
        let cc : Constraints := ⟨0, 0, wrap16 (max_w - total_w), content_h⟩
        let cs := (Widget.measure w cc).1
        let total_w1 := if i > 0 then wrap16 (total_w + spacing) else total_w
        let total_w2 := wrap16 (total_w1 + cs.w)
        cc :: Row.passedLoop spacing content_h max_w ws (i + 1) total_w2

/-- A rect with the axes exchanged. -/
def Rect.transpose (r : Rect) : Rect := ⟨r.y, r.x, r.h, r.w⟩

/-- A size with the axes exchanged. -/
def Size.transpose (s : Size) : Size := ⟨s.h, s.w⟩

/-- Constraints with the axes exchanged. -/
def Constraints.transpose (c : Constraints) : Constraints :=
  ⟨c.min_h, c.min_w, c.max_h, c.max_w⟩

/-- Insets with the axes exchanged: left with top, right with bottom. -/
def EdgeInsets.transpose (p : EdgeInsets) : EdgeInsets := ⟨p.top, p.left, p.bottom, p.right⟩

/-- The `Widget` members with the bounds transposed. -/
def WidgetBase.transpose (b : WidgetBase) : WidgetBase :=
  { b with bounds := b.bounds.transpose }

/-- A `Column` becomes a `Row` and a `Row` a `Column`; a `Stack` stays a `Stack`. -/
def LayoutKind.transpose : LayoutKind → LayoutKind
  | .column => .row
  | .row => .column
  | .stack => .stack

/-- The `Layout` members with padding and cached sizes transposed. -/
def LayoutData.transpose (cfg : LayoutData) : LayoutData :=
  { cfg with padding := cfg.padding.transpose,
             measured := fun i => (cfg.measured i).transpose }

/-- A `Spacer` with its fixed width and height exchanged; the other leaf classes have no
transposed counterpart and are kept. -/
def LeafKind.transpose : LeafKind → LeafKind
  | .spacer fw fh => .spacer fh fw
  | k => k

mutual

/-- The tree with the axes exchanged at every node. -/
def Widget.transpose : Widget → Widget
  | .leaf b k => .leaf b.transpose k.transpose
  | .composite b kind cfg cs =>
      .composite b.transpose kind.transpose cfg.transpose (Widget.transposeList cs)

/-- The transposition of a list of sibling subtrees. -/
def Widget.transposeList : List Widget → List Widget
  | [] => []
  | w :: ws => Widget.transpose w :: Widget.transposeList ws

end

mutual

/-- Whether every leaf of the tree is a `Spacer`, the leaf class whose transposition is
again a widget. -/
def Widget.transposable : Widget → Bool
  | .leaf _ (.spacer _ _) => true
  | .leaf _ _ => false
  | .composite _ _ _ cs => Widget.transposableList cs

/-- The same for a list of sibling subtrees. -/
def Widget.transposableList : List Widget → Bool
  | [] => true
  | w :: ws => Widget.transposable w && Widget.transposableList ws

end

/-- The variables of a measure loop with the axes exchanged (`total` and `cross` keep
their roles). -/
def MeasureLoop.transpose (r : MeasureLoop) : MeasureLoop :=
  ⟨Widget.transposeList r.children, r.total, r.cross, fun i => (r.measured i).transpose⟩

/-! ## Sample trees -/

/-- A `Column` (default spacing 4, no padding) with three spacers of sizes 100x20,
100x30 and 100x40. -/
def sampleColumn (a : Arrangement) : Widget :=
  .composite {} .column ⟨4, {}, 0xFFFFFF, fun _ => {}, .START, a⟩
    [.leaf {} (.spacer 100 20), .leaf {} (.spacer 100 30), .leaf {} (.spacer 100 40)]

/-- The cache `_measured` holding the sizes 100x20, 100x25, 100x30 and 100x40 in the
slots 0 to 3. -/
def mixedMeasured : Nat → Size
  | 0 => ⟨100, 20⟩
  | 1 => ⟨100, 25⟩
  | 2 => ⟨100, 30⟩
  | 3 => ⟨100, 40⟩
  | _ => {}

/-- Four spacers, the second one invisible. -/
def mixedChildren : List Widget :=
  [.leaf {} (.spacer 100 20), .leaf ⟨{}, true, false⟩ (.spacer 100 25),
    .leaf {} (.spacer 100 30), .leaf {} (.spacer 100 40)]

/-- Layout members with spacing 4, padding (left 1, top 2, right 3, bottom 5) and the
cache `mixedMeasured`. -/
def mixedCfg (al : Align) (a : Arrangement) : LayoutData :=
  ⟨4, ⟨1, 2, 3, 5⟩, 0xFFFFFF, mixedMeasured, al, a⟩

/-- Widget members with bounds (10, 20, 300, 200). -/
def mixedBase : WidgetBase := ⟨⟨10, 20, 300, 200⟩, false, true⟩

/-- Two spacers, the second one invisible. -/
def fewChildren : List Widget :=
  [.leaf {} (.spacer 100 20), .leaf ⟨{}, true, false⟩ (.spacer 100 25)]

/-- A `Column` or `Row` (spacing 4, no padding) with two spacers of size 30x30, the first
one invisible. -/
def hiddenFirst (kind : LayoutKind) : Widget :=
  .composite {} kind ⟨4, {}, 0xFFFFFF, fun _ => {}, .START, .START⟩
    [.leaf ⟨{}, true, false⟩ (.spacer 30 30), .leaf {} (.spacer 30 30)]

/-- A `Stack` with padding (left 1, top 2, right 3, bottom 5), bounds (10, 20, 300, 200)
and three spacers of sizes 50x20, 300x300 (invisible) and 30x60. -/
def sampleStack : Widget :=
  .composite mixedBase .stack ⟨4, ⟨1, 2, 3, 5⟩, 0xFFFFFF, fun _ => {}, .START, .START⟩
    [.leaf {} (.spacer 50 20), .leaf ⟨{}, true, false⟩ (.spacer 300 300),
      .leaf {} (.spacer 30 60)]

/-- Five rects, the last one zero-sized. -/
def fiveRects : List Rect :=
  [⟨0, 0, 10, 10⟩, ⟨20, 0, 10, 10⟩, ⟨0, 30, 10, 10⟩, ⟨5, 5, 10, 10⟩, ⟨100, 100, 0, 0⟩]

/-- A dirty, visible spacer with the given bounds. -/
def dirtySpacer (r : Rect) : Widget := .leaf ⟨r, true, true⟩ (.spacer r.w r.h)

/-- A clean root `Column` with bounds (0, 0, 540, 960) and the given children. -/
def cleanRoot (cs : List Widget) : Widget :=
  .composite ⟨⟨0, 0, 540, 960⟩, false, true⟩ .column
    ⟨4, {}, 0xFFFFFF, fun _ => {}, .START, .START⟩ cs

/-- A root with nine dirty leaves stacked at `y = 0, 10, .., 80`. -/
def nineDirty : Widget :=
  cleanRoot ((List.range 9).map (fun i => dirtySpacer ⟨0, 10 * (i : Int), 10, 10⟩))

/-- A root with five dirty leaves, the last one zero-sized at (100, 100). -/
def fiveDirty : Widget := cleanRoot (fiveRects.map dirtySpacer)

/-- A clean, visible spacer with the given bounds. -/
def cleanSpacer (r : Rect) : Widget := .leaf ⟨r, false, true⟩ (.spacer r.w r.h)

/-- A clean tree: a root whose first child is a layout holding two leaves and whose second
child is a leaf. -/
def nestedClean : Widget :=
  cleanRoot [cleanRoot [cleanSpacer ⟨0, 0, 10, 10⟩, cleanSpacer ⟨0, 14, 10, 10⟩],
    cleanSpacer ⟨0, 28, 10, 10⟩]

/-- A clean root holding one dirty, visible `Switch` (update hint QUALITY) with bounds
(10, 10, 60, 30). -/
def qualityRoot : Widget :=
  cleanRoot [.leaf ⟨⟨10, 10, 60, 30⟩, true, true⟩ (.switch 60 30)]

/-- A `Screen` with a surface bound, the given root and the default members. -/
def screenOf (root : Widget) : Screen := { gfx := true, root := some root }

/-- A `Screen` with the root `qualityRoot` (one dirty leaf) and no surface bound. -/
def noSurface : Screen := { gfx := false, root := some qualityRoot }

theorem constrain_ge (amt low high : Int) (h : low ≤ high) : low ≤ constrain amt low high := by
  unfold constrain; split_ifs <;> omega

theorem constrain_le (amt low high : Int) (h : low ≤ high) : constrain amt low high ≤ high := by
  unfold constrain; split_ifs <;> omega

theorem wrap16_of_inInt16 {n : Int} (h : inInt16 n) : wrap16 n = n := by
  unfold inInt16 at h; unfold wrap16; omega

theorem inInt16_wrap16 (n : Int) : inInt16 (wrap16 n) := by
  unfold inInt16 wrap16; omega

theorem wrap16_add_wrap16_left (a b : Int) : wrap16 (wrap16 a + b) = wrap16 (a + b) := by
  unfold wrap16; omega

/-! ## C1: measured sizes lie within the constraints -/

theorem LeafKind.measure_within (k : LeafKind) (c : Constraints)
    (hw : c.min_w ≤ c.max_w) (hh : c.min_h ≤ c.max_h) :
    c.min_w ≤ (k.measure c).w ∧ (k.measure c).w ≤ c.max_w ∧
    c.min_h ≤ (k.measure c).h ∧ (k.measure c).h ≤ c.max_h := by
  cases k <;> simp only [LeafKind.measure] <;>
    refine ⟨?_, ?_, ?_, ?_⟩ <;>
    first
      | exact constrain_ge _ _ _ hw
      | exact constrain_le _ _ _ hw
      | exact constrain_ge _ _ _ hh
      | exact constrain_le _ _ _ hh
      | exact hw
      | exact le_refl _

/-- C1. For every constraints `c` with `min_w ≤ max_w` and `min_h ≤ max_h` and every widget
tree built from `Column`, `Row`, `Stack`, `Spacer` and the leaf widgets, `measure(c)`
returns a size with `c.min_w ≤ w ≤ c.max_w` and `c.min_h ≤ h ≤ c.max_h`. -/
theorem measure_within_constraints (n : Widget) (c : Constraints)
    (hw : c.min_w ≤ c.max_w) (hh : c.min_h ≤ c.max_h) :
    c.min_w ≤ (n.measure c).1.w ∧ (n.measure c).1.w ≤ c.max_w ∧
    c.min_h ≤ (n.measure c).1.h ∧ (n.measure c).1.h ≤ c.max_h := by
  cases n with
  | leaf b k =>
      simp only [Widget.measure]
      exact LeafKind.measure_within k c hw hh
  | composite b kind cfg cs =>
      cases kind <;> simp only [Widget.measure] <;>
        exact ⟨constrain_ge _ _ _ hw, constrain_le _ _ _ hw,
          constrain_ge _ _ _ hh, constrain_le _ _ _ hh⟩

theorem measure_within_constraints_witness :
    let c : Constraints := ⟨0, 0, 100, 200⟩
    let n := sampleColumn .START
    (n.measure c).1 = ⟨100, 98⟩ ∧
    (c.min_w ≤ (n.measure c).1.w ∧ (n.measure c).1.w ≤ c.max_w ∧
      c.min_h ≤ (n.measure c).1.h ∧ (n.measure c).1.h ≤ c.max_h) :=
  ⟨by decide, measure_within_constraints (sampleColumn .START) ⟨0, 0, 100, 200⟩
    (by decide) (by decide)⟩

/-! ## C2: `place` -/

mutual

theorem Widget.applyAt_unchanged (f : Widget → Widget × Bool) :
    ∀ (root : Widget) (path : List Nat) (n : Widget),
      root.nodeAt path = some n → f n = (n, false) →
      Widget.applyAt f root path = (root, false)
  | .leaf b k, [], n, hn, hf => by
      simp only [Widget.nodeAt, Option.some.injEq] at hn
      subst hn
      simpa only [Widget.applyAt] using hf
  | .composite b kind cfg cs, [], n, hn, hf => by
      simp only [Widget.nodeAt, Option.some.injEq] at hn
      subst hn
      simpa only [Widget.applyAt] using hf
  | .leaf b k, _ :: _, n, hn, _ => by
      simp [Widget.nodeAt] at hn
  | .composite b kind cfg cs, i :: path, n, hn, hf => by
      simp only [Widget.nodeAt] at hn
      have h := Widget.applyAtChild_unchanged f cs i path n hn hf
      simp [Widget.applyAt, h]

theorem Widget.applyAtChild_unchanged (f : Widget → Widget × Bool) :
    ∀ (cs : List Widget) (i : Nat) (path : List Nat) (n : Widget),
      Widget.childAt cs i path = some n → f n = (n, false) →
      Widget.applyAtChild f cs i path = (cs, false)
  | [], _, _, n, hn, _ => by
      simp [Widget.childAt] at hn
  | w :: ws, 0, path, n, hn, hf => by
      simp only [Widget.childAt] at hn
      have h := Widget.applyAt_unchanged f w path n hn hf
      simp [Widget.applyAtChild, h]
  | w :: ws, i + 1, path, n, hn, hf => by
      simp only [Widget.childAt] at hn
      have h := Widget.applyAtChild_unchanged f ws i path n hn hf
      simp [Widget.applyAtChild, h]

end

mutual

theorem Widget.nodeAt_applyAt (f : Widget → Widget × Bool) :
    ∀ (root : Widget) (path : List Nat) (n : Widget),
      root.nodeAt path = some n →
      (Widget.applyAt f root path).1.nodeAt path = some (f n).1
  | .leaf b k, [], n, hn => by
      simp only [Widget.nodeAt, Option.some.injEq] at hn
      subst hn
      simp only [Widget.applyAt]
      cases f (.leaf b k) with
      | mk m d => cases m <;> simp [Widget.nodeAt]
  | .composite b kind cfg cs, [], n, hn => by
      simp only [Widget.nodeAt, Option.some.injEq] at hn
      subst hn
      simp only [Widget.applyAt]
      cases f (.composite b kind cfg cs) with
      | mk m d => cases m <;> simp [Widget.nodeAt]
  | .leaf b k, _ :: _, n, hn => by
      simp [Widget.nodeAt] at hn
  | .composite b kind cfg cs, i :: path, n, hn => by
      simp only [Widget.nodeAt] at hn
      have h := Widget.childAt_applyAtChild f cs i path n hn
      simpa [Widget.applyAt, Widget.nodeAt] using h

theorem Widget.childAt_applyAtChild (f : Widget → Widget × Bool) :
    ∀ (cs : List Widget) (i : Nat) (path : List Nat) (n : Widget),
      Widget.childAt cs i path = some n →
      Widget.childAt (Widget.applyAtChild f cs i path).1 i path = some (f n).1
  | [], _, _, n, hn => by
      simp [Widget.childAt] at hn
  | w :: ws, 0, path, n, hn => by
      simp only [Widget.childAt] at hn
      have h := Widget.nodeAt_applyAt f w path n hn
      simpa [Widget.applyAtChild, Widget.childAt] using h
  | w :: ws, i + 1, path, n, hn => by
      simp only [Widget.childAt] at hn
      have h := Widget.childAt_applyAtChild f ws i path n hn
      simpa [Widget.applyAtChild, Widget.childAt] using h

end

theorem Widget.base_setBase (n : Widget) (b : WidgetBase) : (n.setBase b).base = b := by
  cases n <;> rfl

theorem Widget.setBase_base (n : Widget) : n.setBase n.base = n := by
  cases n <;> rfl

/-- C2. Method `Widget::place(x, y, w, h)` on the node `n` at any position `path` of a
tree `root`: if the rect equals the current bounds of `n`, the whole tree is unchanged
(bounds, the dirty flag of `n` and the dirty flag of every ancestor) and no `markDirty()`
is issued; if the rect differs, afterwards the node at that position has the new rect as
bounds and is dirty, whatever its dirty flag was before. -/
theorem place_contract (root : Widget) (path : List Nat) (n : Widget) (x y w h : Int)
    (hn : root.nodeAt path = some n) :
    (n.bounds = ⟨x, y, w, h⟩ → root.placeAt path x y w h = (root, false)) ∧
    (n.bounds ≠ ⟨x, y, w, h⟩ →
      ∃ m, (root.placeAt path x y w h).1.nodeAt path = some m ∧
        m.bounds = ⟨x, y, w, h⟩ ∧ m.isDirty = true) := by
  constructor
  · intro hb
    apply Widget.applyAt_unchanged _ root path n hn
    have hb2 : (⟨x, y, w, h⟩ : Rect) = n.base.bounds := hb.symm
    simp [Widget.place, WidgetBase.place, hb2, Widget.setBase_base]
  · intro hb
    refine ⟨(n.place x y w h).1, Widget.nodeAt_applyAt _ root path n hn, ?_, ?_⟩
    · have hb2 : ¬ (⟨x, y, w, h⟩ : Rect) = n.base.bounds := fun e => hb e.symm
      simp [Widget.place, WidgetBase.place, hb2, Widget.bounds, Widget.base_setBase,
        WidgetBase.markDirty]
    · have hb2 : ¬ (⟨x, y, w, h⟩ : Rect) = n.base.bounds := fun e => hb e.symm
      simp [Widget.place, WidgetBase.place, hb2, Widget.isDirty, Widget.base_setBase,
        WidgetBase.markDirty]

theorem place_contract_witness :
    let root := sampleColumn .START
    root.nodeAt [1] = some (.leaf {} (.spacer 100 30)) ∧
    ((root.placeAt [1] 0 0 0 0 = (root, false)) ∧
      ∃ m, (root.placeAt [1] 0 24 100 30).1.nodeAt [1] = some m ∧
        m.bounds = ⟨0, 24, 100, 30⟩ ∧ m.isDirty = true) :=
  ⟨rfl,
    (place_contract (sampleColumn .START) [1] (.leaf {} (.spacer 100 30)) 0 0 0 0 rfl).1 rfl,
    (place_contract (sampleColumn .START) [1] (.leaf {} (.spacer 100 30)) 0 24 100 30 rfl).2
      (by decide)⟩

/-! ## The layout loops, child by child -/

theorem WidgetBase.place_bounds (b : WidgetBase) (x y w h : Int) :
    (b.place x y w h).1.bounds = ⟨x, y, w, h⟩ := by
  unfold WidgetBase.place
  by_cases hb : (⟨x, y, w, h⟩ : Rect) = b.bounds
  · simp [hb]
  · simp [hb, WidgetBase.markDirty]

theorem Widget.layoutIn_bounds (n : Widget) (b : WidgetBase) :
    (n.layoutIn b).1.bounds = b.bounds := by
  cases n with
  | leaf _ k => simp [Widget.layoutIn, Widget.bounds, Widget.base]
  | composite _ kind cfg cs =>
      cases kind <;> simp [Widget.layoutIn, Widget.bounds, Widget.base]

theorem offsetFrom_zero (kind : LayoutKind) (m : Nat → Size) (g : Int) (cs : List Widget)
    (i : Nat) : offsetFrom kind m g cs i 0 = 0 := by
  simp [offsetFrom]

theorem offsetFrom_cons_succ (kind : LayoutKind) (m : Nat → Size) (g : Int) (w : Widget)
    (ws : List Widget) (i k : Nat) :
    offsetFrom kind m g (w :: ws) i (k + 1) =
      (if w.isVisible then kind.mainSize (m i) + g else 0) + offsetFrom kind m g ws (i + 1) k := by
  unfold offsetFrom
  by_cases hv : w.isVisible = true
  · simp [slotsFrom, List.take_succ_cons, List.filter_cons, hv]
  · simp [slotsFrom, List.take_succ_cons, List.filter_cons, hv]

theorem column_layoutLoop_child (bounds : Rect) (cfg : LayoutData) (avail_w gap : Int) :
    ∀ (cs : List Widget) (i : Nat) (cursor_y : Int) (k : Nat) (c : Widget),
      inInt16 cursor_y → cs[k]? = some c →
      (Column.layoutLoop bounds cfg avail_w gap cs i cursor_y).1[k]? =
        some (if c.isVisible then
          (Widget.layoutIn c (c.base.place
            (alignCross cfg.cross_align (wrap16 (bounds.x + cfg.padding.left)) avail_w
              (cfg.measured (i + k)).w).1
            (wrap16 (cursor_y + offsetFrom .column cfg.measured gap cs i k))
            (alignCross cfg.cross_align (wrap16 (bounds.x + cfg.padding.left)) avail_w
              (cfg.measured (i + k)).w).2
            (cfg.measured (i + k)).h).1).1
          else c)
  | [], _, _, _, _, _, hk => by simp at hk
  | w :: ws, i, cursor_y, 0, c, hcur, hk => by
      simp only [List.getElem?_cons_zero, Option.some.injEq] at hk
      subst hk
      by_cases hv : w.isVisible = true
      · simp [Column.layoutLoop, hv, offsetFrom_zero, wrap16_of_inInt16 hcur]
      · simp [Column.layoutLoop, hv]
  | w :: ws, i, cursor_y, k + 1, c, hcur, hk => by
      simp only [List.getElem?_cons_succ] at hk
      by_cases hv : w.isVisible = true
      · have ih := column_layoutLoop_child bounds cfg avail_w gap ws (i + 1)
          (wrap16 (cursor_y + (cfg.measured i).h + gap)) k c (inInt16_wrap16 _) hk
        have e : i + 1 + k = i + (k + 1) := by omega
        simp only [Column.layoutLoop, hv, Bool.not_true, Bool.false_eq_true, ↓reduceIte,
          List.getElem?_cons_succ, ih, offsetFrom_cons_succ, e, LayoutKind.mainSize,
          wrap16_add_wrap16_left]
        have e2 : cursor_y + (cfg.measured i).h + gap + offsetFrom .column cfg.measured gap ws (i + 1) k
            = cursor_y + ((cfg.measured i).h + gap + offsetFrom .column cfg.measured gap ws (i + 1) k) := by
          ring
        rw [e2]
      · have ih := column_layoutLoop_child bounds cfg avail_w gap ws (i + 1) cursor_y k c hcur hk
        have e : i + 1 + k = i + (k + 1) := by omega
        simp only [Column.layoutLoop, hv, Bool.not_false, ↓reduceIte,
          List.getElem?_cons_succ, ih, offsetFrom_cons_succ, e, Bool.false_eq_true, zero_add]

theorem row_layoutLoop_child (bounds : Rect) (cfg : LayoutData) (avail_h gap : Int) :
    ∀ (cs : List Widget) (i : Nat) (cursor_x : Int) (k : Nat) (c : Widget),
      inInt16 cursor_x → cs[k]? = some c →
      (Row.layoutLoop bounds cfg avail_h gap cs i cursor_x).1[k]? =
        some (if c.isVisible then
          (Widget.layoutIn c (c.base.place
            (wrap16 (cursor_x + offsetFrom .row cfg.measured gap cs i k))
            (alignCross cfg.cross_align (wrap16 (bounds.y + cfg.padding.top)) avail_h
              (cfg.measured (i + k)).h).1
            (cfg.measured (i + k)).w
            (alignCross cfg.cross_align (wrap16 (bounds.y + cfg.padding.top)) avail_h
              (cfg.measured (i + k)).h).2).1).1
          else c)
  | [], _, _, _, _, _, hk => by simp at hk
  | w :: ws, i, cursor_x, 0, c, hcur, hk => by
      simp only [List.getElem?_cons_zero, Option.some.injEq] at hk
      subst hk
      by_cases hv : w.isVisible = true
      · simp [Row.layoutLoop, hv, offsetFrom_zero, wrap16_of_inInt16 hcur]
      · simp [Row.layoutLoop, hv]
  | w :: ws, i, cursor_x, k + 1, c, hcur, hk => by
      simp only [List.getElem?_cons_succ] at hk
      by_cases hv : w.isVisible = true
      · have ih := row_layoutLoop_child bounds cfg avail_h gap ws (i + 1)
          (wrap16 (cursor_x + (cfg.measured i).w + gap)) k c (inInt16_wrap16 _) hk
        have e : i + 1 + k = i + (k + 1) := by omega
        simp only [Row.layoutLoop, hv, Bool.not_true, Bool.false_eq_true, ↓reduceIte,
          List.getElem?_cons_succ, ih, offsetFrom_cons_succ, e, LayoutKind.mainSize,
          wrap16_add_wrap16_left]
        have e2 : cursor_x + (cfg.measured i).w + gap + offsetFrom .row cfg.measured gap ws (i + 1) k
            = cursor_x + ((cfg.measured i).w + gap + offsetFrom .row cfg.measured gap ws (i + 1) k) := by
          ring
        rw [e2]
      · have ih := row_layoutLoop_child bounds cfg avail_h gap ws (i + 1) cursor_x k c hcur hk
        have e : i + 1 + k = i + (k + 1) := by omega
        simp only [Row.layoutLoop, hv, Bool.not_false, ↓reduceIte,
          List.getElem?_cons_succ, ih, offsetFrom_cons_succ, e, Bool.false_eq_true, zero_add]

/-! ## The counting loops -/

theorem slotsFrom_length (m : Nat → Size) :
    ∀ (cs : List Widget) (i : Nat), (slotsFrom m cs i).length = cs.length
  | [], _ => rfl
  | _ :: ws, i => by simp [slotsFrom, slotsFrom_length m ws (i + 1)]

theorem visibleMain_eq (kind : LayoutKind) (m : Nat → Size) (cs : List Widget) :
    visibleMain kind m cs =
      ((slotsFrom m cs 0).filter (fun s => s.1)).map (fun s => kind.mainSize s.2) := by
  unfold visibleMain visibleMainBefore
  rw [List.take_of_length_le (by rw [slotsFrom_length])]

theorem column_countLoop_eq (m : Nat → Size) :
    ∀ (cs : List Widget) (i : Nat) (t : Int) (v : Nat), inInt16 t →
      Column.countLoop m cs i t v =
        (wrap16 (t + (((slotsFrom m cs i).filter (fun s => s.1)).map
            (fun s => LayoutKind.column.mainSize s.2)).sum),
          v + (((slotsFrom m cs i).filter (fun s => s.1)).map
            (fun s => LayoutKind.column.mainSize s.2)).length)
  | [], _, t, v, ht => by
      simp [Column.countLoop, slotsFrom, wrap16_of_inInt16 ht]
  | w :: ws, i, t, v, ht => by
      by_cases hv : w.isVisible = true
      · have ih := column_countLoop_eq m ws (i + 1) (wrap16 (t + (m i).h)) (v + 1)
          (inInt16_wrap16 _)
        simp only [Column.countLoop, hv, Bool.not_true, Bool.false_eq_true, ↓reduceIte, ih,
          slotsFrom, List.filter_cons, List.map_cons, List.sum_cons, List.length_cons,
          wrap16_add_wrap16_left, LayoutKind.mainSize]
        refine Prod.ext ?_ ?_
        · simp only; congr 1; ring
        · simp only; omega
      · have ih := column_countLoop_eq m ws (i + 1) t v ht
        simp only [Column.countLoop, hv, Bool.not_false, ↓reduceIte, ih, slotsFrom,
          List.filter_cons, Bool.false_eq_true]

theorem row_countLoop_eq (m : Nat → Size) :
    ∀ (cs : List Widget) (i : Nat) (t : Int) (v : Nat), inInt16 t →
      Row.countLoop m cs i t v =
        (wrap16 (t + (((slotsFrom m cs i).filter (fun s => s.1)).map
            (fun s => LayoutKind.row.mainSize s.2)).sum),
          v + (((slotsFrom m cs i).filter (fun s => s.1)).map
            (fun s => LayoutKind.row.mainSize s.2)).length)
  | [], _, t, v, ht => by
      simp [Row.countLoop, slotsFrom, wrap16_of_inInt16 ht]
  | w :: ws, i, t, v, ht => by
      by_cases hv : w.isVisible = true
      · have ih := row_countLoop_eq m ws (i + 1) (wrap16 (t + (m i).w)) (v + 1)
          (inInt16_wrap16 _)
        simp only [Row.countLoop, hv, Bool.not_true, Bool.false_eq_true, ↓reduceIte, ih,
          slotsFrom, List.filter_cons, List.map_cons, List.sum_cons, List.length_cons,
          wrap16_add_wrap16_left, LayoutKind.mainSize]
        refine Prod.ext ?_ ?_
        · simp only; congr 1; ring
        · simp only; omega
      · have ih := row_countLoop_eq m ws (i + 1) t v ht
        simp only [Row.countLoop, hv, Bool.not_false, ↓reduceIte, ih, slotsFrom,
          List.filter_cons, Bool.false_eq_true]

/-! ## `layout()` of a `Column` or `Row`, child by child -/

theorem arrangeMain_cursor_inInt16 (a : Arrangement) (sp o sz ps pe tc : Int) (v : Nat) :
    inInt16 (arrangeMain a sp o sz ps pe tc v).1 := by
  unfold arrangeMain
  cases a <;> simp only <;> (try split_ifs) <;> exact inInt16_wrap16 _

theorem layout_child (b : WidgetBase) (kind : LayoutKind) (hkind : kind ≠ .stack)
    (cfg : LayoutData) (cs : List Widget) (k : Nat) (c : Widget) (hc : cs[k]? = some c) :
    (c.isVisible = false →
      (Widget.layout (.composite b kind cfg cs)).1.children[k]? = some c) ∧
    (c.isVisible = true →
      ∃ r, (Widget.composite b kind cfg cs).placedBounds k = some r ∧
        kind.mainOf r =
          (wrap16 ((arrangeMain cfg.arrangement cfg.spacing (kind.mainOf b.bounds).1
              (kind.mainOf b.bounds).2 (kind.mainPad cfg.padding).1 (kind.mainPad cfg.padding).2
              (wrap16 (visibleMain kind cfg.measured cs).sum)
              (visibleMain kind cfg.measured cs).length).1 +
            offsetFrom kind cfg.measured
              (arrangeMain cfg.arrangement cfg.spacing (kind.mainOf b.bounds).1
                (kind.mainOf b.bounds).2 (kind.mainPad cfg.padding).1
                (kind.mainPad cfg.padding).2
                (wrap16 (visibleMain kind cfg.measured cs).sum)
                (visibleMain kind cfg.measured cs).length).2 cs 0 k),
            kind.mainSize (cfg.measured k)) ∧
        kind.crossOf r =
          alignCross cfg.cross_align (wrap16 (crossStart kind b.bounds cfg.padding))
            (wrap16 (crossAvail kind b.bounds cfg.padding)) (kind.crossSize (cfg.measured k))) := by
  cases kind with
  | stack => exact absurd rfl hkind
  | column =>
      have hcnt := column_countLoop_eq cfg.measured cs 0 0 0 (by decide)
      have hloop := fun gap cur hcur =>
        column_layoutLoop_child b.bounds cfg
          (wrap16 (b.bounds.w - cfg.padding.left - cfg.padding.right)) gap cs 0 cur k c hcur hc
      constructor
      · intro hv
        simp only [Widget.layout, Widget.base, Widget.layoutIn, Widget.children]
        rw [hloop _ _ (arrangeMain_cursor_inInt16 _ _ _ _ _ _ _ _)]
        simp [hv]
      · intro hv
        simp only [Widget.placedBounds, Widget.layout, Widget.base, Widget.layoutIn,
          Widget.children]
        rw [hloop _ _ (arrangeMain_cursor_inInt16 _ _ _ _ _ _ _ _)]
        simp only [hv, ↓reduceIte, Option.map_some', Option.some.injEq, exists_eq_left',
          Widget.layoutIn_bounds, WidgetBase.place_bounds, LayoutKind.mainOf,
          LayoutKind.crossOf, LayoutKind.mainSize, LayoutKind.crossSize, LayoutKind.mainPad,
          LayoutKind.crossPad, crossStart, crossAvail, zero_add, hcnt, visibleMain_eq,
          List.length_map, and_self]
  | row =>
      have hcnt := row_countLoop_eq cfg.measured cs 0 0 0 (by decide)
      have hloop := fun gap cur hcur =>
        row_layoutLoop_child b.bounds cfg
          (wrap16 (b.bounds.h - cfg.padding.top - cfg.padding.bottom)) gap cs 0 cur k c hcur hc
      constructor
      · intro hv
        simp only [Widget.layout, Widget.base, Widget.layoutIn, Widget.children]
        rw [hloop _ _ (arrangeMain_cursor_inInt16 _ _ _ _ _ _ _ _)]
        simp [hv]
      · intro hv
        simp only [Widget.placedBounds, Widget.layout, Widget.base, Widget.layoutIn,
          Widget.children]
        rw [hloop _ _ (arrangeMain_cursor_inInt16 _ _ _ _ _ _ _ _)]
        simp only [hv, ↓reduceIte, Option.map_some', Option.some.injEq, exists_eq_left',
          Widget.layoutIn_bounds, WidgetBase.place_bounds, LayoutKind.mainOf,
          LayoutKind.crossOf, LayoutKind.mainSize, LayoutKind.crossSize, LayoutKind.mainPad,
          LayoutKind.crossPad, crossStart, crossAvail, zero_add, hcnt, visibleMain_eq,
          List.length_map, and_self]

theorem offsetFrom_eq_sum (kind : LayoutKind) (m : Nat → Size) (g : Int) (cs : List Widget)
    (k : Nat) :
    offsetFrom kind m g cs 0 k = ((visibleMainBefore kind m cs k).map (fun s => s + g)).sum := by
  simp [offsetFrom, visibleMainBefore, List.map_map, Function.comp_def]

/-! ## C3: arrangement START -/

/-- C3. For a `Column` (and symmetrically a `Row`) with Arrangement START and spacing `g`,
`layout()` places the visible child in slot `k` at main-axis origin
`content_start + Σ (s_j + g)`, the sum ranging over the visible children `j` before it and
`s_j` being their cached measured main-axis sizes, where `content_start` is the bounds
origin plus the leading padding, and gives it its cached main-axis size `s_k` (the origin
being assumed to fit an `int16_t`, that is, no overflow); an invisible child is skipped
and left exactly as it was. -/
theorem start_arrangement (b : WidgetBase) (kind : LayoutKind) (hkind : kind ≠ .stack)
    (cfg : LayoutData) (cs : List Widget) (harr : cfg.arrangement = .START)
    (k : Nat) (c : Widget) (hc : cs[k]? = some c) :
    (c.isVisible = true →
      inInt16 (contentStart kind b.bounds cfg.padding +
        ((visibleMainBefore kind cfg.measured cs k).map (fun s => s + cfg.spacing)).sum) →
      ∃ r, (Widget.composite b kind cfg cs).placedBounds k = some r ∧
        kind.mainOf r =
          (contentStart kind b.bounds cfg.padding +
              ((visibleMainBefore kind cfg.measured cs k).map (fun s => s + cfg.spacing)).sum,
            kind.mainSize (cfg.measured k))) ∧
    (c.isVisible = false →
      (Widget.layout (.composite b kind cfg cs)).1.children[k]? = some c) := by
  have h := layout_child b kind hkind cfg cs k c hc
  refine ⟨fun hv hfit => ?_, h.1⟩
  obtain ⟨r, hr, hmain, -⟩ := h.2 hv
  refine ⟨r, hr, ?_⟩
  rw [hmain, harr]
  simp only [arrangeMain, offsetFrom_eq_sum, wrap16_add_wrap16_left]
  rw [show (kind.mainOf b.bounds).1 + (kind.mainPad cfg.padding).1
    = contentStart kind b.bounds cfg.padding from rfl, wrap16_of_inInt16 hfit]

theorem start_arrangement_witness :
    (∃ r, (Widget.composite mixedBase .column (mixedCfg .START .START)
        mixedChildren).placedBounds 3 = some r ∧
      LayoutKind.column.mainOf r =
        (contentStart .column mixedBase.bounds (mixedCfg .START .START).padding +
            ((visibleMainBefore .column (mixedCfg .START .START).measured mixedChildren 3).map
              (fun s => s + (mixedCfg .START .START).spacing)).sum,
          LayoutKind.column.mainSize ((mixedCfg .START .START).measured 3))) ∧
    (Widget.layout (.composite mixedBase .row (mixedCfg .START .START)
        mixedChildren)).1.children[1]? = some (.leaf ⟨{}, true, false⟩ (.spacer 100 25)) :=
  ⟨(start_arrangement mixedBase .column (by decide) (mixedCfg .START .START) mixedChildren rfl
      3 (.leaf {} (.spacer 100 40)) rfl).1 rfl (by decide),
    (start_arrangement mixedBase .row (by decide) (mixedCfg .START .START) mixedChildren rfl
      1 (.leaf ⟨{}, true, false⟩ (.spacer 100 25)) rfl).2 rfl⟩

/-! ## Arithmetic of `total_spacing` and `extra` without overflow -/

theorem totalSpacing_eq (g : Int) (n : Nat) (hn : 1 ≤ n) (h : inInt16 (g * ((n : Int) - 1))) :
    totalSpacing g n = g * ((n : Int) - 1) := by
  unfold totalSpacing
  by_cases h1 : n > 1
  · simp [h1, wrap16_of_inInt16 h]
  · have : n = 1 := by omega
    subst this
    simp

theorem extraSpace_eq (sz ps pe S T : Int) (h : inInt16 (sz - ps - pe - S - T)) :
    extraSpace sz ps pe (wrap16 S) T = max 0 (sz - ps - pe - S - T) := by
  have e : wrap16 (sz - ps - pe - wrap16 S - T) = sz - ps - pe - S - T := by
    rw [← wrap16_of_inInt16 h]
    unfold wrap16; omega
  unfold extraSpace
  simp only [e]
  rcases le_total 0 (sz - ps - pe - S - T) with h0 | h0
  · rw [max_eq_right h0, if_neg (by omega)]
  · rw [max_eq_left h0]
    split_ifs <;> omega

theorem column_layoutLoop_congr (bounds : Rect) (cfg cfg2 : LayoutData) (avail_w gap : Int)
    (hm : cfg.measured = cfg2.measured) (ha : cfg.cross_align = cfg2.cross_align)
    (hp : cfg.padding = cfg2.padding) :
    ∀ (cs : List Widget) (i : Nat) (cur : Int),
      Column.layoutLoop bounds cfg avail_w gap cs i cur =
        Column.layoutLoop bounds cfg2 avail_w gap cs i cur
  | [], _, _ => by simp [Column.layoutLoop]
  | w :: ws, i, cur => by
      simp only [Column.layoutLoop, hm, ha, hp,
        column_layoutLoop_congr bounds cfg cfg2 avail_w gap hm ha hp ws]

theorem row_layoutLoop_congr (bounds : Rect) (cfg cfg2 : LayoutData) (avail_h gap : Int)
    (hm : cfg.measured = cfg2.measured) (ha : cfg.cross_align = cfg2.cross_align)
    (hp : cfg.padding = cfg2.padding) :
    ∀ (cs : List Widget) (i : Nat) (cur : Int),
      Row.layoutLoop bounds cfg avail_h gap cs i cur =
        Row.layoutLoop bounds cfg2 avail_h gap cs i cur
  | [], _, _ => by simp [Row.layoutLoop]
  | w :: ws, i, cur => by
      simp only [Row.layoutLoop, hm, ha, hp,
        row_layoutLoop_congr bounds cfg cfg2 avail_h gap hm ha hp ws]

/-- Two `Column`s or `Rows` that differ only in their Arrangement place their children
identically as soon as the starting cursor and the gap they compute agree. -/
theorem layout_children_congr (b : WidgetBase) (kind : LayoutKind) (hkind : kind ≠ .stack)
    (cfg : LayoutData) (a : Arrangement) (cs : List Widget)
    (h : arrangeMain cfg.arrangement cfg.spacing (kind.mainOf b.bounds).1
          (kind.mainOf b.bounds).2 (kind.mainPad cfg.padding).1 (kind.mainPad cfg.padding).2
          (wrap16 (visibleMain kind cfg.measured cs).sum)
          (visibleMain kind cfg.measured cs).length =
        arrangeMain a cfg.spacing (kind.mainOf b.bounds).1
          (kind.mainOf b.bounds).2 (kind.mainPad cfg.padding).1 (kind.mainPad cfg.padding).2
          (wrap16 (visibleMain kind cfg.measured cs).sum)
          (visibleMain kind cfg.measured cs).length) :
    (Widget.layout (.composite b kind cfg cs)).1.children =
      (Widget.layout (.composite b kind { cfg with arrangement := a } cs)).1.children := by
  cases kind with
  | stack => exact absurd rfl hkind
  | column =>
      have hcnt := column_countLoop_eq cfg.measured cs 0 0 0 (by decide)
      simp only [LayoutKind.mainOf, LayoutKind.mainPad, visibleMain_eq, List.length_map] at h
      simp only [Widget.layout, Widget.base, Widget.layoutIn, Widget.children, hcnt, zero_add,
        List.length_map, h]
      rw [column_layoutLoop_congr b.bounds cfg { cfg with arrangement := a } _ _ rfl rfl rfl]
  | row =>
      have hcnt := row_countLoop_eq cfg.measured cs 0 0 0 (by decide)
      simp only [LayoutKind.mainOf, LayoutKind.mainPad, visibleMain_eq, List.length_map] at h
      simp only [Widget.layout, Widget.base, Widget.layoutIn, Widget.children, hcnt, zero_add,
        List.length_map, h]
      rw [row_layoutLoop_congr b.bounds cfg { cfg with arrangement := a } _ _ rfl rfl rfl]

theorem visibleCount_eq (kind : LayoutKind) (m : Nat → Size) (cs : List Widget) :
    (visibleMain kind m cs).length = visibleCount cs := by
  rw [visibleMain_eq, List.length_map]
  unfold visibleCount
  suffices h : ∀ (cs : List Widget) (i : Nat),
      ((slotsFrom m cs i).filter (fun s => s.1)).length = (cs.filter Widget.isVisible).length from
    h cs 0
  intro cs
  induction cs with
  | nil => intro i; rfl
  | cons w ws ih =>
      intro i
      by_cases hv : w.isVisible = true
      · simp [slotsFrom, List.filter_cons, hv, ih (i + 1)]
      · simp [slotsFrom, List.filter_cons, hv, ih (i + 1)]

/-- The main-axis part of `layout_child`, in terms of `originAt`. -/
theorem layout_child_main (b : WidgetBase) (kind : LayoutKind) (hkind : kind ≠ .stack)
    (cfg : LayoutData) (cs : List Widget) (k : Nat) (c : Widget) (hc : cs[k]? = some c)
    (hv : c.isVisible = true) (start gap : Int)
    (ha : arrangeMain cfg.arrangement cfg.spacing (kind.mainOf b.bounds).1
          (kind.mainOf b.bounds).2 (kind.mainPad cfg.padding).1 (kind.mainPad cfg.padding).2
          (wrap16 (visibleMain kind cfg.measured cs).sum)
          (visibleMain kind cfg.measured cs).length = (wrap16 start, gap))
    (hfit : inInt16 (originAt kind cfg cs start gap k)) :
    ∃ r, (Widget.composite b kind cfg cs).placedBounds k = some r ∧
      kind.mainOf r = (originAt kind cfg cs start gap k, kind.mainSize (cfg.measured k)) := by
  obtain ⟨r, hr, hmain, -⟩ := (layout_child b kind hkind cfg cs k c hc).2 hv
  refine ⟨r, hr, ?_⟩
  rw [hmain, ha]
  simp only [offsetFrom_eq_sum, wrap16_add_wrap16_left]
  rw [show start + ((visibleMainBefore kind cfg.measured cs k).map (fun s => s + gap)).sum
    = originAt kind cfg cs start gap k from rfl, wrap16_of_inInt16 hfit]

/-! ## C4: arrangement SPACE_BETWEEN -/

/-- C4. For a `Column` or `Row` with Arrangement SPACE_BETWEEN, spacing `g` and `n`
visible children: when `n > 1`, `layout()` places the first visible child at
`content_start` and every later visible child behind the previous one at the distance
`gap = (E + g*(n-1)) / (n-1)` (truncating division), with
`E = max(0, content size - sum of the child main sizes - g*(n-1))` (the values
`g*(n-1)`, the unfloored extra, the gap and the origin being assumed to fit an `int16_t`);
when `n ≤ 1` the children are placed exactly as under Arrangement START. -/
theorem space_between_arrangement (b : WidgetBase) (kind : LayoutKind) (hkind : kind ≠ .stack)
    (cfg : LayoutData) (cs : List Widget) (harr : cfg.arrangement = .SPACE_BETWEEN) :
    (1 < visibleCount cs →
      inInt16 (cfg.spacing * ((visibleCount cs : Int) - 1)) →
      inInt16 (spareSpace kind b.bounds cfg cs) →
      inInt16 (Int.tdiv (max 0 (spareSpace kind b.bounds cfg cs) +
        cfg.spacing * ((visibleCount cs : Int) - 1)) ((visibleCount cs : Int) - 1)) →
      ∀ (k : Nat) (c : Widget), cs[k]? = some c → c.isVisible = true →
        inInt16 (originAt kind cfg cs (contentStart kind b.bounds cfg.padding)
          (Int.tdiv (max 0 (spareSpace kind b.bounds cfg cs) +
            cfg.spacing * ((visibleCount cs : Int) - 1)) ((visibleCount cs : Int) - 1)) k) →
        ∃ r, (Widget.composite b kind cfg cs).placedBounds k = some r ∧
          kind.mainOf r =
            (originAt kind cfg cs (contentStart kind b.bounds cfg.padding)
              (Int.tdiv (max 0 (spareSpace kind b.bounds cfg cs) +
                cfg.spacing * ((visibleCount cs : Int) - 1)) ((visibleCount cs : Int) - 1)) k,
              kind.mainSize (cfg.measured k))) ∧
    (visibleCount cs ≤ 1 →
      (Widget.layout (.composite b kind cfg cs)).1.children =
        (Widget.layout (.composite b kind { cfg with arrangement := .START } cs)).1.children) := by
  constructor
  · intro hn h1 h2 h3 k c hc hv hfit
    apply layout_child_main b kind hkind cfg cs k c hc hv _ _ _ hfit
    rw [harr, visibleCount_eq]
    simp only [arrangeMain, gt_iff_lt, hn, ↓reduceIte]
    rw [totalSpacing_eq _ _ (by omega) h1, extraSpace_eq _ _ _ _ _ h2]
    rw [show (kind.mainOf b.bounds).2 - (kind.mainPad cfg.padding).1 -
        (kind.mainPad cfg.padding).2 - (visibleMain kind cfg.measured cs).sum -
        cfg.spacing * ((visibleCount cs : Int) - 1) = spareSpace kind b.bounds cfg cs from rfl,
      wrap16_of_inInt16 h3]
    rfl
  · intro hn
    apply layout_children_congr b kind hkind cfg .START cs
    rw [harr, visibleCount_eq]
    simp only [arrangeMain, gt_iff_lt, show ¬ 1 < visibleCount cs by omega, ↓reduceIte]

theorem space_between_arrangement_witness :
    (∃ r, (Widget.composite mixedBase .column (mixedCfg .START .SPACE_BETWEEN)
        mixedChildren).placedBounds 3 = some r ∧
      LayoutKind.column.mainOf r = (174, 40)) ∧
    (Widget.layout (.composite mixedBase .row (mixedCfg .START .SPACE_BETWEEN)
        fewChildren)).1.children =
      (Widget.layout (.composite mixedBase .row
        { mixedCfg .START .SPACE_BETWEEN with arrangement := .START } fewChildren)).1.children :=
  ⟨(space_between_arrangement mixedBase .column (by decide) (mixedCfg .START .SPACE_BETWEEN)
      mixedChildren rfl).1 (by decide) (by decide) (by decide) (by decide) 3
      (.leaf {} (.spacer 100 40)) rfl rfl (by decide),
    (space_between_arrangement mixedBase .row (by decide) (mixedCfg .START .SPACE_BETWEEN)
      fewChildren rfl).2 (by decide)⟩

/-! ## C5: arrangement SPACE_EVENLY -/

/-- C5. For a `Column` or `Row` with Arrangement SPACE_EVENLY, spacing `g` and `n ≥ 1`
visible children, `layout()` uses `gap = (extra + total_spacing) / (n + 1)` (truncating
division, `total_spacing = g*(n-1)`, `extra` = the left-over space floored at 0), places
the first visible child at `content_start + gap` and every later visible child behind the
previous one at the distance `gap` (the values `g*(n-1)`, the unfloored extra, the gap and
the origin being assumed to fit an `int16_t`). -/
theorem space_evenly_arrangement (b : WidgetBase) (kind : LayoutKind) (hkind : kind ≠ .stack)
    (cfg : LayoutData) (cs : List Widget) (harr : cfg.arrangement = .SPACE_EVENLY)
    (hn : 1 ≤ visibleCount cs)
    (h1 : inInt16 (cfg.spacing * ((visibleCount cs : Int) - 1)))
    (h2 : inInt16 (spareSpace kind b.bounds cfg cs))
    (h3 : inInt16 (Int.tdiv (max 0 (spareSpace kind b.bounds cfg cs) +
        cfg.spacing * ((visibleCount cs : Int) - 1)) ((visibleCount cs : Int) + 1)))
    (k : Nat) (c : Widget) (hc : cs[k]? = some c) (hv : c.isVisible = true)
    (hfit : inInt16 (originAt kind cfg cs
      (contentStart kind b.bounds cfg.padding +
        Int.tdiv (max 0 (spareSpace kind b.bounds cfg cs) +
          cfg.spacing * ((visibleCount cs : Int) - 1)) ((visibleCount cs : Int) + 1))
      (Int.tdiv (max 0 (spareSpace kind b.bounds cfg cs) +
        cfg.spacing * ((visibleCount cs : Int) - 1)) ((visibleCount cs : Int) + 1)) k)) :
    ∃ r, (Widget.composite b kind cfg cs).placedBounds k = some r ∧
      kind.mainOf r =
        (originAt kind cfg cs
          (contentStart kind b.bounds cfg.padding +
            Int.tdiv (max 0 (spareSpace kind b.bounds cfg cs) +
              cfg.spacing * ((visibleCount cs : Int) - 1)) ((visibleCount cs : Int) + 1))
          (Int.tdiv (max 0 (spareSpace kind b.bounds cfg cs) +
            cfg.spacing * ((visibleCount cs : Int) - 1)) ((visibleCount cs : Int) + 1)) k,
          kind.mainSize (cfg.measured k)) := by
  apply layout_child_main b kind hkind cfg cs k c hc hv _ _ _ hfit
  rw [harr, visibleCount_eq]
  simp only [arrangeMain, gt_iff_lt, show 0 < visibleCount cs by omega, ↓reduceIte]
  rw [totalSpacing_eq _ _ hn h1, extraSpace_eq _ _ _ _ _ h2]
  rw [show (kind.mainOf b.bounds).2 - (kind.mainPad cfg.padding).1 -
      (kind.mainPad cfg.padding).2 - (visibleMain kind cfg.measured cs).sum -
      cfg.spacing * ((visibleCount cs : Int) - 1) = spareSpace kind b.bounds cfg cs from rfl,
    wrap16_of_inInt16 h3, wrap16_add_wrap16_left]
  rfl

theorem space_evenly_arrangement_witness :
    ∃ r, (Widget.composite mixedBase .row (mixedCfg .START .SPACE_EVENLY)
        mixedChildren).placedBounds 2 = some r ∧
      LayoutKind.row.mainOf r = (115, 100) :=
  space_evenly_arrangement mixedBase .row (by decide) (mixedCfg .START .SPACE_EVENLY)
    mixedChildren rfl (by decide) (by decide) (by decide) (by decide) 2
    (.leaf {} (.spacer 100 30)) rfl rfl (by decide)

/-! ## C6: arrangements CENTER and END -/

theorem sum_map_add_const (l : List Int) (g : Int) :
    (l.map (fun s => s + g)).sum = l.sum + g * (l.length : Int) := by
  induction l with
  | nil => simp
  | cons a t ih =>
      simp only [List.map_cons, List.sum_cons, List.length_cons, ih]
      push_cast
      ring

theorem slotsFrom_filter_nil (m : Nat → Size) :
    ∀ (cs : List Widget) (i : Nat),
      (∀ (j : Nat) (c : Widget), cs[j]? = some c → c.isVisible = false) →
      (slotsFrom m cs i).filter (fun s => s.1) = []
  | [], _, _ => rfl
  | w :: ws, i, h => by
      have hw : w.isVisible = false := h 0 w (by simp)
      have ht := slotsFrom_filter_nil m ws (i + 1) (fun j c hj => h (j + 1) c (by simpa using hj))
      simp [slotsFrom, List.filter_cons, hw, ht]

theorem slotsFrom_filter_last (m : Nat → Size) :
    ∀ (cs : List Widget) (i k : Nat) (c : Widget), cs[k]? = some c → c.isVisible = true →
      (∀ (j : Nat) (d : Widget), k < j → cs[j]? = some d → d.isVisible = false) →
      (slotsFrom m cs i).filter (fun s => s.1) =
        ((slotsFrom m cs i).take k).filter (fun s => s.1) ++ [(true, m (i + k))]
  | [], _, _, _, hc, _, _ => by simp at hc
  | w :: ws, i, 0, c, hc, hv, hlast => by
      simp only [List.getElem?_cons_zero, Option.some.injEq] at hc
      subst hc
      have ht := slotsFrom_filter_nil m ws (i + 1)
        (fun j d hj => hlast (j + 1) d (by omega) (by simpa using hj))
      simp [slotsFrom, List.filter_cons, hv, ht]
  | w :: ws, i, k + 1, c, hc, hv, hlast => by
      simp only [List.getElem?_cons_succ] at hc
      have ih := slotsFrom_filter_last m ws (i + 1) k c hc hv
        (fun j d hj hd => hlast (j + 1) d (by omega) (by simpa using hd))
      have e : i + 1 + k = i + (k + 1) := by omega
      by_cases hw : w.isVisible = true
      · simp only [slotsFrom, List.take_succ_cons, List.filter_cons, hw, ↓reduceIte,
          List.cons_append, ih, e]
      · simp only [slotsFrom, List.take_succ_cons, List.filter_cons, hw, ↓reduceIte,
          Bool.false_eq_true, ih, e]

/-- When slot `k` holds the last visible child, the far edge of a child placed at
`originAt start g k` with its cached main size lies `spareSpace` before the end of the
content box shifted by `start - content_start`. -/
theorem originAt_last (kind : LayoutKind) (b : Rect) (cfg : LayoutData) (cs : List Widget)
    (k : Nat) (c : Widget) (hc : cs[k]? = some c) (hv : c.isVisible = true)
    (hlast : ∀ (j : Nat) (d : Widget), k < j → cs[j]? = some d → d.isVisible = false)
    (start : Int) :
    originAt kind cfg cs start cfg.spacing k + kind.mainSize (cfg.measured k) =
      start + contentSize kind b cfg.padding - spareSpace kind b cfg cs := by
  have hl := slotsFrom_filter_last cfg.measured cs 0 k c hc hv hlast
  have hsum : (visibleMain kind cfg.measured cs).sum =
      (visibleMainBefore kind cfg.measured cs k).sum + kind.mainSize (cfg.measured k) := by
    rw [visibleMain_eq, hl]
    simp [visibleMainBefore]
  have hlen : (visibleCount cs : Int) =
      ((visibleMainBefore kind cfg.measured cs k).length : Int) + 1 := by
    rw [← visibleCount_eq kind cfg.measured cs, visibleMain_eq, hl]
    simp [visibleMainBefore]
  unfold originAt spareSpace
  rw [sum_map_add_const, hsum, hlen]
  ring

theorem visibleCount_pos (cs : List Widget) (k : Nat) (c : Widget) (hc : cs[k]? = some c)
    (hv : c.isVisible = true) : 1 ≤ visibleCount cs := by
  unfold visibleCount
  have hmem : c ∈ cs.filter Widget.isVisible :=
    List.mem_filter.mpr ⟨List.getElem?_mem hc, hv⟩
  exact List.length_pos_of_mem hmem

/-- C6. For a `Column` or `Row` with spacing `g` and `n` visible children, let
`extra = max(0, content size - sum of the child main sizes - g*(n-1))`. Arrangement CENTER
places the first visible child at `content_start + extra/2` (truncating) and Arrangement
END at `content_start + extra`, both with gap `g` between consecutive visible children
(the values `g*(n-1)`, the unfloored extra and the origin being assumed to fit an
`int16_t`). Consequently, when the children fit (the unfloored extra is `≥ 0`), under END
the far edge of the last visible child is exactly the end of the content box. -/
theorem center_end_arrangement (b : WidgetBase) (kind : LayoutKind) (hkind : kind ≠ .stack)
    (cfg : LayoutData) (cs : List Widget)
    (h1 : inInt16 (cfg.spacing * ((visibleCount cs : Int) - 1)))
    (h2 : inInt16 (spareSpace kind b.bounds cfg cs))
    (k : Nat) (c : Widget) (hc : cs[k]? = some c) (hv : c.isVisible = true) :
    (cfg.arrangement = .CENTER →
      inInt16 (originAt kind cfg cs (contentStart kind b.bounds cfg.padding +
        Int.tdiv (max 0 (spareSpace kind b.bounds cfg cs)) 2) cfg.spacing k) →
      ∃ r, (Widget.composite b kind cfg cs).placedBounds k = some r ∧
        kind.mainOf r =
          (originAt kind cfg cs (contentStart kind b.bounds cfg.padding +
              Int.tdiv (max 0 (spareSpace kind b.bounds cfg cs)) 2) cfg.spacing k,
            kind.mainSize (cfg.measured k))) ∧
    (cfg.arrangement = .END →
      inInt16 (originAt kind cfg cs (contentStart kind b.bounds cfg.padding +
        max 0 (spareSpace kind b.bounds cfg cs)) cfg.spacing k) →
      ∃ r, (Widget.composite b kind cfg cs).placedBounds k = some r ∧
        kind.mainOf r =
          (originAt kind cfg cs (contentStart kind b.bounds cfg.padding +
              max 0 (spareSpace kind b.bounds cfg cs)) cfg.spacing k,
            kind.mainSize (cfg.measured k)) ∧
        (0 ≤ spareSpace kind b.bounds cfg cs →
          (∀ (j : Nat) (d : Widget), k < j → cs[j]? = some d → d.isVisible = false) →
          (kind.mainOf r).1 + (kind.mainOf r).2 =
            contentStart kind b.bounds cfg.padding + contentSize kind b.bounds cfg.padding)) := by
  have hn : 1 ≤ visibleCount cs := visibleCount_pos cs k c hc hv
  have hspare : (kind.mainOf b.bounds).2 - (kind.mainPad cfg.padding).1 -
      (kind.mainPad cfg.padding).2 - (visibleMain kind cfg.measured cs).sum -
      cfg.spacing * ((visibleCount cs : Int) - 1) = spareSpace kind b.bounds cfg cs := rfl
  constructor
  · intro harr hfit
    apply layout_child_main b kind hkind cfg cs k c hc hv _ _ _ hfit
    rw [harr, visibleCount_eq]
    simp only [arrangeMain]
    rw [totalSpacing_eq _ _ hn h1, extraSpace_eq _ _ _ _ _ h2, hspare, wrap16_add_wrap16_left]
    rfl
  · intro harr hfit
    have hmain : ∃ r, (Widget.composite b kind cfg cs).placedBounds k = some r ∧
        kind.mainOf r =
          (originAt kind cfg cs (contentStart kind b.bounds cfg.padding +
              max 0 (spareSpace kind b.bounds cfg cs)) cfg.spacing k,
            kind.mainSize (cfg.measured k)) := by
      apply layout_child_main b kind hkind cfg cs k c hc hv _ _ _ hfit
      rw [harr, visibleCount_eq]
      simp only [arrangeMain]
      rw [totalSpacing_eq _ _ hn h1, extraSpace_eq _ _ _ _ _ h2, hspare, wrap16_add_wrap16_left]
      rfl
    obtain ⟨r, hr, hm⟩ := hmain
    refine ⟨r, hr, hm, fun h0 hlast => ?_⟩
    rw [hm]
    simp only
    rw [originAt_last kind b.bounds cfg cs k c hc hv hlast, max_eq_right h0]
    ring

theorem center_end_arrangement_witness :
    (∃ r, (Widget.composite mixedBase .column (mixedCfg .START .CENTER)
        mixedChildren).placedBounds 0 = some r ∧
      LayoutKind.column.mainOf r = (69, 20)) ∧
    (∃ r, (Widget.composite mixedBase .column (mixedCfg .START .END)
        mixedChildren).placedBounds 3 = some r ∧
      LayoutKind.column.mainOf r = (175, 40) ∧
      (LayoutKind.column.mainOf r).1 + (LayoutKind.column.mainOf r).2 = 22 + 193) :=
  ⟨(center_end_arrangement mixedBase .column (by decide) (mixedCfg .START .CENTER)
      mixedChildren (by decide) (by decide) 0 (.leaf {} (.spacer 100 20)) rfl rfl).1 rfl
      (by decide),
    let ⟨r, hr, hm, hfar⟩ :=
      (center_end_arrangement mixedBase .column (by decide) (mixedCfg .START .END)
        mixedChildren (by decide) (by decide) 3 (.leaf {} (.spacer 100 40)) rfl rfl).2 rfl
        (by decide)
    ⟨r, hr, hm, hfar (by decide) (fun j d hj hd => by
      rw [List.getElem?_eq_none (by simpa [mixedChildren] using hj)] at hd
      cases hd)⟩⟩

/-! ## C7: cross-axis alignment -/

/-- C7. In `Column::layout` (and `Row::layout` with the axes swapped) the cross-axis origin
and size given to a visible child depend only on the Align setting, the bounds and padding
of the container and the cached measured cross size of the child, never on the
Arrangement. With `avail` = container cross size minus both cross paddings: START gives
origin = content start and the measured size; CENTER gives origin = content start +
`(avail - measured)/2` (truncating); END gives origin = content start + avail - measured;
STRETCH gives origin = content start and size = avail (the content start, `avail` and the
origin being assumed to fit an `int16_t`). -/
theorem cross_axis_alignment (b : WidgetBase) (kind : LayoutKind) (hkind : kind ≠ .stack)
    (cfg : LayoutData) (cs : List Widget) (k : Nat) (c : Widget) (hc : cs[k]? = some c)
    (hv : c.isVisible = true)
    (hstart : inInt16 (crossStart kind b.bounds cfg.padding))
    (havail : inInt16 (crossAvail kind b.bounds cfg.padding)) :
    ∃ r, (Widget.composite b kind cfg cs).placedBounds k = some r ∧
      (cfg.cross_align = .START →
        kind.crossOf r =
          (crossStart kind b.bounds cfg.padding, kind.crossSize (cfg.measured k))) ∧
      (cfg.cross_align = .CENTER →
        inInt16 (crossStart kind b.bounds cfg.padding +
          Int.tdiv (crossAvail kind b.bounds cfg.padding - kind.crossSize (cfg.measured k)) 2) →
        kind.crossOf r =
          (crossStart kind b.bounds cfg.padding +
            Int.tdiv (crossAvail kind b.bounds cfg.padding - kind.crossSize (cfg.measured k)) 2,
            kind.crossSize (cfg.measured k))) ∧
      (cfg.cross_align = .END →
        inInt16 (crossStart kind b.bounds cfg.padding + crossAvail kind b.bounds cfg.padding -
          kind.crossSize (cfg.measured k)) →
        kind.crossOf r =
          (crossStart kind b.bounds cfg.padding + crossAvail kind b.bounds cfg.padding -
            kind.crossSize (cfg.measured k), kind.crossSize (cfg.measured k))) ∧
      (cfg.cross_align = .STRETCH →
        kind.crossOf r =
          (crossStart kind b.bounds cfg.padding, crossAvail kind b.bounds cfg.padding)) ∧
      (∀ a : Arrangement,
        ((Widget.composite b kind { cfg with arrangement := a } cs).placedBounds k).map
          kind.crossOf = some (kind.crossOf r)) := by
  obtain ⟨r, hr, -, hcross⟩ := (layout_child b kind hkind cfg cs k c hc).2 hv
  rw [wrap16_of_inInt16 hstart, wrap16_of_inInt16 havail] at hcross
  refine ⟨r, hr, ?_, ?_, ?_, ?_, ?_⟩
  · intro ha
    rw [hcross, ha]
    rfl
  · intro ha hfit
    rw [hcross, ha]
    simp only [alignCross, wrap16_of_inInt16 hfit]
  · intro ha hfit
    rw [hcross, ha]
    simp only [alignCross]
    rw [show crossStart kind b.bounds cfg.padding +
        (crossAvail kind b.bounds cfg.padding - kind.crossSize (cfg.measured k)) =
        crossStart kind b.bounds cfg.padding + crossAvail kind b.bounds cfg.padding -
          kind.crossSize (cfg.measured k) by ring, wrap16_of_inInt16 hfit]
  · intro ha
    rw [hcross, ha]
    rfl
  · intro a
    obtain ⟨r2, hr2, -, hcross2⟩ :=
      (layout_child b kind hkind { cfg with arrangement := a } cs k c hc).2 hv
    rw [wrap16_of_inInt16 hstart, wrap16_of_inInt16 havail] at hcross2
    rw [hr2, Option.map_some', hcross2, hcross]

theorem cross_axis_alignment_witness :
    ∃ r, (Widget.composite mixedBase .column (mixedCfg .CENTER .SPACE_EVENLY)
        mixedChildren).placedBounds 2 = some r ∧
      LayoutKind.column.crossOf r = (109, 100) ∧
      ((Widget.composite mixedBase .column
          { mixedCfg .CENTER .SPACE_EVENLY with arrangement := .END }
          mixedChildren).placedBounds 2).map LayoutKind.column.crossOf =
        some (LayoutKind.column.crossOf r) :=
  let ⟨r, hr, _, hcenter, _, _, hind⟩ :=
    cross_axis_alignment mixedBase .column (by decide) (mixedCfg .CENTER .SPACE_EVENLY)
      mixedChildren 2 (.leaf {} (.spacer 100 30)) rfl rfl (by decide) (by decide)
  ⟨r, hr, hcenter rfl (by decide), hind .END⟩

/-! ## C8: the aggregate returned by `measure` -/

/-- C8 at a failing input. A `Column` (and a `Row`) with spacing 4, no padding and two
children, the first invisible and the second a visible 30x30 spacer, measured under
constraints min 0, max 200: the one visible child measures 30 on the main axis, so the
claimed main-axis size is `clamp(0 + 30 + 4*(1 - 1), 0, 200) = 30`, while `measure` returns
34: the test `i > 0` adds the spacing before the visible child in slot 1 although no
visible child precedes it. -/
theorem measure_hidden_first_child :
    ((hiddenFirst .column).measure ⟨0, 0, 200, 200⟩).1 = ⟨30, 34⟩ ∧
    ((hiddenFirst .row).measure ⟨0, 0, 200, 200⟩).1 = ⟨34, 30⟩ ∧
    visibleCount (hiddenFirst .column).children = 1 ∧
    visibleMain .column ((hiddenFirst .column).measure ⟨0, 0, 200, 200⟩).2.measured
      (hiddenFirst .column).children = [30] ∧
    constrain (0 + 0 + 30 + 4 * (1 - 1)) 0 200 = 30 := by
  decide

/-! ## C9: end-to-end scenario 1 -/

theorem Widget.measure_base (n : Widget) (c : Constraints) : (n.measure c).2.base = n.base := by
  cases n with
  | leaf b k => simp [Widget.measure, Widget.base]
  | composite b kind cfg cs => cases kind <;> simp [Widget.measure, Widget.base]

theorem Widget.measure_isVisible (n : Widget) (c : Constraints) :
    (n.measure c).2.isVisible = n.isVisible := by
  simp [Widget.isVisible, Widget.measure_base]

/-- C9. End-to-end: a `Column` with spacing 4, no padding, Arrangement START and three
visible children that measure (100,20), (100,30) and (100,40) under the constraints the
column passes to them, measured under constraints min 0, `max_w = 100`, `max_h = 200`,
returns the size (100, 98); after `place(0,0,100,98)` and `layout()` the bounds of the
children are (0,0,100,20), (0,24,100,30) and (0,58,100,40). -/
theorem scenario_start (b : WidgetBase) (cfg : LayoutData) (w1 w2 w3 : Widget)
    (hs : cfg.spacing = 4) (hp : cfg.padding = ⟨0, 0, 0, 0⟩)
    (ha : cfg.arrangement = .START)
    (hv1 : w1.isVisible = true) (hv2 : w2.isVisible = true) (hv3 : w3.isVisible = true)
    (hm1 : (w1.measure ⟨0, 0, 100, 200⟩).1 = ⟨100, 20⟩)
    (hm2 : (w2.measure ⟨0, 0, 100, 180⟩).1 = ⟨100, 30⟩)
    (hm3 : (w3.measure ⟨0, 0, 100, 146⟩).1 = ⟨100, 40⟩) :
    ((Widget.composite b .column cfg [w1, w2, w3]).measure ⟨0, 0, 100, 200⟩).1 = ⟨100, 98⟩ ∧
    ((((Widget.composite b .column cfg [w1, w2, w3]).measure ⟨0, 0, 100, 200⟩).2.place
        0 0 100 98).1.layout.1.children.map Widget.bounds =
      [⟨0, 0, 100, 20⟩, ⟨0, 24, 100, 30⟩, ⟨0, 58, 100, 40⟩]) := by
  have hmeas : (Widget.composite b .column cfg [w1, w2, w3]).measure ⟨0, 0, 100, 200⟩ =
      (⟨100, 98⟩, .composite b .column
        { cfg with measured := Function.update (Function.update (Function.update cfg.measured
            0 ⟨100, 20⟩) 1 ⟨100, 30⟩) 2 ⟨100, 40⟩ }
        [(w1.measure ⟨0, 0, 100, 200⟩).2, (w2.measure ⟨0, 0, 100, 180⟩).2,
          (w3.measure ⟨0, 0, 100, 146⟩).2]) := by
    simp [Widget.measure, Column.measureLoop, hs, hp, hv1, hv2, hv3, hm1, hm2, hm3,
      wrap16, constrain]
  rw [hmeas]
  refine ⟨rfl, ?_⟩
  cases hal : cfg.cross_align <;>
  simp [Widget.place, Widget.layout, Widget.setBase, Widget.base, Widget.layoutIn,
    Column.layoutLoop, Column.countLoop, arrangeMain, alignCross, Widget.children,
    Widget.measure_isVisible, Widget.layoutIn_bounds, WidgetBase.place_bounds,
    hs, hp, ha, hal, hv1, hv2, hv3, wrap16]

theorem scenario_start_witness :
    ((sampleColumn .START).measure ⟨0, 0, 100, 200⟩).1 = ⟨100, 98⟩ ∧
    ((((sampleColumn .START).measure ⟨0, 0, 100, 200⟩).2.place
        0 0 100 98).1.layout.1.children.map Widget.bounds =
      [⟨0, 0, 100, 20⟩, ⟨0, 24, 100, 30⟩, ⟨0, 58, 100, 40⟩]) :=
  scenario_start {} ⟨4, {}, 0xFFFFFF, fun _ => {}, .START, .START⟩
    (.leaf {} (.spacer 100 20)) (.leaf {} (.spacer 100 30)) (.leaf {} (.spacer 100 40))
    rfl rfl rfl rfl rfl rfl (by decide) (by decide) (by decide)

/-! ## C10: end-to-end scenario 2 -/

/-- C10, as amended. End-to-end: a `Column` with spacing 4, no padding, Arrangement
SPACE_BETWEEN and three visible children whose cached measured heights are 20, 30 and 40,
placed at `y = 0` with height 150: `layout()` computes `extra = 150 - 90 - 8 = 52` and
`gap = (52 + 8) / 2 = 30` and places the three children at `y = 0`, `y = 50` and
`y = 110`. -/
theorem scenario_space_between (b : WidgetBase) (cfg : LayoutData) (w1 w2 w3 : Widget)
    (hs : cfg.spacing = 4) (hp : cfg.padding = ⟨0, 0, 0, 0⟩)
    (ha : cfg.arrangement = .SPACE_BETWEEN)
    (hy : b.bounds.y = 0) (hh : b.bounds.h = 150)
    (hv1 : w1.isVisible = true) (hv2 : w2.isVisible = true) (hv3 : w3.isVisible = true)
    (hm1 : (cfg.measured 0).h = 20) (hm2 : (cfg.measured 1).h = 30)
    (hm3 : (cfg.measured 2).h = 40) :
    extraSpace b.bounds.h cfg.padding.top cfg.padding.bottom
        (Column.countLoop cfg.measured [w1, w2, w3] 0 0 0).1
        (totalSpacing cfg.spacing (Column.countLoop cfg.measured [w1, w2, w3] 0 0 0).2) = 52 ∧
    (arrangeMain cfg.arrangement cfg.spacing b.bounds.y b.bounds.h cfg.padding.top
        cfg.padding.bottom (Column.countLoop cfg.measured [w1, w2, w3] 0 0 0).1
        (Column.countLoop cfg.measured [w1, w2, w3] 0 0 0).2).2 = 30 ∧
    (Widget.composite b .column cfg [w1, w2, w3]).layout.1.children.map
        (fun c => c.bounds.y) = [0, 50, 110] := by
  have hcnt : Column.countLoop cfg.measured [w1, w2, w3] 0 0 0 = (90, 3) := by
    simp [Column.countLoop, hv1, hv2, hv3, hm1, hm2, hm3, wrap16]
  have hgap : Int.tdiv 60 2 = 30 := by decide
  refine ⟨?_, ?_, ?_⟩
  · simp [hcnt, hs, hp, hh, extraSpace, totalSpacing, wrap16]
  · simp [hcnt, hs, hp, hh, hy, ha, arrangeMain, extraSpace, totalSpacing, wrap16, hgap]
  · simp [Widget.layout, Widget.base, Widget.layoutIn, Column.layoutLoop, hcnt, arrangeMain,
      extraSpace, totalSpacing, Widget.children, Widget.layoutIn_bounds,
      WidgetBase.place_bounds, hs, hp, ha, hy, hh, hv1, hv2, hv3, hm1, hm2, hm3, wrap16, hgap]

theorem scenario_space_between_witness :
    (((sampleColumn .SPACE_BETWEEN).measure ⟨0, 0, 100, 200⟩).2.place
        0 0 100 150).1.layout.1.children.map (fun c => c.bounds.y) = [0, 50, 110] :=
  (scenario_space_between ⟨⟨0, 0, 100, 150⟩, true, true⟩
    ((sampleColumn .SPACE_BETWEEN).measure ⟨0, 0, 100, 200⟩).2.cfg
    (.leaf {} (.spacer 100 20)) (.leaf {} (.spacer 100 30)) (.leaf {} (.spacer 100 40))
    rfl rfl rfl rfl rfl rfl rfl rfl rfl rfl rfl).2.2

/-- C10 as stated fails: for the `Column` of the scenario (spacing 4, no padding, three
spacers measuring 100x20, 100x30, 100x40, Arrangement SPACE_BETWEEN, measured, then placed
at (0, 0, 100, 150)), `layout()` computes neither `extra = 60` nor `gap = 34`, and the
children are not placed at `y = 0, 54, 118`. -/
theorem scenario_space_between_counterexample :
    ¬ (extraSpace 150 0 0
          (Column.countLoop ((sampleColumn .SPACE_BETWEEN).measure ⟨0, 0, 100, 200⟩).2.measured
            (sampleColumn .SPACE_BETWEEN).children 0 0 0).1
          (totalSpacing 4 (Column.countLoop
            ((sampleColumn .SPACE_BETWEEN).measure ⟨0, 0, 100, 200⟩).2.measured
            (sampleColumn .SPACE_BETWEEN).children 0 0 0).2) = 60 ∨
        (arrangeMain .SPACE_BETWEEN 4 0 150 0 0
          (Column.countLoop ((sampleColumn .SPACE_BETWEEN).measure ⟨0, 0, 100, 200⟩).2.measured
            (sampleColumn .SPACE_BETWEEN).children 0 0 0).1
          (Column.countLoop ((sampleColumn .SPACE_BETWEEN).measure ⟨0, 0, 100, 200⟩).2.measured
            (sampleColumn .SPACE_BETWEEN).children 0 0 0).2).2 = 34 ∨
        (((sampleColumn .SPACE_BETWEEN).measure ⟨0, 0, 100, 200⟩).2.place
          0 0 100 150).1.layout.1.children.map (fun c => c.bounds.y) = [0, 54, 118]) := by
  decide

/-! ## C11: `Stack::measure` -/

theorem ite_gt_eq_max (s a : Int) : (if s > a then s else a) = max a s := by
  rcases le_total a s with h | h
  · rcases eq_or_lt_of_le h with e | e
    · subst e; simp
    · rw [max_eq_right h, if_pos e]
  · rw [max_eq_left h, if_neg (by omega)]

theorem stack_measureLoop_eq (c : Constraints) :
    ∀ (cs : List Widget) (i : Nat) (max_w max_h : Int) (m : Nat → Size),
      (Stack.measureLoop c cs i max_w max_h m).cross =
          ((visibleMeasured c cs).map (fun s => s.w)).foldl max max_w ∧
        (Stack.measureLoop c cs i max_w max_h m).total =
          ((visibleMeasured c cs).map (fun s => s.h)).foldl max max_h ∧
        (Stack.measureLoop c cs i max_w max_h m).children =
          cs.map (fun w => if w.isVisible then (w.measure c).2 else w) ∧
        (∀ (k : Nat) (w : Widget), cs[k]? = some w →
          (Stack.measureLoop c cs i max_w max_h m).measured (i + k) =
            if w.isVisible then (w.measure c).1 else m (i + k)) ∧
        ∀ j : Nat, j < i → (Stack.measureLoop c cs i max_w max_h m).measured j = m j
  | [], _, _, _, _ => by
      simp [Stack.measureLoop, visibleMeasured]
  | w :: ws, i, max_w, max_h, m => by
      by_cases hv : w.isVisible = true
      · obtain ⟨h1, h2, h3, h4, h5⟩ := stack_measureLoop_eq c ws (i + 1)
          (max max_w (w.measure c).1.w) (max max_h (w.measure c).1.h)
          (Function.update m i (w.measure c).1)
        simp only [Stack.measureLoop, hv, Bool.not_true, Bool.false_eq_true, ↓reduceIte,
          h1, h2, h3, visibleMeasured, List.filter_cons, List.map_cons, List.foldl_cons,
          ite_gt_eq_max, true_and]
        constructor
        · intro k w2 hk
          cases k with
          | zero =>
              simp only [List.getElem?_cons_zero, Option.some.injEq] at hk
              subst hk
              simp only [Nat.add_zero]
              rw [h5 i (by omega), Function.update_same, if_pos hv]
          | succ k =>
              simp only [List.getElem?_cons_succ] at hk
              have e : i + (k + 1) = i + 1 + k := by omega
              rw [e, h4 k w2 hk, Function.update_noteq (by omega)]
        · intro j hj
          rw [h5 j (by omega), Function.update_noteq (by omega)]
      · obtain ⟨h1, h2, h3, h4, h5⟩ := stack_measureLoop_eq c ws (i + 1) max_w max_h m
        simp only [Stack.measureLoop, hv, Bool.not_false, ↓reduceIte, h1, h2, h3,
          visibleMeasured, List.filter_cons, List.map_cons, Bool.false_eq_true, true_and]
        constructor
        · intro k w2 hk
          cases k with
          | zero =>
              simp only [List.getElem?_cons_zero, Option.some.injEq] at hk
              subst hk
              simp only [Nat.add_zero]
              rw [h5 i (by omega), if_neg hv]
          | succ k =>
              simp only [List.getElem?_cons_succ] at hk
              have e : i + (k + 1) = i + 1 + k := by omega
              rw [e, h4 k w2 hk]
        · intro j hj
          exact h5 j (by omega)

theorem foldl_max_nonneg (l : List Int) (h : ∀ s ∈ l, 0 ≤ s) :
    l.foldl max 0 = (l.max?).getD 0 := by
  cases l with
  | nil => rfl
  | cons x xs =>
      rw [List.max?_cons', Option.getD_some, List.foldl_cons,
        max_eq_right (h x (List.mem_cons_self x xs))]

/-- C11. Method `Stack::measure(c)` passes the unmodified constraints `c` to every visible
child (the child afterwards is the child measured under `c`, and its size is cached in its
slot) and returns on each axis `clamp(M + the two paddings on that axis, c.min, c.max)`,
where `M` is the maximum, starting from 0, of the sizes the visible children returned on
that axis: 0 when no child is visible, and the maximum over the visible children whenever
their sizes are non-negative. Invisible children are not measured (they and their cache
slots are unchanged) and do not contribute. -/
theorem stack_measure (b : WidgetBase) (cfg : LayoutData) (cs : List Widget) (c : Constraints) :
    ((Widget.composite b .stack cfg cs).measure c).1 =
      ⟨constrain (maxFromZero ((visibleMeasured c cs).map (fun s => s.w)) +
          cfg.padding.left + cfg.padding.right) c.min_w c.max_w,
        constrain (maxFromZero ((visibleMeasured c cs).map (fun s => s.h)) +
          cfg.padding.top + cfg.padding.bottom) c.min_h c.max_h⟩ ∧
    ((Widget.composite b .stack cfg cs).measure c).2.children =
      cs.map (fun w => if w.isVisible then (w.measure c).2 else w) ∧
    (∀ (k : Nat) (w : Widget), cs[k]? = some w →
      ((Widget.composite b .stack cfg cs).measure c).2.measured k =
        if w.isVisible then (w.measure c).1 else cfg.measured k) ∧
    (visibleMeasured c cs = [] →
      maxFromZero ((visibleMeasured c cs).map (fun s => s.w)) = 0 ∧
      maxFromZero ((visibleMeasured c cs).map (fun s => s.h)) = 0) ∧
    ((∀ s ∈ visibleMeasured c cs, 0 ≤ s.w ∧ 0 ≤ s.h) →
      maxFromZero ((visibleMeasured c cs).map (fun s => s.w)) =
        (((visibleMeasured c cs).map (fun s => s.w)).max?).getD 0 ∧
      maxFromZero ((visibleMeasured c cs).map (fun s => s.h)) =
        (((visibleMeasured c cs).map (fun s => s.h)).max?).getD 0) := by
  obtain ⟨h1, h2, h3, h4, -⟩ := stack_measureLoop_eq c cs 0 0 0 cfg.measured
  refine ⟨?_, ?_, ?_, ?_, ?_⟩
  · simp only [Widget.measure, h1, h2, maxFromZero]
  · simp only [Widget.measure, Widget.children, h3]
  · intro k w hk
    have := h4 k w hk
    simpa only [Widget.measure, Widget.measured, zero_add] using this
  · intro he
    simp [he, maxFromZero]
  · intro hpos
    constructor
    · apply foldl_max_nonneg
      intro s hs
      obtain ⟨z, hz, rfl⟩ := List.mem_map.mp hs
      exact (hpos z hz).1
    · apply foldl_max_nonneg
      intro s hs
      obtain ⟨z, hz, rfl⟩ := List.mem_map.mp hs
      exact (hpos z hz).2

theorem stack_measure_witness :
    (sampleStack.measure ⟨0, 0, 200, 200⟩).1 = ⟨54, 67⟩ ∧
    maxFromZero ((visibleMeasured ⟨0, 0, 200, 200⟩ sampleStack.children).map (fun s => s.w)) =
      (((visibleMeasured ⟨0, 0, 200, 200⟩ sampleStack.children).map (fun s => s.w)).max?).getD 0 ∧
    (((visibleMeasured ⟨0, 0, 200, 200⟩ sampleStack.children).map (fun s => s.w)).max?).getD 0
      = 50 :=
  ⟨by decide,
    ((stack_measure mixedBase ⟨4, ⟨1, 2, 3, 5⟩, 0xFFFFFF, fun _ => {}, .START, .START⟩
      sampleStack.children ⟨0, 0, 200, 200⟩).2.2.2.2 (by decide)).1,
    by decide⟩

/-! ## C12: `Stack::layout` -/

theorem stack_layoutLoop_child (cx cy cw ch : Int) :
    ∀ (cs : List Widget) (k : Nat) (c : Widget), cs[k]? = some c →
      (Stack.layoutLoop cx cy cw ch cs).1[k]? =
        some (if c.isVisible then (Widget.layoutIn c (c.base.place cx cy cw ch).1).1 else c)
  | [], _, _, hk => by simp at hk
  | w :: ws, 0, c, hk => by
      simp only [List.getElem?_cons_zero, Option.some.injEq] at hk
      subst hk
      by_cases hv : w.isVisible = true
      · simp [Stack.layoutLoop, hv]
      · simp [Stack.layoutLoop, hv]
  | w :: ws, k + 1, c, hk => by
      simp only [List.getElem?_cons_succ] at hk
      have ih := stack_layoutLoop_child cx cy cw ch ws k c hk
      by_cases hv : w.isVisible = true
      · simp [Stack.layoutLoop, hv, ih]
      · simp [Stack.layoutLoop, hv, ih]

/-- C12. Method `Stack::layout()` places every visible child at the same rect, the content
box of the container `(bounds.x + padding.left, bounds.y + padding.top,
bounds.w - padding.left - padding.right, bounds.h - padding.top - padding.bottom)`
(these four values being assumed to fit an `int16_t`), whatever size is cached for the
child in `_measured`, and leaves an invisible child exactly as it was. -/
theorem stack_layout (b : WidgetBase) (cfg : LayoutData) (cs : List Widget) (k : Nat)
    (c : Widget) (hc : cs[k]? = some c) :
    (c.isVisible = true →
      inInt16 (b.bounds.x + cfg.padding.left) → inInt16 (b.bounds.y + cfg.padding.top) →
      inInt16 (b.bounds.w - cfg.padding.left - cfg.padding.right) →
      inInt16 (b.bounds.h - cfg.padding.top - cfg.padding.bottom) →
      (Widget.composite b .stack cfg cs).placedBounds k =
        some ⟨b.bounds.x + cfg.padding.left, b.bounds.y + cfg.padding.top,
          b.bounds.w - cfg.padding.left - cfg.padding.right,
          b.bounds.h - cfg.padding.top - cfg.padding.bottom⟩) ∧
    (c.isVisible = false →
      (Widget.layout (.composite b .stack cfg cs)).1.children[k]? = some c) := by
  constructor
  · intro hv hx hy hw hh
    simp only [Widget.placedBounds, Widget.layout, Widget.base, Widget.layoutIn,
      Widget.children, stack_layoutLoop_child _ _ _ _ cs k c hc, hv, ↓reduceIte,
      Option.map_some', Widget.layoutIn_bounds, WidgetBase.place_bounds,
      wrap16_of_inInt16 hx, wrap16_of_inInt16 hy, wrap16_of_inInt16 hw, wrap16_of_inInt16 hh]
  · intro hv
    simp only [Widget.layout, Widget.base, Widget.layoutIn, Widget.children,
      stack_layoutLoop_child _ _ _ _ cs k c hc, hv, Bool.false_eq_true, ↓reduceIte]

theorem stack_layout_witness :
    sampleStack.placedBounds 2 = some ⟨11, 22, 296, 193⟩ ∧
    sampleStack.layout.1.children[1]? = some (.leaf ⟨{}, true, false⟩ (.spacer 300 300)) :=
  ⟨(stack_layout mixedBase ⟨4, ⟨1, 2, 3, 5⟩, 0xFFFFFF, fun _ => {}, .START, .START⟩
      sampleStack.children 2 (.leaf {} (.spacer 30 60)) rfl).1 rfl
      (by decide) (by decide) (by decide) (by decide),
    (stack_layout mixedBase ⟨4, ⟨1, 2, 3, 5⟩, 0xFFFFFF, fun _ => {}, .START, .START⟩
      sampleStack.children 1 (.leaf ⟨{}, true, false⟩ (.spacer 300 300)) rfl).2 rfl⟩

/-! ## C13: `Spacer` -/

theorem constrain_eq_clamp (amt low high : Int) (h : low ≤ high) :
    constrain amt low high = max low (min amt high) := by
  unfold constrain
  rcases lt_or_le amt low with h1 | h1
  · rw [if_pos h1, min_eq_left (by omega), max_eq_left (by omega)]
  · rw [if_neg (by omega)]
    rcases lt_or_le high amt with h2 | h2
    · rw [if_pos h2, min_eq_right (by omega), max_eq_right h]
    · rw [if_neg (by omega), min_eq_left h2, max_eq_right h1]

/-- C13. Method `Spacer::measure(c)` returns
`(clamp(fixed_w, c.min_w, c.max_w), clamp(fixed_h, c.min_h, c.max_h))` for the configured
fixed size, where the clamp is `constrain`, which for `min ≤ max` is
`max(min, min(value, max))`; and `Spacer::updateHint()` is always `UpdateHint::NONE`. -/
theorem spacer_measure_hint (b : WidgetBase) (fixed_w fixed_h : Int) (c : Constraints) :
    ((Widget.leaf b (.spacer fixed_w fixed_h)).measure c).1 =
      ⟨constrain fixed_w c.min_w c.max_w, constrain fixed_h c.min_h c.max_h⟩ ∧
    (Widget.leaf b (.spacer fixed_w fixed_h)).updateHint = .NONE ∧
    (c.min_w ≤ c.max_w → c.min_h ≤ c.max_h →
      ((Widget.leaf b (.spacer fixed_w fixed_h)).measure c).1 =
        ⟨max c.min_w (min fixed_w c.max_w), max c.min_h (min fixed_h c.max_h)⟩) := by
  refine ⟨rfl, rfl, fun hw hh => ?_⟩
  simp only [Widget.measure, LeafKind.measure, constrain_eq_clamp _ _ _ hw,
    constrain_eq_clamp _ _ _ hh]

theorem spacer_measure_hint_witness :
    ((Widget.leaf {} (.spacer 300 7)).measure ⟨10, 10, 200, 200⟩).1 =
      ⟨max 10 (min 300 200), max 10 (min 7 200)⟩ :=
  (spacer_measure_hint {} 300 7 ⟨10, 10, 200, 200⟩).2.2 (by decide) (by decide)

/-! ## C16: `Rect::unite` -/

/-- The bounding-box branch of `Rect::unite` when no `int16_t` store overflows. -/
theorem Rect.unite_of_nonempty (a b : Rect) (ha : ¬ (a.w = 0 ∧ a.h = 0))
    (hb : ¬ (b.w = 0 ∧ b.h = 0))
    (h1 : inInt16 (a.x + a.w)) (h2 : inInt16 (b.x + b.w))
    (h3 : inInt16 (a.y + a.h)) (h4 : inInt16 (b.y + b.h))
    (h5 : inInt16 (max (a.x + a.w) (b.x + b.w) - min a.x b.x))
    (h6 : inInt16 (max (a.y + a.h) (b.y + b.h) - min a.y b.y)) :
    a.unite b = ⟨min a.x b.x, min a.y b.y, max (a.x + a.w) (b.x + b.w) - min a.x b.x,
      max (a.y + a.h) (b.y + b.h) - min a.y b.y⟩ := by
  unfold Rect.unite
  rw [if_neg ha, if_neg hb]
  simp only [wrap16_of_inInt16 h1, wrap16_of_inInt16 h2, wrap16_of_inInt16 h3,
    wrap16_of_inInt16 h4, wrap16_of_inInt16 h5, wrap16_of_inInt16 h6]

/-- C16, as amended. Method `Rect::unite`: for rects `a` and `b` neither of which is
zero-sized (`w = 0` and `h = 0`), `a.unite(b)` contains `a` and `b` and is contained in
every rect that contains both, so it is the minimal bounding rectangle (no `int16_t`
overflow assumed: the far edges of `a` and `b` and the size of the bounding rectangle fit);
if `a` has `w = 0` and `h = 0` the result is exactly `b`; if `b` has `w = 0` and `h = 0` and
`a` has not, the result is exactly `a`. -/
theorem unite_bounding (a b : Rect) :
    (¬ (a.w = 0 ∧ a.h = 0) → ¬ (b.w = 0 ∧ b.h = 0) →
      inInt16 (a.x + a.w) → inInt16 (b.x + b.w) → inInt16 (a.y + a.h) → inInt16 (b.y + b.h) →
      inInt16 (max (a.x + a.w) (b.x + b.w) - min a.x b.x) →
      inInt16 (max (a.y + a.h) (b.y + b.h) - min a.y b.y) →
      (a.unite b).encloses a ∧ (a.unite b).encloses b ∧
        ∀ r : Rect, r.encloses a → r.encloses b → r.encloses (a.unite b)) ∧
    (a.w = 0 ∧ a.h = 0 → a.unite b = b) ∧
    (b.w = 0 ∧ b.h = 0 → ¬ (a.w = 0 ∧ a.h = 0) → a.unite b = a) := by
  refine ⟨fun ha hb h1 h2 h3 h4 h5 h6 => ?_, fun ha => ?_, fun hb ha => ?_⟩
  · rw [Rect.unite_of_nonempty a b ha hb h1 h2 h3 h4 h5 h6]
    unfold Rect.encloses
    refine ⟨?_, ?_, ?_⟩
    · simp only; omega
    · simp only; omega
    · intro r hra hrb
      simp only
      omega
  · unfold Rect.unite
    rw [if_pos ha]
  · unfold Rect.unite
    rw [if_neg ha, if_pos hb]

theorem unite_bounding_witness :
    ((Rect.unite ⟨0, 0, 10, 10⟩ ⟨5, 20, 10, 10⟩).encloses ⟨0, 0, 10, 10⟩ ∧
      (Rect.unite ⟨0, 0, 10, 10⟩ ⟨5, 20, 10, 10⟩).encloses ⟨5, 20, 10, 10⟩ ∧
      ∀ r : Rect, r.encloses ⟨0, 0, 10, 10⟩ → r.encloses ⟨5, 20, 10, 10⟩ →
        r.encloses (Rect.unite ⟨0, 0, 10, 10⟩ ⟨5, 20, 10, 10⟩)) ∧
    Rect.unite ⟨3, 4, 0, 0⟩ ⟨5, 20, 10, 10⟩ = ⟨5, 20, 10, 10⟩ ∧
    Rect.unite ⟨5, 20, 10, 10⟩ ⟨3, 4, 0, 0⟩ = ⟨5, 20, 10, 10⟩ :=
  ⟨(unite_bounding ⟨0, 0, 10, 10⟩ ⟨5, 20, 10, 10⟩).1 (by decide) (by decide) (by decide)
      (by decide) (by decide) (by decide) (by decide) (by decide),
    (unite_bounding ⟨3, 4, 0, 0⟩ ⟨5, 20, 10, 10⟩).2.1 (by decide),
    (unite_bounding ⟨5, 20, 10, 10⟩ ⟨3, 4, 0, 0⟩).2.2 (by decide) (by decide)⟩

/-- C16 as stated fails: `b = (0, 0, 0, 0)` has `w = 0` and `h = 0`, yet
`a.unite(b)` for the zero-sized `a = (1, 1, 0, 0)` is `b`, not the other operand `a`. -/
theorem unite_bounding_counterexample :
    ((⟨0, 0, 0, 0⟩ : Rect).w = 0 ∧ (⟨0, 0, 0, 0⟩ : Rect).h = 0) ∧
    Rect.unite ⟨1, 1, 0, 0⟩ ⟨0, 0, 0, 0⟩ ≠ ⟨1, 1, 0, 0⟩ := by
  decide

/-! ## C20: the merge policy of `render` -/

theorem Rect.encloses_refl (a : Rect) : a.encloses a := by
  unfold Rect.encloses; omega

theorem Rect.encloses_trans {a b c : Rect} (h1 : a.encloses b) (h2 : b.encloses c) :
    a.encloses c := by
  unfold Rect.encloses at *; omega

/-- Within range, `unite` stays within range, contains each operand that is not zero-sized,
and is not zero-sized itself as soon as one operand is not. -/
theorem Rect.unite_inRange (a b : Rect) (ha : a.inRange) (hb : b.inRange) :
    (a.unite b).inRange ∧
    (¬ (a.w = 0 ∧ a.h = 0) →
      (a.unite b).encloses a ∧ ¬ ((a.unite b).w = 0 ∧ (a.unite b).h = 0)) ∧
    (¬ (b.w = 0 ∧ b.h = 0) →
      (a.unite b).encloses b ∧ ¬ ((a.unite b).w = 0 ∧ (a.unite b).h = 0)) := by
  by_cases hza : a.w = 0 ∧ a.h = 0
  · have e : a.unite b = b := by unfold Rect.unite; rw [if_pos hza]
    rw [e]
    exact ⟨hb, fun h => absurd hza h, fun h => ⟨Rect.encloses_refl b, h⟩⟩
  · by_cases hzb : b.w = 0 ∧ b.h = 0
    · have e : a.unite b = a := by unfold Rect.unite; rw [if_neg hza, if_pos hzb]
      rw [e]
      exact ⟨ha, fun h => ⟨Rect.encloses_refl a, h⟩, fun h => absurd hzb h⟩
    · unfold Rect.inRange at ha hb
      have e := Rect.unite_of_nonempty a b hza hzb
        (by unfold inInt16; omega) (by unfold inInt16; omega)
        (by unfold inInt16; omega) (by unfold inInt16; omega)
        (by unfold inInt16; omega) (by unfold inInt16; omega)
      rw [e]
      unfold Rect.inRange Rect.encloses
      simp only
      refine ⟨by omega, fun _ => ⟨by omega, by omega⟩, fun _ => ⟨by omega, by omega⟩⟩

theorem foldl_unite_encloses :
    ∀ (rest : List Rect) (acc : Rect), acc.inRange → (∀ r ∈ rest, r.inRange) →
      (rest.foldl Rect.unite acc).inRange ∧
      (¬ (acc.w = 0 ∧ acc.h = 0) → (rest.foldl Rect.unite acc).encloses acc) ∧
      ∀ r ∈ rest, ¬ (r.w = 0 ∧ r.h = 0) → (rest.foldl Rect.unite acc).encloses r
  | [], acc, hacc, _ => by
      simp only [List.foldl_nil, List.not_mem_nil, false_implies, implies_true, and_true]
      exact ⟨hacc, fun _ => Rect.encloses_refl acc⟩
  | b :: rest, acc, hacc, hrest => by
      have hb : b.inRange := hrest b (List.mem_cons_self b rest)
      obtain ⟨hu, hleft, hright⟩ := Rect.unite_inRange acc b hacc hb
      obtain ⟨ih1, ih2, ih3⟩ := foldl_unite_encloses rest (acc.unite b) hu
        (fun r hr => hrest r (List.mem_cons_of_mem b hr))
      simp only [List.foldl_cons]
      refine ⟨ih1, fun hz => ?_, fun r hr hz => ?_⟩
      · exact Rect.encloses_trans (ih2 (hleft hz).2) (hleft hz).1
      · rcases List.mem_cons.mp hr with e | hmem
        · subst e
          exact Rect.encloses_trans (ih2 (hright hz).2) (hright hz).1
        · exact ih3 r hmem hz

theorem take_append_take (n : Nat) (l m : List Rect) :
    ((l.take n) ++ m).take n = (l ++ m).take n := by
  rcases le_total l.length n with h | h
  · rw [List.take_of_length_le h]
  · rw [List.take_append_of_le_length (by rw [List.length_take]; omega),
      List.take_append_of_le_length h, List.take_take, Nat.min_self]

mutual

theorem collectDirtyRects_eq :
    ∀ (n : Widget) (rects : List Rect), rects.length ≤ MAX_DIRTY_RECTS →
      Screen.collectDirtyRects n rects = (rects ++ n.damageLeaves).take MAX_DIRTY_RECTS
  | .leaf b k, rects, h => by
      simp only [Screen.collectDirtyRects, Widget.damageLeaves]
      cases hv : b.visible <;> cases hd : b.dirty <;>
        simp only [Bool.not_true, Bool.not_false, Bool.false_eq_true, ↓reduceIte,
          Bool.and_self, Bool.and_false, Bool.false_and, List.append_nil,
          List.take_of_length_le h]
      by_cases hl : rects.length < MAX_DIRTY_RECTS
      · rw [if_pos hl, List.take_of_length_le (by rw [List.length_append]; simpa using hl)]
      · rw [if_neg hl, List.take_append_of_le_length (by omega),
          List.take_of_length_le h]
  | .composite b kind cfg cs, rects, h => by
      simp only [Screen.collectDirtyRects, Widget.damageLeaves]
      cases hv : b.visible
      · simp [List.take_of_length_le h]
      · simpa using collectDirtyChildren_eq cs rects h

theorem collectDirtyChildren_eq :
    ∀ (cs : List Widget) (rects : List Rect), rects.length ≤ MAX_DIRTY_RECTS →
      Screen.collectDirtyChildren cs rects =
        (rects ++ Widget.damageLeavesOf cs).take MAX_DIRTY_RECTS
  | [], rects, h => by
      simp [Screen.collectDirtyChildren, Widget.damageLeavesOf, List.take_of_length_le h]
  | w :: ws, rects, h => by
      have h1 := collectDirtyRects_eq w rects h
      have hlen : (Screen.collectDirtyRects w rects).length ≤ MAX_DIRTY_RECTS := by
        rw [h1, List.length_take]; omega
      rw [Screen.collectDirtyChildren, collectDirtyChildren_eq ws _ hlen, h1,
        take_append_take, Widget.damageLeavesOf, List.append_assoc]

end

mutual

theorem mem_damageLeaves :
    ∀ (n : Widget) (path : List Nat) (b : WidgetBase) (k : LeafKind),
      n.nodeAt path = some (.leaf b k) → n.visibleAlong path = true → b.dirty = true →
      b.bounds ∈ n.damageLeaves
  | .leaf b0 k0, [], b, k, hn, hv, hd => by
      simp only [Widget.nodeAt, Option.some.injEq, Widget.leaf.injEq] at hn
      obtain ⟨rfl, rfl⟩ := hn
      simp only [Widget.visibleAlong] at hv
      simp [Widget.damageLeaves, hv, hd]
  | .composite _ _ _ _, [], b, k, hn, _, _ => by
      simp [Widget.nodeAt] at hn
  | .leaf _ _, _ :: _, b, k, hn, _, _ => by
      simp [Widget.nodeAt] at hn
  | .composite b0 kind cfg cs, i :: path, b, k, hn, hv, hd => by
      simp only [Widget.nodeAt] at hn
      simp only [Widget.visibleAlong, Bool.and_eq_true] at hv
      simp only [Widget.damageLeaves, hv.1, ↓reduceIte]
      exact mem_damageLeavesOf cs i path b k hn hv.2 hd

theorem mem_damageLeavesOf :
    ∀ (cs : List Widget) (i : Nat) (path : List Nat) (b : WidgetBase) (k : LeafKind),
      Widget.childAt cs i path = some (.leaf b k) → Widget.visibleAlongChild cs i path = true →
      b.dirty = true → b.bounds ∈ Widget.damageLeavesOf cs
  | [], _, _, b, k, hn, _, _ => by
      simp [Widget.childAt] at hn
  | w :: ws, 0, path, b, k, hn, hv, hd => by
      simp only [Widget.childAt] at hn
      simp only [Widget.visibleAlongChild] at hv
      simp only [Widget.damageLeavesOf, List.mem_append]
      exact Or.inl (mem_damageLeaves w path b k hn hv hd)
  | w :: ws, i + 1, path, b, k, hn, hv, hd => by
      simp only [Widget.childAt] at hn
      simp only [Widget.visibleAlongChild] at hv
      simp only [Widget.damageLeavesOf, List.mem_append]
      exact Or.inr (mem_damageLeavesOf ws i path b k hn hv hd)

end

/-- C19, as amended. Damage is not under-reported while the capacity of the dirty-rect
list is respected: for every tree with at most `MAX_DIRTY_RECTS = 8` leaves that are
dirty and visible under visible ancestors (their bounds being of non-negative size and
within `int16_t` range), the bounds of every such leaf are contained in at least one rect
of the final dirty-rect set that the render pass clears, redraws and pushes, provided the
leaf is not zero-sized or at most 4 rects were collected (so that no merge takes place). -/
theorem damage_covered (root : Widget)
    (hcap : root.damageLeaves.length ≤ MAX_DIRTY_RECTS)
    (hrange : ∀ r ∈ root.damageLeaves, r.inRange)
    (path : List Nat) (b : WidgetBase) (k : LeafKind)
    (hn : root.nodeAt path = some (.leaf b k)) (hv : root.visibleAlong path = true)
    (hd : b.dirty = true)
    (hz : ¬ (b.bounds.w = 0 ∧ b.bounds.h = 0) ∨ root.damageLeaves.length ≤ 4) :
    ∃ d ∈ Screen.renderRects root, d.encloses b.bounds := by
  have hmem : b.bounds ∈ root.damageLeaves := mem_damageLeaves root path b k hn hv hd
  have hcol : Screen.collectDirtyRects root [] = root.damageLeaves := by
    rw [collectDirtyRects_eq root [] (by simp), List.nil_append, List.take_of_length_le hcap]
  unfold Screen.renderRects
  rw [hcol]
  by_cases hlen : root.damageLeaves.length > MAX_DIRTY_RECTS / 2
  · have hz2 : ¬ (b.bounds.w = 0 ∧ b.bounds.h = 0) := by
      rcases hz with h | h
      · exact h
      · simp only [MAX_DIRTY_RECTS] at hlen
        omega
    unfold Screen.mergeDirtyRects
    rw [if_pos hlen]
    cases hl : root.damageLeaves with
    | nil => rw [hl] at hmem; simp at hmem
    | cons r0 rest =>
        rw [hl] at hmem hrange
        obtain ⟨-, h2, h3⟩ := foldl_unite_encloses rest r0
          (hrange r0 (List.mem_cons_self r0 rest))
          (fun x hx => hrange x (List.mem_cons_of_mem r0 hx))
        refine ⟨rest.foldl Rect.unite r0, List.mem_singleton.mpr rfl, ?_⟩
        rcases List.mem_cons.mp hmem with e | hm
        · rw [e]
          exact h2 (by rw [← e]; exact hz2)
        · exact h3 _ hm hz2
  · unfold Screen.mergeDirtyRects
    rw [if_neg hlen]
    exact ⟨b.bounds, hmem, Rect.encloses_refl _⟩

theorem damage_covered_witness :
    ∃ d ∈ Screen.renderRects fiveDirty, d.encloses ⟨5, 5, 10, 10⟩ :=
  damage_covered fiveDirty (by decide) (by decide) [3] ⟨⟨5, 5, 10, 10⟩, true, true⟩
    (.spacer 10 10) rfl rfl rfl (Or.inl (by decide))

set_option maxRecDepth 8000 in
/-- C19 as stated fails. With nine dirty, visible leaves under a visible root the ninth
rect (0, 80, 10, 10) is dropped by the capacity test of `collectDirtyRects`, and the final
set is the one merged rect (0, 0, 10, 80), which does not contain it. With five dirty
leaves the last of which is zero-sized at (100, 100), the final set is the one merged rect
(0, 0, 30, 40), which does not contain its bounds. -/
theorem damage_covered_counterexample :
    (nineDirty.nodeAt [8] = some (dirtySpacer ⟨0, 80, 10, 10⟩) ∧
      nineDirty.visibleAlong [8] = true ∧
      Screen.renderRects nineDirty = [⟨0, 0, 10, 80⟩] ∧
      ¬ ∃ d ∈ Screen.renderRects nineDirty, d.encloses ⟨0, 80, 10, 10⟩) ∧
    (fiveDirty.nodeAt [4] = some (dirtySpacer ⟨100, 100, 0, 0⟩) ∧
      fiveDirty.visibleAlong [4] = true ∧
      Screen.renderRects fiveDirty = [⟨0, 0, 30, 40⟩] ∧
      ¬ ∃ d ∈ Screen.renderRects fiveDirty, d.encloses ⟨100, 100, 0, 0⟩) :=
  ⟨⟨rfl, by decide, by decide, by decide⟩, ⟨rfl, by decide, by decide, by decide⟩⟩

/-! ## C14: a `Spacer` and the damage -/

/-- C14, as amended. A `Spacer` contributes damage like any other leaf:
`collectDirtyRects` appends the bounds of a `Spacer` exactly when it is visible and dirty
and fewer than `MAX_DIRTY_RECTS = 8` rects are collected so far, and otherwise leaves the
set as it is; whatever the leaf class, the collected set is the same. -/
theorem spacer_damage (b : WidgetBase) (fixed_w fixed_h : Int) (rects : List Rect) :
    Screen.collectDirtyRects (.leaf b (.spacer fixed_w fixed_h)) rects =
      (if b.visible && b.dirty && decide (rects.length < MAX_DIRTY_RECTS)
        then rects ++ [b.bounds] else rects) ∧
    ∀ k : LeafKind,
      Screen.collectDirtyRects (.leaf b k) rects =
        Screen.collectDirtyRects (.leaf b (.spacer fixed_w fixed_h)) rects := by
  refine ⟨?_, fun k => rfl⟩
  simp only [Screen.collectDirtyRects]
  cases b.visible <;> cases b.dirty <;> simp

/-- C14 as stated fails: under a clean, visible root the only leaf is a dirty, visible
`Spacer` with bounds (0, 0, 100, 20); the dirty-rect set collected by the render pass is
exactly that rect, and it is empty once the `Spacer` is clean. -/
theorem spacer_damage_counterexample :
    (cleanRoot [dirtySpacer ⟨0, 0, 100, 20⟩]).nodeAt [0] =
      some (.leaf ⟨⟨0, 0, 100, 20⟩, true, true⟩ (.spacer 100 20)) ∧
    Screen.collectDirtyRects (cleanRoot [dirtySpacer ⟨0, 0, 100, 20⟩]) [] =
      [⟨0, 0, 100, 20⟩] ∧
    Screen.renderRects (cleanRoot [dirtySpacer ⟨0, 0, 100, 20⟩]) = [⟨0, 0, 100, 20⟩] ∧
    Screen.collectDirtyRects
      (cleanRoot [.leaf ⟨⟨0, 0, 100, 20⟩, false, true⟩ (.spacer 100 20)]) [] = [] :=
  ⟨rfl, by decide, by decide, by decide⟩

/-! ## C15: `Layout::onTouch` -/

theorem onTouchLoop_eq (childTouch : Widget → TouchEvent → Bool) (event : TouchEvent) :
    ∀ l : List (Nat × Widget),
      Layout.onTouchLoop childTouch event l =
        ((((l.filter (fun p => p.2.isVisible && p.2.bounds.contains event.x event.y)).takeWhile
              (fun p => !childTouch p.2 event)).map Prod.fst) ++
            (((l.filter (fun p => p.2.isVisible && p.2.bounds.contains event.x event.y)).find?
              (fun p => childTouch p.2 event)).map Prod.fst).toList,
          (l.filter (fun p => p.2.isVisible && p.2.bounds.contains event.x event.y)).any
            (fun p => childTouch p.2 event))
  | [] => by simp [Layout.onTouchLoop]
  | (i, w) :: rest => by
      have ih := onTouchLoop_eq childTouch event rest
      by_cases hhit : (w.isVisible && w.bounds.contains event.x event.y) = true
      · by_cases hh : childTouch w event = true
        · simp [Layout.onTouchLoop, hhit, hh, List.filter_cons, List.takeWhile_cons]
        · simp [Layout.onTouchLoop, hhit, hh, List.filter_cons, List.takeWhile_cons, ih]
      · simp [Layout.onTouchLoop, hhit, List.filter_cons, ih]

theorem hitChildren_spec (cs : List Widget) (event : TouchEvent) :
    (∀ p ∈ Layout.hitChildren cs event,
      cs[p.1]? = some p.2 ∧ p.2.isVisible = true ∧
        p.2.bounds.contains event.x event.y = true) ∧
    (∀ (i : Nat) (w : Widget), cs[i]? = some w → w.isVisible = true →
      w.bounds.contains event.x event.y = true → (i, w) ∈ Layout.hitChildren cs event) ∧
    ((Layout.hitChildren cs event).map Prod.fst).Pairwise (fun i j => i > j) := by
  refine ⟨fun p hp => ?_, fun i w hi hv hc => ?_, ?_⟩
  · simp only [Layout.hitChildren, List.mem_filter, List.mem_reverse, Bool.and_eq_true] at hp
    exact ⟨List.mem_enum_iff_getElem?.mp hp.1, hp.2.1, hp.2.2⟩
  · simp only [Layout.hitChildren, List.mem_filter, List.mem_reverse, Bool.and_eq_true]
    exact ⟨List.mk_mem_enum_iff_getElem?.mpr hi, hv, hc⟩
  · rw [List.pairwise_map]
    apply List.Pairwise.filter
    rw [List.pairwise_reverse, ← List.pairwise_map (f := Prod.fst) (R := fun a b => b > a),
      List.enum_map_fst]
    exact List.pairwise_lt_range cs.length

/-- C15. Method `Layout::onTouch(event)` offers the event to the children in reverse
insertion order, and only to children that are visible and whose bounds contain
`(event.x, event.y)`: the calls go to these children from the topmost down, up to and
including the first one that returns handled, and to no earlier-inserted sibling after
it; it returns true exactly when one of them handles the event, and false otherwise. In
particular for siblings `A` (added first) and `B` (added second) that are visible and
both contain the point, `B` receives the event before `A`, and `A` never receives it if
`B` returns handled. -/
theorem onTouch_dispatch (childTouch : Widget → TouchEvent → Bool) (cs : List Widget)
    (event : TouchEvent) :
    (Layout.onTouch childTouch cs event).1 =
      ((Layout.hitChildren cs event).takeWhile (fun p => !childTouch p.2 event)).map Prod.fst ++
        (((Layout.hitChildren cs event).find? (fun p => childTouch p.2 event)).map
          Prod.fst).toList ∧
    (Layout.onTouch childTouch cs event).2 =
      (Layout.hitChildren cs event).any (fun p => childTouch p.2 event) ∧
    (∀ p ∈ Layout.hitChildren cs event,
      cs[p.1]? = some p.2 ∧ p.2.isVisible = true ∧
        p.2.bounds.contains event.x event.y = true) ∧
    (∀ (i : Nat) (w : Widget), cs[i]? = some w → w.isVisible = true →
      w.bounds.contains event.x event.y = true → (i, w) ∈ Layout.hitChildren cs event) ∧
    ((Layout.hitChildren cs event).map Prod.fst).Pairwise (fun i j => i > j) ∧
    (∀ A B : Widget, A.isVisible = true → A.bounds.contains event.x event.y = true →
      B.isVisible = true → B.bounds.contains event.x event.y = true →
      Layout.onTouch childTouch [A, B] event =
        if childTouch B event then ([1], true) else ([1, 0], childTouch A event)) := by
  have h := onTouchLoop_eq childTouch event cs.enum.reverse
  obtain ⟨s1, s2, s3⟩ := hitChildren_spec cs event
  refine ⟨?_, ?_, s1, s2, s3, ?_⟩
  · unfold Layout.onTouch Layout.hitChildren
    rw [h]
  · unfold Layout.onTouch Layout.hitChildren
    rw [h]
  · intro A B hA1 hA2 hB1 hB2
    cases hB : childTouch B event <;> cases hA : childTouch A event <;>
      simp [Layout.onTouch, Layout.onTouchLoop, List.enum, List.enumFrom, hA1, hA2, hB1, hB2,
        hA, hB]

theorem onTouch_dispatch_witness :
    Layout.onTouch (fun w _ => decide (w.bounds.w = 30)) [dirtySpacer ⟨0, 0, 10, 10⟩,
        dirtySpacer ⟨0, 0, 30, 10⟩] ⟨5, 5, .DOWN⟩ = ([1], true) ∧
    Layout.onTouch (fun _ _ => false) [dirtySpacer ⟨0, 0, 10, 10⟩,
        dirtySpacer ⟨0, 0, 30, 10⟩] ⟨5, 5, .DOWN⟩ = ([1, 0], false) :=
  ⟨(onTouch_dispatch (fun w _ => decide (w.bounds.w = 30))
      [dirtySpacer ⟨0, 0, 10, 10⟩, dirtySpacer ⟨0, 0, 30, 10⟩] ⟨5, 5, .DOWN⟩).2.2.2.2.2
      (dirtySpacer ⟨0, 0, 10, 10⟩) (dirtySpacer ⟨0, 0, 30, 10⟩) rfl (by decide) rfl
      (by decide),
    (onTouch_dispatch (fun _ _ => false)
      [dirtySpacer ⟨0, 0, 10, 10⟩, dirtySpacer ⟨0, 0, 30, 10⟩] ⟨5, 5, .DOWN⟩).2.2.2.2.2
      (dirtySpacer ⟨0, 0, 10, 10⟩) (dirtySpacer ⟨0, 0, 30, 10⟩) rfl (by decide) rfl
      (by decide)⟩

/-! ## C17: `Layout::add` -/

theorem Layout.add_length_le (self : Nat) (s : AddState) (child : Nat)
    (h : s.children.length ≤ MAX_CHILDREN) :
    (Layout.add self s child).children.length ≤ MAX_CHILDREN := by
  unfold Layout.add
  by_cases hl : s.children.length < MAX_CHILDREN
  · rw [if_pos hl]
    simp only [List.length_append, List.length_singleton]
    omega
  · rw [if_neg hl]
    exact h

theorem Layout.foldl_add_length_le (self : Nat) :
    ∀ (adds : List Nat) (s : AddState), s.children.length ≤ MAX_CHILDREN →
      (adds.foldl (Layout.add self) s).children.length ≤ MAX_CHILDREN
  | [], _, h => h
  | c :: adds, s, h => by
      simp only [List.foldl_cons]
      exact Layout.foldl_add_length_le self adds _ (Layout.add_length_le self s c h)

/-- C17. Method `Layout::add(child)`: when the layout has fewer than `MAX_CHILDREN` (16)
children, the child is appended at the end of the child sequence, `childCount` increases
by one, the earlier children keep their order, the parent of the child becomes this
layout and no other parent link changes; when the layout already has 16 children, `add`
changes nothing: the child sequence, the count and the parent link of the child are
unchanged. Hence `childCount ≤ 16` after any sequence of adds to a layout that starts
empty. -/
theorem add_contract (self : Nat) (s : AddState) (child : Nat) :
    (s.children.length < 16 →
      (Layout.add self s child).children = s.children ++ [child] ∧
      (Layout.add self s child).children.length = s.children.length + 1 ∧
      (Layout.add self s child).parent child = some self ∧
      ∀ other : Nat, other ≠ child → (Layout.add self s child).parent other = s.parent other) ∧
    (s.children.length = 16 →
      (Layout.add self s child).children = s.children ∧
      (Layout.add self s child).parent = s.parent) ∧
    (∀ (adds : List Nat) (parent : Nat → Option Nat),
      (adds.foldl (Layout.add self) ⟨[], parent⟩).children.length ≤ 16) := by
  refine ⟨fun h => ?_, fun h => ?_, fun adds parent => ?_⟩
  · have e : Layout.add self s child =
        ⟨s.children ++ [child], Function.update s.parent child (some self)⟩ := by
      unfold Layout.add
      rw [if_pos (by simpa [MAX_CHILDREN] using h)]
    rw [e]
    refine ⟨rfl, by simp, by simp, fun other ho => ?_⟩
    simp [Function.update_noteq ho]
  · have e : Layout.add self s child = s := by
      unfold Layout.add
      rw [if_neg (by simp [MAX_CHILDREN, h])]
    rw [e]
    exact ⟨rfl, rfl⟩
  · exact Layout.foldl_add_length_le self adds ⟨[], parent⟩ (by simp)

theorem add_contract_witness :
    (Layout.add 100 ⟨[1, 2], fun _ => none⟩ 3).children = [1, 2, 3] ∧
    (Layout.add 100 ⟨[1, 2], fun _ => none⟩ 3).parent 3 = some 100 ∧
    (Layout.add 100 ⟨List.range 16, fun _ => none⟩ 77).children = List.range 16 ∧
    (Layout.add 100 ⟨List.range 16, fun _ => none⟩ 77).parent 77 = none :=
  ⟨((add_contract 100 ⟨[1, 2], fun _ => none⟩ 3).1 (by decide)).1,
    ((add_contract 100 ⟨[1, 2], fun _ => none⟩ 3).1 (by decide)).2.2.1,
    ((add_contract 100 ⟨List.range 16, fun _ => none⟩ 77).2.1 (by decide)).1,
    congrFun ((add_contract 100 ⟨List.range 16, fun _ => none⟩ 77).2.1 (by decide)).2 77⟩

/-! ## C18: `markDirty` propagates along the parent chain -/

mutual

theorem applyAt_markDirty_snd :
    ∀ (root : Widget) (p : List Nat) (n : Widget), root.nodeAt p = some n →
      (Widget.applyAt Widget.markDirty root p).2 = true
  | .leaf _ _, [], _, _ => by simp [Widget.applyAt, Widget.markDirty]
  | .composite _ _ _ _, [], _, _ => by simp [Widget.applyAt, Widget.markDirty]
  | .leaf _ _, _ :: _, _, hn => by simp [Widget.nodeAt] at hn
  | .composite _ _ _ cs, i :: p, n, hn => by
      simp only [Widget.nodeAt] at hn
      simp only [Widget.applyAt]
      exact applyAtChild_markDirty_snd cs i p n hn

theorem applyAtChild_markDirty_snd :
    ∀ (cs : List Widget) (i : Nat) (p : List Nat) (n : Widget),
      Widget.childAt cs i p = some n →
      (Widget.applyAtChild Widget.markDirty cs i p).2 = true
  | [], _, _, _, hn => by simp [Widget.childAt] at hn
  | w :: _, 0, p, n, hn => by
      simp only [Widget.childAt] at hn
      simp only [Widget.applyAtChild]
      exact applyAt_markDirty_snd w p n hn
  | _ :: ws, i + 1, p, n, hn => by
      simp only [Widget.childAt] at hn
      simp only [Widget.applyAtChild]
      exact applyAtChild_markDirty_snd ws i p n hn

end

mutual

theorem markDirtyAt_nodes :
    ∀ (root : Widget) (p q : List Nat) (n m : Widget),
      root.nodeAt p = some n → root.nodeAt q = some m →
      (onParentChain q p = false →
        (Widget.applyAt Widget.markDirty root p).1.nodeAt q = some m) ∧
      (onParentChain q p = true →
        ∃ m2, (Widget.applyAt Widget.markDirty root p).1.nodeAt q = some m2 ∧
          m2.isDirty = true ∧ m2.bounds = m.bounds ∧ m2.isVisible = m.isVisible ∧
          m2.isLayout = m.isLayout)
  | .leaf b k, [], [], n, m, _, hm => by
      simp only [Widget.nodeAt, Option.some.injEq] at hm
      subst hm
      simp [onParentChain, Widget.applyAt, Widget.markDirty, Widget.setBase, Widget.nodeAt,
        Widget.isDirty, Widget.base, WidgetBase.markDirty, Widget.bounds, Widget.isVisible,
        Widget.isLayout]
  | .leaf _ _, [], _ :: _, _, _, _, hm => by simp [Widget.nodeAt] at hm
  | .leaf _ _, _ :: _, _, _, _, hn, _ => by simp [Widget.nodeAt] at hn
  | .composite b kind cfg cs, [], [], n, m, _, hm => by
      simp only [Widget.nodeAt, Option.some.injEq] at hm
      subst hm
      simp [onParentChain, Widget.applyAt, Widget.markDirty, Widget.setBase, Widget.nodeAt,
        Widget.isDirty, Widget.base, WidgetBase.markDirty, Widget.bounds, Widget.isVisible,
        Widget.isLayout]
  | .composite b kind cfg cs, [], j :: q, n, m, _, hm => by
      simp only [Widget.nodeAt] at hm
      simp [onParentChain, Widget.applyAt, Widget.markDirty, Widget.setBase, Widget.nodeAt,
        hm]
  | .composite b kind cfg cs, i :: p, [], n, m, hn, hm => by
      simp only [Widget.nodeAt] at hn
      simp only [Widget.nodeAt, Option.some.injEq] at hm
      subst hm
      have hs := applyAtChild_markDirty_snd cs i p n hn
      simp [onParentChain, Widget.applyAt, Widget.nodeAt, hs, Widget.isDirty, Widget.base,
        WidgetBase.markDirty, Widget.bounds, Widget.isVisible, Widget.isLayout]
  | .composite b kind cfg cs, i :: p, j :: q, n, m, hn, hm => by
      simp only [Widget.nodeAt] at hn hm
      have h := markDirtyAt_children cs i j p q n m hn hm
      simpa only [onParentChain, Widget.applyAt, Widget.nodeAt] using h

theorem markDirtyAt_children :
    ∀ (cs : List Widget) (i j : Nat) (p q : List Nat) (n m : Widget),
      Widget.childAt cs i p = some n → Widget.childAt cs j q = some m →
      ((decide (j = i) && onParentChain q p) = false →
        Widget.childAt (Widget.applyAtChild Widget.markDirty cs i p).1 j q = some m) ∧
      ((decide (j = i) && onParentChain q p) = true →
        ∃ m2, Widget.childAt (Widget.applyAtChild Widget.markDirty cs i p).1 j q = some m2 ∧
          m2.isDirty = true ∧ m2.bounds = m.bounds ∧ m2.isVisible = m.isVisible ∧
          m2.isLayout = m.isLayout)
  | [], _, _, _, _, _, _, hn, _ => by simp [Widget.childAt] at hn
  | w :: ws, 0, 0, p, q, n, m, hn, hm => by
      simp only [Widget.childAt] at hn hm
      have h := markDirtyAt_nodes w p q n m hn hm
      simpa only [Widget.applyAtChild, Widget.childAt, decide_True, Bool.true_and] using h
  | w :: ws, 0, j + 1, p, q, n, m, hn, hm => by
      simp only [Widget.childAt] at hm
      simp [Widget.applyAtChild, Widget.childAt, hm]
  | w :: ws, i + 1, 0, p, q, n, m, hn, hm => by
      simp only [Widget.childAt] at hm
      simp [Widget.applyAtChild, Widget.childAt, hm]
  | w :: ws, i + 1, j + 1, p, q, n, m, hn, hm => by
      simp only [Widget.childAt] at hn hm
      have h := markDirtyAt_children ws i j p q n m hn hm
      simpa only [Widget.applyAtChild, Widget.childAt, Nat.add_right_cancel_iff] using h

end

/-- C18. After `markDirty()` on the node at any position `p` of a tree, that node and
every ancestor reachable through the parent links, up to the root, is dirty (its bounds
and visibility being as before), and every node that is neither the node itself nor one
of its ancestors is unchanged, in particular its dirty flag. -/
theorem markDirty_propagation (root : Widget) (p : List Nat) (n : Widget)
    (hn : root.nodeAt p = some n) (q : List Nat) (m : Widget) (hm : root.nodeAt q = some m) :
    (onParentChain q p = true →
      ∃ m2, (root.markDirtyAt p).1.nodeAt q = some m2 ∧ m2.isDirty = true ∧
        m2.bounds = m.bounds ∧ m2.isVisible = m.isVisible ∧ m2.isLayout = m.isLayout) ∧
    (onParentChain q p = false → (root.markDirtyAt p).1.nodeAt q = some m) := by
  have h := markDirtyAt_nodes root p q n m hn hm
  exact ⟨h.2, h.1⟩

theorem markDirty_propagation_witness :
    (∃ m2, (nestedClean.markDirtyAt [0, 1]).1.nodeAt [0] = some m2 ∧ m2.isDirty = true ∧
      m2.bounds = ⟨0, 0, 540, 960⟩ ∧ m2.isVisible = true ∧ m2.isLayout = true) ∧
    (nestedClean.markDirtyAt [0, 1]).1.nodeAt [0, 0] = some (cleanSpacer ⟨0, 0, 10, 10⟩) ∧
    (nestedClean.markDirtyAt [0, 1]).1.nodeAt [1] = some (cleanSpacer ⟨0, 28, 10, 10⟩) :=
  ⟨(markDirty_propagation nestedClean [0, 1] (cleanSpacer ⟨0, 14, 10, 10⟩) rfl [0]
      (cleanRoot [cleanSpacer ⟨0, 0, 10, 10⟩, cleanSpacer ⟨0, 14, 10, 10⟩]) rfl).1 rfl,
    (markDirty_propagation nestedClean [0, 1] (cleanSpacer ⟨0, 14, 10, 10⟩) rfl [0, 0]
      (cleanSpacer ⟨0, 0, 10, 10⟩) rfl).2 rfl,
    (markDirty_propagation nestedClean [0, 1] (cleanSpacer ⟨0, 14, 10, 10⟩) rfl [1]
      (cleanSpacer ⟨0, 28, 10, 10⟩) rfl).2 rfl⟩

/-! ## C21: the refresh mode of a pushed rect -/

mutual

theorem worstHintInRegion_clearAllDirty :
    ∀ (w : Widget) (region : Rect),
      Screen.worstHintInRegion (Screen.clearAllDirty w) region = .NONE
  | .leaf b k, region => by
      simp [Screen.clearAllDirty, Screen.worstHintInRegion]
  | .composite b kind cfg cs, region => by
      simp only [Screen.clearAllDirty, Screen.worstHintInRegion]
      split
      · rfl
      · simpa using worstHintChildren_clearAllDirty cs region

theorem worstHintChildren_clearAllDirty :
    ∀ (cs : List Widget) (region : Rect),
      Screen.worstHintChildren (Screen.clearAllDirtyChildren cs) region .NONE = .NONE
  | [], _ => rfl
  | w :: ws, region => by
      simp only [Screen.clearAllDirtyChildren, Screen.worstHintChildren,
        worstHintInRegion_clearAllDirty w region, UpdateHint.toNat, gt_iff_lt, lt_self_iff_false,
        ↓reduceIte]
      exact worstHintChildren_clearAllDirty ws region

end

/-- C21 (the code as written). `Screen::render` calls `clearAllDirty(_root)` before it
pushes the dirty rects, so `worstHintInRegion` finds no dirty node and every dirty rect is
pushed with `epd_fast`, whatever the hints of the widgets that were dirty when the pass
began. For a root holding one dirty visible `Switch` (hint QUALITY) at (10, 10, 60, 30)
the pass pushes that rect with `epd_fast`, although the hint found in that rect on the
tree as it was when the pass began is QUALITY, whose mode is `epd_quality`. -/
theorem push_mode_is_fast :
    (∀ (root : Widget) (rects : List Rect),
      Screen.pushCalls (Screen.clearAllDirty root) rects =
        rects.flatMap (fun r => [GfxCall.setEpdMode .epd_fast, GfxCall.displayRect r])) ∧
    (Screen.render (screenOf qualityRoot)).map Prod.snd =
      some [GfxCall.fillRect ⟨10, 10, 60, 30⟩ WHITE,
        GfxCall.drawLeaf ⟨10, 10, 60, 30⟩ (.switch 60 30),
        GfxCall.setEpdMode .epd_fast, GfxCall.displayRect ⟨10, 10, 60, 30⟩] ∧
    Screen.worstHintInRegion qualityRoot ⟨10, 10, 60, 30⟩ = .QUALITY ∧
    Screen.selectEpdMode (some qualityRoot) ⟨10, 10, 60, 30⟩ = .epd_quality := by
  refine ⟨fun root rects => ?_, by decide, by decide, by decide⟩
  induction rects with
  | nil => rfl
  | cons r rs ih =>
      simp only [Screen.pushCalls, Screen.pushDirtyRect, Screen.selectEpdMode,
        worstHintInRegion_clearAllDirty, ih, List.flatMap_cons, List.cons_append,
        List.nil_append]

/-! ## C23: no node is dirty after a pass -/

mutual

theorem clearAllDirty_nodeAt :
    ∀ (w : Widget) (path : List Nat) (n : Widget),
      (Screen.clearAllDirty w).nodeAt path = some n → n.isDirty = false
  | .leaf b k, [], n, h => by
      simp only [Screen.clearAllDirty, Widget.nodeAt, Option.some.injEq] at h
      subst h
      rfl
  | .composite b kind cfg cs, [], n, h => by
      simp only [Screen.clearAllDirty, Widget.nodeAt, Option.some.injEq] at h
      subst h
      rfl
  | .leaf b k, _ :: _, n, h => by
      simp [Screen.clearAllDirty, Widget.nodeAt] at h
  | .composite b kind cfg cs, i :: path, n, h => by
      simp only [Screen.clearAllDirty, Widget.nodeAt] at h
      exact clearAllDirtyChildren_childAt cs i path n h

theorem clearAllDirtyChildren_childAt :
    ∀ (cs : List Widget) (i : Nat) (path : List Nat) (n : Widget),
      Widget.childAt (Screen.clearAllDirtyChildren cs) i path = some n → n.isDirty = false
  | [], _, _, n, h => by
      simp [Screen.clearAllDirtyChildren, Widget.childAt] at h
  | w :: ws, 0, path, n, h => by
      simp only [Screen.clearAllDirtyChildren, Widget.childAt] at h
      exact clearAllDirty_nodeAt w path n h
  | w :: ws, i + 1, path, n, h => by
      simp only [Screen.clearAllDirtyChildren, Widget.childAt] at h
      exact clearAllDirtyChildren_childAt ws i path n h

end

theorem clearAllDirty_bounds (w : Widget) : (Screen.clearAllDirty w).bounds = w.bounds := by
  cases w <;> rfl

/-- C23. On a `Screen` with a root and a surface bound: after `performLayout()` the
bounds of the root are (0, 0, 540, 960) and no node of the tree is dirty; and a render
pass that collected at least one dirty rect completes and leaves no node of the tree
dirty. -/
theorem no_dirty_after_pass (s : Screen) (root : Widget) (hroot : s.root = some root)
    (hgfx : s.gfx = true) :
    (∃ root', s.performLayout.1.root = some root' ∧ root'.bounds = ⟨0, 0, 540, 960⟩ ∧
      ∀ path n, root'.nodeAt path = some n → n.isDirty = false) ∧
    (Screen.collectDirtyRects root [] ≠ [] →
      ∃ out root', s.render = some out ∧ out.1.root = some root' ∧
        ∀ path n, root'.nodeAt path = some n → n.isDirty = false) := by
  constructor
  · simp only [Screen.performLayout, hroot, hgfx]
    refine ⟨_, rfl, ?_, fun path n h => clearAllDirty_nodeAt _ path n h⟩
    rw [clearAllDirty_bounds]
    unfold Widget.layout
    rw [Widget.layoutIn_bounds]
    simp only [Widget.place, Widget.base_setBase, WidgetBase.place_bounds, SCREEN_W, SCREEN_H]
  · intro hne
    have hlen : (Screen.collectDirtyRects root []).length ≠ 0 := by
      intro h0
      exact hne (List.length_eq_zero.mp h0)
    simp only [Screen.render, hroot, hlen, hgfx, ↓reduceIte, Bool.not_true,
      Bool.false_eq_true]
    split
    · refine ⟨_, Screen.clearAllDirty root, rfl, ?_,
        fun path n h => clearAllDirty_nodeAt _ path n h⟩
      simp only [Screen.fullRefresh, hgfx]
    · exact ⟨_, Screen.clearAllDirty root, rfl, rfl,
        fun path n h => clearAllDirty_nodeAt _ path n h⟩

theorem no_dirty_after_pass_witness :
    (∃ root', (screenOf qualityRoot).performLayout.1.root = some root' ∧
      root'.bounds = ⟨0, 0, 540, 960⟩ ∧
      ∀ path n, root'.nodeAt path = some n → n.isDirty = false) ∧
    (∃ out root', (screenOf qualityRoot).render = some out ∧ out.1.root = some root' ∧
      ∀ path n, root'.nodeAt path = some n → n.isDirty = false) :=
  ⟨(no_dirty_after_pass (screenOf qualityRoot) qualityRoot rfl rfl).1,
    (no_dirty_after_pass (screenOf qualityRoot) qualityRoot rfl rfl).2 (by decide)⟩

/-! ## C22: the full-refresh cadence -/

mutual

theorem redrawRegion_no_display :
    ∀ (w : Widget) (region : Rect), GfxCall.display ∉ Screen.redrawRegion w region
  | .leaf b k, region => by
      simp only [Screen.redrawRegion]
      split
      · simp
      · split <;> simp
  | .composite b kind cfg cs, region => by
      simp only [Screen.redrawRegion]
      split
      · simp
      · split
        · simp
        · have h := redrawChildren_no_display cs region
          split <;> simp [h]

theorem redrawChildren_no_display :
    ∀ (cs : List Widget) (region : Rect), GfxCall.display ∉ Screen.redrawChildren cs region
  | [], _ => by simp [Screen.redrawChildren]
  | w :: ws, region => by
      simp [Screen.redrawChildren, redrawRegion_no_display w region,
        redrawChildren_no_display ws region]

end

theorem redrawCalls_no_display (root : Widget) (rects : List Rect) :
    GfxCall.display ∉ Screen.redrawCalls root rects := by
  induction rects with
  | nil => simp [Screen.redrawCalls]
  | cons r rs ih => simp [Screen.redrawCalls, redrawRegion_no_display root r, ih]

theorem pushCalls_no_display (root : Widget) (rects : List Rect) :
    GfxCall.display ∉ Screen.pushCalls root rects := by
  induction rects with
  | nil => simp [Screen.pushCalls]
  | cons r rs ih => simp [Screen.pushCalls, Screen.pushDirtyRect, ih]

/-- One render pass on a `Screen` with a surface: what it does to the counter and whether
it performs a full refresh. -/
theorem render_step (s : Screen) (root : Widget) (hroot : s.root = some root)
    (hgfx : s.gfx = true) :
    ∃ out, s.render = some out ∧ out.1.gfx = true ∧
      out.1.full_refresh_interval = s.full_refresh_interval ∧
      (dirtyPass root = false →
        out.1.partial_count = s.partial_count ∧ GfxCall.display ∉ out.2) ∧
      (dirtyPass root = true →
        (0 < s.full_refresh_interval ∧
            s.full_refresh_interval ≤ (s.partial_count + 1) % 65536 →
          out.1.partial_count = 0 ∧ GfxCall.display ∈ out.2) ∧
        (¬ (0 < s.full_refresh_interval ∧
            s.full_refresh_interval ≤ (s.partial_count + 1) % 65536) →
          out.1.partial_count = (s.partial_count + 1) % 65536 ∧
            GfxCall.display ∉ out.2)) := by
  by_cases hd : Screen.collectDirtyRects root [] = []
  · refine ⟨(s, []), ?_, hgfx, rfl, fun _ => ⟨rfl, by simp⟩, fun h => ?_⟩
    · simp [Screen.render, hroot, hd]
    · simp [dirtyPass, hd] at h
  · have hlen : (Screen.collectDirtyRects root []).length ≠ 0 := by
      intro h0
      exact hd (List.length_eq_zero.mp h0)
    have hnd : GfxCall.display ∉
        Screen.redrawCalls root (Screen.mergeDirtyRects (Screen.collectDirtyRects root [])) ++
          Screen.pushCalls (Screen.clearAllDirty root)
            (Screen.mergeDirtyRects (Screen.collectDirtyRects root [])) := by
      simp [redrawCalls_no_display, pushCalls_no_display]
    by_cases hc : 0 < s.full_refresh_interval ∧
        s.full_refresh_interval ≤ (s.partial_count + 1) % 65536
    · have hr : s.render = s.render := rfl
      conv at hr =>
        rhs
        simp only [Screen.render, hroot, hlen, hgfx, ↓reduceIte, Bool.not_true,
          Bool.false_eq_true, gt_iff_lt, ge_iff_le, hc, and_self]
      refine ⟨_, hr, ?_, ?_, fun h => ?_, fun _ => ⟨fun _ => ⟨?_, ?_⟩, fun h => absurd hc h⟩⟩
      · simp [Screen.fullRefresh, hgfx]
      · simp [Screen.fullRefresh, hgfx]
      · simp [dirtyPass, hd] at h
      · simp [Screen.fullRefresh, hgfx]
      · simp [Screen.fullRefresh, hgfx]
    · have hr : s.render = s.render := rfl
      conv at hr =>
        rhs
        simp only [Screen.render, hroot, hlen, hgfx, ↓reduceIte, Bool.not_true,
          Bool.false_eq_true, gt_iff_lt, ge_iff_le, hc]
      refine ⟨_, hr, rfl, rfl, fun h => ?_,
        fun _ => ⟨fun h => absurd h hc, fun _ => ⟨rfl, hnd⟩⟩⟩
      simp [dirtyPass, hd] at h

theorem dirtyPasses_cons (t : Widget) (ts : List Widget) (k : Nat) :
    dirtyPasses (t :: ts) (k + 1) = (if dirtyPass t then 1 else 0) + dirtyPasses ts k := by
  unfold dirtyPasses
  simp only [List.take_succ_cons, List.filter_cons]
  split <;> simp [Nat.add_comm]

/-- The counter and the refresh flag after one pass, in closed form, when the counter is
below a positive interval. -/
theorem render_step_mod (s : Screen) (t : Widget) (hg : s.gfx = true)
    (hn : 0 < s.full_refresh_interval) (hn16 : s.full_refresh_interval < 65536)
    (hc : s.partial_count < s.full_refresh_interval) :
    ∃ out, Screen.render { s with root := some t } = some out ∧ out.1.gfx = true ∧
      out.1.full_refresh_interval = s.full_refresh_interval ∧
      out.1.partial_count =
        (s.partial_count + (if dirtyPass t then 1 else 0)) % s.full_refresh_interval ∧
      decide (GfxCall.display ∈ out.2) =
        (dirtyPass t && decide ((s.partial_count + (if dirtyPass t then 1 else 0)) %
          s.full_refresh_interval = 0)) := by
  obtain ⟨out, hr, hg', hi', hclean, hdirty⟩ :=
    render_step { s with root := some t } t rfl hg
  refine ⟨out, hr, hg', hi', ?_⟩
  cases hd : dirtyPass t with
  | false =>
      obtain ⟨h1, h2⟩ := hclean hd
      simp only [Bool.false_eq_true, ↓reduceIte, Nat.add_zero, Bool.false_and,
        decide_eq_false_iff_not]
      exact ⟨by rw [h1]; exact (Nat.mod_eq_of_lt hc).symm, h2⟩
  | true =>
      obtain ⟨h1, h2⟩ := hdirty hd
      have hw : (s.partial_count + 1) % 65536 = s.partial_count + 1 :=
        Nat.mod_eq_of_lt (by omega)
      simp only [hw] at h1 h2
      simp only [↓reduceIte, Bool.true_and]
      by_cases he : s.partial_count + 1 = s.full_refresh_interval
      · obtain ⟨h3, h4⟩ := h1 ⟨hn, by show s.full_refresh_interval ≤ _; omega⟩
        rw [h3, he, Nat.mod_self]
        simp [h4]
      · obtain ⟨h3, h4⟩ := h2 (by
          show ¬ (0 < s.full_refresh_interval ∧ s.full_refresh_interval ≤ _); omega)
        have hlt : s.partial_count + 1 < s.full_refresh_interval := by omega
        rw [h3, Nat.mod_eq_of_lt hlt]
        simp [h4]

theorem renderRun_cadence (n : Nat) (hn : 0 < n) (hn16 : n < 65536) :
    ∀ (trees : List Widget) (s : Screen), s.gfx = true → s.full_refresh_interval = n →
      s.partial_count < n →
      ∃ l, s.renderRun trees = some l ∧ l.length = trees.length ∧
        ∀ k t, trees[k]? = some t →
          l[k]? = some
            (dirtyPass t && decide ((s.partial_count + dirtyPasses trees (k + 1)) % n = 0),
              (s.partial_count + dirtyPasses trees (k + 1)) % n)
  | [], s, _, _, _ => ⟨[], rfl, rfl, by simp⟩
  | t :: ts, s, hg, hi, hc => by
      subst hi
      obtain ⟨out, hr, hg', hi', hp, hf⟩ := render_step_mod s t hg hn hn16 hc
      obtain ⟨l, hl, hlen, hk⟩ := renderRun_cadence s.full_refresh_interval hn hn16 ts out.1
        hg' hi' (by rw [hp]; exact Nat.mod_lt _ hn)
      refine ⟨(decide (GfxCall.display ∈ out.2), out.1.partial_count) :: l, ?_, ?_, ?_⟩
      · simp only [Screen.renderRun, hr, hl]
      · simp [hlen]
      · intro k t' hk'
        cases k with
        | zero =>
            simp only [List.getElem?_cons_zero, Option.some.injEq] at hk'
            subst hk'
            simp only [List.getElem?_cons_zero, hf, hp, dirtyPasses_cons, Nat.zero_add]
            simp [dirtyPasses]
        | succ k =>
            simp only [List.getElem?_cons_succ] at hk'
            simp only [List.getElem?_cons_succ, hk k t' hk', hp, dirtyPasses_cons,
              Nat.mod_add_mod, Nat.add_assoc]

theorem renderRun_disabled :
    ∀ (trees : List Widget) (s : Screen), s.gfx = true → s.full_refresh_interval = 0 →
      ∃ l, s.renderRun trees = some l ∧ l.length = trees.length ∧ ∀ p ∈ l, p.1 = false
  | [], s, _, _ => ⟨[], rfl, rfl, by simp⟩
  | t :: ts, s, hg, hi => by
      obtain ⟨out, hr, hg', hi', hclean, hdirty⟩ :=
        render_step { s with root := some t } t rfl hg
      obtain ⟨l, hl, hlen, hall⟩ := renderRun_disabled ts out.1 hg' (hi'.trans hi)
      have hf : GfxCall.display ∉ out.2 := by
        cases hd : dirtyPass t with
        | false => exact (hclean hd).2
        | true =>
            refine ((hdirty hd).2 ?_).2
            show ¬ (0 < s.full_refresh_interval ∧ _)
            omega
      refine ⟨(decide (GfxCall.display ∈ out.2), out.1.partial_count) :: l, ?_, ?_, ?_⟩
      · simp only [Screen.renderRun, hr, hl]
      · simp [hlen]
      · intro p hp
        rcases List.mem_cons.mp hp with e | hm
        · subst e
          simpa using hf
        · exact hall p hm

/-- C22. Full-refresh cadence on a `Screen` with a surface, starting with the counter
`_partial_count` at 0, over any sequence of render passes (none fails). With an interval
`n > 0`: a pass performs a full refresh exactly when it collected at least one dirty rect
and the number of such passes up to and including it is a multiple of `n`, and the counter
after each pass is that number modulo `n` (so it is 0 right after a full refresh, and a
pass that collects no dirty rect leaves it unchanged). With interval 0 no pass performs a
full refresh. -/
theorem full_refresh_cadence (s : Screen) (trees : List Widget) (hg : s.gfx = true)
    (h0 : s.partial_count = 0) (h16 : s.full_refresh_interval < 65536) :
    ∃ l, s.renderRun trees = some l ∧ l.length = trees.length ∧
      (0 < s.full_refresh_interval →
        ∀ k t, trees[k]? = some t →
          l[k]? = some
            (dirtyPass t && decide (dirtyPasses trees (k + 1) % s.full_refresh_interval = 0),
              dirtyPasses trees (k + 1) % s.full_refresh_interval)) ∧
      (s.full_refresh_interval = 0 → ∀ p ∈ l, p.1 = false) := by
  rcases Nat.eq_zero_or_pos s.full_refresh_interval with hz | hpos
  · obtain ⟨l, hl, hlen, hall⟩ := renderRun_disabled trees s hg hz
    exact ⟨l, hl, hlen, fun h => absurd hz (by omega), fun _ => hall⟩
  · obtain ⟨l, hl, hlen, hk⟩ :=
      renderRun_cadence s.full_refresh_interval hpos h16 trees s hg rfl (by omega)
    refine ⟨l, hl, hlen, fun _ k t ht => ?_, fun h => absurd h (by omega)⟩
    have := hk k t ht
    simpa [h0] using this

set_option maxRecDepth 20000 in
theorem full_refresh_cadence_witness :
    Screen.renderRun (screenOf qualityRoot) (List.replicate 10 qualityRoot) =
      some [(false, 1), (false, 2), (false, 3), (false, 4), (false, 5), (false, 6),
        (false, 7), (false, 8), (false, 9), (true, 0)] ∧
    Screen.renderRun { screenOf qualityRoot with full_refresh_interval := 0 }
        [qualityRoot, nestedClean, qualityRoot] = some [(false, 1), (false, 1), (false, 2)] ∧
    ∃ l, (screenOf qualityRoot).renderRun (List.replicate 10 qualityRoot) = some l ∧
      l.length = (List.replicate 10 qualityRoot).length ∧
      (0 < (screenOf qualityRoot).full_refresh_interval →
        ∀ k t, (List.replicate 10 qualityRoot)[k]? = some t →
          l[k]? = some
            (dirtyPass t && decide (dirtyPasses (List.replicate 10 qualityRoot) (k + 1) %
                (screenOf qualityRoot).full_refresh_interval = 0),
              dirtyPasses (List.replicate 10 qualityRoot) (k + 1) %
                (screenOf qualityRoot).full_refresh_interval)) ∧
      ((screenOf qualityRoot).full_refresh_interval = 0 → ∀ p ∈ l, p.1 = false) :=
  ⟨by decide, by decide,
    full_refresh_cadence (screenOf qualityRoot) (List.replicate 10 qualityRoot) rfl rfl
      (by decide)⟩

/-! ## C24 and C25: touch synthesis and debounce -/

/-- Ticks without a sample on an idle `Screen` (no touch active, no cooldown) dispatch
nothing and leave it idle with the same root. -/
theorem touchRun_idle (rootTouch : Widget → TouchEvent → Widget) :
    ∀ (idle : List Nat) (rest : List (Nat × Option (Int × Int))) (s : Screen),
      s.touch_active = false → s.debounce_until = 0 →
      ∃ s', s'.touch_active = false ∧ s'.debounce_until = 0 ∧ s'.root = s.root ∧
        (Screen.touchRun rootTouch s (idle.map (fun t => (t, none)) ++ rest)).2 =
          (Screen.touchRun rootTouch s' rest).2
  | [], rest, s, ha, hd => ⟨s, ha, hd, rfl, rfl⟩
  | t :: idle, rest, s, ha, hd => by
      have hstep : (Screen.processTouch rootTouch s t none).2 = [] ∧
          (Screen.processTouch rootTouch s t none).1.touch_active = false ∧
          (Screen.processTouch rootTouch s t none).1.debounce_until = 0 ∧
          (Screen.processTouch rootTouch s t none).1.root = s.root := by
        unfold Screen.processTouch
        cases hr : s.root with
        | none => simp [ha, hd, hr]
        | some root => simp [ha, hd, hr]
      obtain ⟨s', ha', hd', hr', hrun⟩ :=
        touchRun_idle rootTouch idle rest (Screen.processTouch rootTouch s t none).1
          hstep.2.1 hstep.2.2.1
      refine ⟨s', ha', hd', hr'.trans hstep.2.2.2, ?_⟩
      simp only [List.map_cons, List.cons_append, Screen.touchRun, hstep.1, List.nil_append]
      exact hrun

/-- C25 as stated fails. The end of the cooldown is stored as `millis() + 80` in an
`unsigned long` of 32 bits. After an UP dispatched at `t = 2 ^ 32 - 80` the stored value
wraps to 0, which means "no cooldown": the call at `t + 1` with a sample dispatches DOWN.
After an UP dispatched at `t = 2 ^ 32 - 50` the stored value is 30, and the call at
`t + 10 = 2 ^ 32 - 40`, which is not below 30, dispatches DOWN as well. -/
theorem touch_debounce_counterexample :
    (Screen.processTouch (fun w _ => w)
        { screenOf qualityRoot with touch_active := true, last_x := 7, last_y := 9 }
        4294967216 none).2 = [⟨7, 9, .UP⟩] ∧
    (Screen.processTouch (fun w _ => w)
        { screenOf qualityRoot with touch_active := true, last_x := 7, last_y := 9 }
        4294967216 none).1.debounce_until = 0 ∧
    4294967217 < 4294967216 + TOUCH_DEBOUNCE_MS ∧
    (Screen.processTouch (fun w _ => w)
        (Screen.processTouch (fun w _ => w)
          { screenOf qualityRoot with touch_active := true, last_x := 7, last_y := 9 }
          4294967216 none).1 4294967217 (some (1, 2))).2 = [⟨1, 2, .DOWN⟩] ∧
    (Screen.processTouch (fun w _ => w)
        { screenOf qualityRoot with touch_active := true, last_x := 7, last_y := 9 }
        4294967246 none).1.debounce_until = 30 ∧
    4294967256 < 4294967246 + TOUCH_DEBOUNCE_MS ∧
    (Screen.processTouch (fun w _ => w)
        (Screen.processTouch (fun w _ => w)
          { screenOf qualityRoot with touch_active := true, last_x := 7, last_y := 9 }
          4294967246 none).1 4294967256 (some (1, 2))).2 = [⟨1, 2, .DOWN⟩] := by
  decide

/-- C25, as amended. Debounce of `processTouch()` on a `Screen` with a root. After an UP
dispatched at time `t` with `t + 80` below `2 ^ 32` (the end of the cooldown does not
wrap around the 32 bits of `millis()`), every call at a time
below `t + TOUCH_DEBOUNCE_MS` dispatches nothing and leaves all members unchanged,
whatever the panel reports. And on an idle `Screen` (no touch active, no cooldown), any
number of ticks without a sample, then one tick with a sample at `(x, y)`, then one tick
without a sample dispatch exactly DOWN at `(x, y)` then UP at `(x, y)`. -/
theorem touch_debounce (rootTouch : Widget → TouchEvent → Widget) (s : Screen)
    (root : Widget) (t : Nat) (hroot : s.root = some root)
    (hout : ¬ (s.debounce_until ≠ 0 ∧ t < s.debounce_until)) (hact : s.touch_active = true)
    (hrange : t + TOUCH_DEBOUNCE_MS < 2 ^ 32) :
    (Screen.processTouch rootTouch s t none).2 = [⟨s.last_x, s.last_y, .UP⟩] ∧
    (∀ (t' : Nat) (sample : Option (Int × Int)), t' < t + TOUCH_DEBOUNCE_MS →
      Screen.processTouch rootTouch (Screen.processTouch rootTouch s t none).1 t' sample =
        ((Screen.processTouch rootTouch s t none).1, [])) ∧
    (∀ (s0 : Screen) (root0 : Widget) (idle : List Nat) (t1 t2 : Nat) (x y : Int),
      s0.root = some root0 → s0.touch_active = false → s0.debounce_until = 0 →
      (Screen.touchRun rootTouch s0
          (idle.map (fun t => (t, none)) ++ [(t1, some (x, y)), (t2, none)])).2 =
        [⟨x, y, .DOWN⟩, ⟨x, y, .UP⟩]) := by
  have hup : (Screen.processTouch rootTouch s t none).1.debounce_until =
        t + TOUCH_DEBOUNCE_MS ∧
      (Screen.processTouch rootTouch s t none).1.root = some (rootTouch root
        ⟨s.last_x, s.last_y, .UP⟩) := by
    have hm : (t + TOUCH_DEBOUNCE_MS) % 4294967296 = t + TOUCH_DEBOUNCE_MS :=
      Nat.mod_eq_of_lt (by simpa using hrange)
    simp [Screen.processTouch, hroot, hout, hact, hm]
  refine ⟨?_, fun t' sample ht' => ?_, ?_⟩
  · simp [Screen.processTouch, hroot, hout, hact]
  · generalize Screen.processTouch rootTouch s t none = up at hup
    obtain ⟨h1, h2⟩ := hup
    have hd : up.1.debounce_until ≠ 0 ∧ t' < up.1.debounce_until := by
      rw [h1]
      simp only [TOUCH_DEBOUNCE_MS] at ht' ⊢
      omega
    unfold Screen.processTouch
    rw [h2]
    exact if_pos hd
  · intro s0 root0 idle t1 t2 x y hr ha hd
    obtain ⟨s', ha', hd', hr', hrun⟩ :=
      touchRun_idle rootTouch idle [(t1, some (x, y)), (t2, none)] s0 ha hd
    rw [hrun]
    simp [Screen.touchRun, Screen.processTouch, hr'.trans hr, ha', hd']

theorem touch_debounce_witness :
    (Screen.processTouch (fun w _ => w)
        { screenOf qualityRoot with touch_active := true, last_x := 7, last_y := 9 }
        1000 none).2 = [⟨7, 9, .UP⟩] ∧
    (Screen.processTouch (fun w _ => w)
        (Screen.processTouch (fun w _ => w)
          { screenOf qualityRoot with touch_active := true, last_x := 7, last_y := 9 }
          1000 none).1 1079 (some (1, 2))).2 = [] ∧
    (Screen.touchRun (fun w _ => w) (screenOf qualityRoot)
        ([0, 10, 20].map (fun t => (t, none)) ++ [(30, some (3, 4)), (40, none)])).2 =
      [⟨3, 4, .DOWN⟩, ⟨3, 4, .UP⟩] :=
  ⟨(touch_debounce (fun w _ => w)
      { screenOf qualityRoot with touch_active := true, last_x := 7, last_y := 9 }
      qualityRoot 1000 rfl (by decide) rfl (by decide)).1,
    congrArg Prod.snd ((touch_debounce (fun w _ => w)
      { screenOf qualityRoot with touch_active := true, last_x := 7, last_y := 9 }
      qualityRoot 1000 rfl (by decide) rfl (by decide)).2.1 1079 (some (1, 2)) (by decide)),
    (touch_debounce (fun w _ => w)
      { screenOf qualityRoot with touch_active := true, last_x := 7, last_y := 9 }
      qualityRoot 1000 rfl (by decide) rfl (by decide)).2.2 (screenOf qualityRoot)
      qualityRoot [0, 10, 20] 30 40 3 4 rfl rfl rfl⟩

/-! ## C26: `sync()` on a change of the global generation -/

mutual

theorem syncAll_mem :
    ∀ (w : Widget) (path : List Nat), path ∈ Screen.syncAll w ↔ (w.nodeAt path).isSome
  | .leaf b k, [] => by simp [Screen.syncAll, Widget.nodeAt]
  | .leaf b k, _ :: _ => by simp [Screen.syncAll, Widget.nodeAt]
  | .composite b kind cfg cs, [] => by simp [Screen.syncAll, Widget.nodeAt]
  | .composite b kind cfg cs, i :: q => by
      simp only [Screen.syncAll, Widget.nodeAt, List.mem_cons, List.cons_ne_nil, false_or]
      rw [syncAllChildren_mem cs 0 (i :: q)]
      constructor
      · rintro ⟨j, q', he, h⟩
        simp only [Nat.zero_add, List.cons.injEq] at he
        obtain ⟨rfl, rfl⟩ := he
        exact h
      · intro h
        exact ⟨i, q, by simp, h⟩

theorem syncAllChildren_mem :
    ∀ (cs : List Widget) (i : Nat) (path : List Nat),
      path ∈ Screen.syncAllChildren cs i ↔
        ∃ j q, path = (i + j) :: q ∧ (Widget.childAt cs j q).isSome
  | [], i, path => by simp [Screen.syncAllChildren, Widget.childAt]
  | w :: ws, i, path => by
      simp only [Screen.syncAllChildren, List.mem_append, List.mem_map]
      constructor
      · rintro (⟨p, hp, rfl⟩ | h)
        · exact ⟨0, p, rfl, by
            simp only [Widget.childAt]
            exact (syncAll_mem w p).mp hp⟩
        · obtain ⟨j, q, rfl, hq⟩ := (syncAllChildren_mem ws (i + 1) path).mp h
          exact ⟨j + 1, q, by simp only [List.cons.injEq, and_true]; omega, by
            simp only [Widget.childAt]
            exact hq⟩
      · rintro ⟨j, q, rfl, hq⟩
        cases j with
        | zero =>
            simp only [Widget.childAt] at hq
            exact Or.inl ⟨q, (syncAll_mem w q).mpr hq, rfl⟩
        | succ j =>
            simp only [Widget.childAt] at hq
            exact Or.inr ((syncAllChildren_mem ws (i + 1) _).mpr
              ⟨j, q, by simp only [List.cons.injEq, and_true]; omega, hq⟩)

end

mutual

theorem syncAll_nodup : ∀ (w : Widget), (Screen.syncAll w).Nodup
  | .leaf b k => by simp [Screen.syncAll]
  | .composite b kind cfg cs => by
      simp only [Screen.syncAll, List.nodup_cons]
      refine ⟨fun h => ?_, syncAllChildren_nodup cs 0⟩
      obtain ⟨j, q, he, -⟩ := (syncAllChildren_mem cs 0 []).mp h
      simp at he

theorem syncAllChildren_nodup :
    ∀ (cs : List Widget) (i : Nat), (Screen.syncAllChildren cs i).Nodup
  | [], i => by simp [Screen.syncAllChildren]
  | w :: ws, i => by
      simp only [Screen.syncAllChildren]
      refine List.Nodup.append ((syncAll_nodup w).map (fun a b h => (List.cons.inj h).2))
        (syncAllChildren_nodup ws (i + 1)) ?_
      intro p hp1 hp2
      obtain ⟨p', -, rfl⟩ := List.mem_map.mp hp1
      obtain ⟨j, q, he, -⟩ := (syncAllChildren_mem ws (i + 1) _).mp hp2
      simp only [List.cons.injEq] at he
      omega

end

/-- C26. The first statement of `update()`. When the global generation differs from the
last-observed value, `sync()` is called exactly once on every node of the tree, visible
or not (the calls are exactly the positions of the tree, none twice), and the
last-observed value becomes the current global generation; when they are equal, no
`sync()` is called and nothing changes. -/
theorem sync_on_generation_change (s : Screen) (global_gen : Nat) :
    (global_gen ≠ s.last_synced_gen →
      (s.syncStep global_gen).1.last_synced_gen = global_gen ∧
      (s.syncStep global_gen).2.Nodup ∧
      ∀ root, s.root = some root →
        ∀ path, path ∈ (s.syncStep global_gen).2 ↔ (root.nodeAt path).isSome) ∧
    (global_gen = s.last_synced_gen → s.syncStep global_gen = (s, [])) := by
  constructor
  · intro h
    simp only [Screen.syncStep, h, ne_eq, not_false_eq_true, ↓reduceIte, true_and]
    constructor
    · cases s.root with
      | none => simp
      | some root => exact syncAll_nodup root
    · intro root hr path
      rw [hr]
      exact syncAll_mem root path
  · intro h
    simp [Screen.syncStep, h]

theorem sync_on_generation_change_witness :
    ((screenOf nestedClean).syncStep 3).1.last_synced_gen = 3 ∧
    ((screenOf nestedClean).syncStep 3).2 = [[], [0], [0, 0], [0, 1], [1]] ∧
    (screenOf nestedClean).syncStep 0 = (screenOf nestedClean, []) :=
  ⟨((sync_on_generation_change (screenOf nestedClean) 3).1 (by decide)).1, by decide,
    (sync_on_generation_change (screenOf nestedClean) 0).2 rfl⟩

/-! ## C27 and C28: `State<T>::set` and `StaticPool::alloc` -/

/-- C27. Method `State<T>::set(v)`, for a value type with decidable equality: it returns
true exactly when `v` differs from the stored value; in that case `get()` returns `v`
afterwards and both the generation of the cell and the global generation have increased
by one, modulo `2 ^ 32`; otherwise it returns false and changes nothing. -/
theorem state_set_contract {T : Type} [DecidableEq T] (s : State T) (g : Nat) (v : T) :
    ((s.set g v).1 = true ↔ v ≠ s.value) ∧
    (v ≠ s.value →
      (s.set g v).2.1.get = v ∧
      (s.set g v).2.1.generation = (s.generation + 1) % 2 ^ 32 ∧
      (s.set g v).2.2 = (g + 1) % 2 ^ 32) ∧
    (v = s.value → s.set g v = (false, s, g)) := by
  by_cases h : s.value = v
  · have h' : v = s.value := h.symm
    simp [State.set, h']
  · have h' : v ≠ s.value := fun e => h e.symm
    simp [State.set, h, h', State.get]

theorem state_set_contract_witness :
    ((⟨5, 4294967295⟩ : State Nat).set 7 6).2.1.get = 6 ∧
    ((⟨5, 4294967295⟩ : State Nat).set 7 6).2.1.generation = 0 ∧
    ((⟨5, 4294967295⟩ : State Nat).set 7 6).2.2 = 8 ∧
    (⟨5, 4294967295⟩ : State Nat).set 7 5 = (false, ⟨5, 4294967295⟩, 7) :=
  ⟨((state_set_contract (⟨5, 4294967295⟩ : State Nat) 7 6).2.1 (by decide)).1,
    ((state_set_contract (⟨5, 4294967295⟩ : State Nat) 7 6).2.1 (by decide)).2.1,
    ((state_set_contract (⟨5, 4294967295⟩ : State Nat) 7 6).2.1 (by decide)).2.2,
    (state_set_contract (⟨5, 4294967295⟩ : State Nat) 7 5).2.2 rfl⟩

theorem allocMany_from (N : Nat) (hN : 0 < N) (hN16 : N < 65536) :
    ∀ (k c : Nat), c ≤ N →
      (StaticPool.allocMany N c k).1 =
          (List.range k).map (fun i => ((min (c + i) (N - 1) : Nat) : Int)) ∧
        (StaticPool.allocMany N c k).2 = min (c + k) N
  | 0, c, hc => by simp [StaticPool.allocMany, Nat.min_eq_left hc]
  | k + 1, c, hc => by
      rcases Nat.lt_or_ge c N with hlt | hge
      · have hm : (c + 1) % 65536 = c + 1 := Nat.mod_eq_of_lt (by omega)
        obtain ⟨h1, h2⟩ := allocMany_from N hN hN16 k (c + 1) (by omega)
        simp only [StaticPool.allocMany, StaticPool.alloc, if_pos hlt, hm, h1, h2,
          List.range_succ_eq_map, List.map_cons, List.map_map, Nat.add_zero]
        refine ⟨?_, by congr 1; omega⟩
        congr 1
        · rw [Nat.min_eq_left (by omega)]
        · apply List.map_congr_left
          intro i _
          simp only [Function.comp_apply]
          congr 2
          omega
      · have hcN : c = N := by omega
        subst hcN
        obtain ⟨h1, h2⟩ := allocMany_from c hN hN16 k c (by omega)
        simp only [StaticPool.allocMany, StaticPool.alloc, if_neg (Nat.lt_irrefl c), h1, h2,
          List.range_succ_eq_map, List.map_cons, List.map_map, Nat.add_zero]
        refine ⟨?_, by omega⟩
        congr 1
        · rw [Nat.min_eq_right (by omega)]
          omega
        · apply List.map_congr_left
          intro i _
          simp only [Function.comp_apply]
          congr 1
          omega

/-- C28. Method `StaticPool<T, N>::alloc()` for a capacity `N` of at least 1, on a fresh
or reset pool: the `i`-th call (from 0) returns slot `i` while `i < N` and slot `N - 1`
afterwards, and after `k` calls `count()` is `k` while `k ≤ N` and `N` afterwards; so the
first `N` calls return the slots `0 .. N - 1` in order, further calls return slot `N - 1`
with `count()` staying `N`, and `count()` never exceeds `N`. -/
theorem pool_alloc (N : Nat) (hN : 0 < N) (hN16 : N < 65536) (k : Nat) :
    (StaticPool.allocMany N 0 k).1 =
        (List.range k).map (fun i => ((min i (N - 1) : Nat) : Int)) ∧
      (StaticPool.allocMany N 0 k).2 = min k N ∧
      (StaticPool.allocMany N 0 k).2 ≤ N := by
  obtain ⟨h1, h2⟩ := allocMany_from N hN hN16 k 0 (Nat.zero_le N)
  simp only [Nat.zero_add] at h1 h2
  exact ⟨h1, h2, by rw [h2]; exact Nat.min_le_right k N⟩

theorem pool_alloc_witness :
    (StaticPool.allocMany 3 0 5).1 = [0, 1, 2, 2, 2] ∧
    (StaticPool.allocMany 3 0 5).2 = 3 ∧
    (StaticPool.allocMany 3 0 2).1 = [0, 1] ∧
    (StaticPool.allocMany 3 0 2).2 = 2 :=
  ⟨(pool_alloc 3 (by decide) (by decide) 5).1, (pool_alloc 3 (by decide) (by decide) 5).2.1,
    (pool_alloc 3 (by decide) (by decide) 2).1, (pool_alloc 3 (by decide) (by decide) 2).2.1⟩

/-! ## C29: absent root or surface -/

/-- C29 (the code as written). On a `Screen` with a root holding a dirty visible leaf and
no surface bound, `performLayout()` and `fullRefresh()` return at their guard
`!_root || !_gfx` and make no call, but `render()` has no such guard: it collects the
dirty rect and goes on to call `fillRect` through the null `_gfx` instead of returning.
`processTouch` tests only the root, so without a surface a sample still dispatches DOWN
and makes the touch active. -/
theorem render_without_surface :
    noSurface.gfx = false ∧ noSurface.root.isSome = true ∧
    Screen.collectDirtyRects qualityRoot [] = [⟨10, 10, 60, 30⟩] ∧
    noSurface.performLayout.2 = [] ∧ noSurface.fullRefresh.2 = [] ∧
    (Screen.render noSurface).isNone = true ∧
    (Screen.processTouch (fun w _ => w) noSurface 0 (some (20, 20))).2 =
      [⟨20, 20, .DOWN⟩] ∧
    (Screen.processTouch (fun w _ => w) noSurface 0 (some (20, 20))).1.touch_active = true ∧
    noSurface.touch_active = false := by
  decide

/-- The part of C29 that the code satisfies. On a `Screen` without a root or without a
surface, `performLayout()` and `fullRefresh()` are no-ops: no member changes (the tree with its bounds and dirty
flags, the counter, the touch state) and no call is made on the surface. Without a root,
`processTouch` dispatches nothing and changes no member, and `render` is a no-op. With a
root, a render pass that collects no dirty rect is a no-op, with or without a surface; and
the events that `processTouch` dispatches do not depend on whether a surface is bound. -/
theorem absent_root_or_surface (rootTouch : Widget → TouchEvent → Widget) (s : Screen) :
    (s.root = none ∨ s.gfx = false →
      s.performLayout = (s, []) ∧ s.fullRefresh = (s, [])) ∧
    (s.root = none →
      (∀ now sample, Screen.processTouch rootTouch s now sample = (s, [])) ∧
      s.render = some (s, [])) ∧
    (∀ root, s.root = some root → dirtyPass root = false → s.render = some (s, [])) ∧
    (∀ now sample,
      (Screen.processTouch rootTouch { s with gfx := false } now sample).2 =
        (Screen.processTouch rootTouch { s with gfx := true } now sample).2) := by
  refine ⟨fun h => ?_, fun h => ⟨fun now sample => ?_, ?_⟩, fun root hr hd => ?_,
    fun now sample => ?_⟩
  · rcases h with h | h
    · simp [Screen.performLayout, Screen.fullRefresh, h]
    · cases hr : s.root <;> simp [Screen.performLayout, Screen.fullRefresh, h]
  · simp [Screen.processTouch, h]
  · simp [Screen.render, h]
  · have hc : Screen.collectDirtyRects root [] = [] := by
      simpa [dirtyPass] using hd
    simp [Screen.render, hr, hc]
  · unfold Screen.processTouch
    cases s.root with
    | none => rfl
    | some root =>
        simp only
        split
        · rfl
        · cases sample with
          | none => simp only; split <;> rfl
          | some p => rfl

theorem absent_root_or_surface_witness :
    (Screen.performLayout { gfx := true, root := none } = ({ gfx := true, root := none }, []) ∧
      Screen.fullRefresh { gfx := true, root := none } =
        ({ gfx := true, root := none }, [])) ∧
    (noSurface.performLayout = (noSurface, []) ∧ noSurface.fullRefresh = (noSurface, [])) ∧
    Screen.processTouch (fun w _ => w) { gfx := true, root := none } 5 (some (1, 2)) =
      ({ gfx := true, root := none }, []) ∧
    Screen.render { gfx := false, root := some nestedClean } =
      some ({ gfx := false, root := some nestedClean }, []) :=
  ⟨(absent_root_or_surface (fun w _ => w) { gfx := true, root := none }).1 (Or.inl rfl),
    (absent_root_or_surface (fun w _ => w) noSurface).1 (Or.inr rfl),
    ((absent_root_or_surface (fun w _ => w) { gfx := true, root := none }).2.1 rfl).1 5
      (some (1, 2)),
    (absent_root_or_surface (fun w _ => w) { gfx := false, root := some nestedClean }).2.2.1
      nestedClean rfl (by decide)⟩

/-! ## C30: the damage of a moved leaf -/

theorem Widget.visibleAlong_nil (n : Widget) : n.visibleAlong [] = n.isVisible := by
  cases n <;> rfl

mutual

theorem visibleAlong_applyAt (f : Widget → Widget × Bool)
    (hf : ∀ n, (f n).1.isVisible = n.isVisible) :
    ∀ (root : Widget) (path : List Nat),
      (Widget.applyAt f root path).1.visibleAlong path = root.visibleAlong path
  | .leaf b k, [] => by
      simp only [Widget.applyAt]
      rw [Widget.visibleAlong_nil, hf, Widget.visibleAlong_nil]
  | .composite b kind cfg cs, [] => by
      simp only [Widget.applyAt]
      rw [Widget.visibleAlong_nil, hf, Widget.visibleAlong_nil]
  | .leaf b k, _ :: _ => by
      simp only [Widget.applyAt]
  | .composite b kind cfg cs, i :: path => by
      simp only [Widget.applyAt, Widget.visibleAlong]
      rw [visibleAlongChild_applyAtChild f hf cs i path]
      split <;> simp [WidgetBase.markDirty]

theorem visibleAlongChild_applyAtChild (f : Widget → Widget × Bool)
    (hf : ∀ n, (f n).1.isVisible = n.isVisible) :
    ∀ (cs : List Widget) (i : Nat) (path : List Nat),
      Widget.visibleAlongChild (Widget.applyAtChild f cs i path).1 i path =
        Widget.visibleAlongChild cs i path
  | [], _, _ => by simp only [Widget.applyAtChild]
  | w :: ws, 0, path => by
      simp only [Widget.applyAtChild, Widget.visibleAlongChild]
      exact visibleAlong_applyAt f hf w path
  | w :: ws, i + 1, path => by
      simp only [Widget.applyAtChild, Widget.visibleAlongChild]
      exact visibleAlongChild_applyAtChild f hf ws i path

end

theorem Rect.intersects_iff (a b : Rect) :
    a.intersects b = true ↔
      b.x < a.x + a.w ∧ a.x < b.x + b.w ∧ b.y < a.y + a.h ∧ a.y < b.y + b.h := by
  simp only [Rect.intersects, Bool.not_eq_true', Bool.or_eq_false_iff, decide_eq_false_iff_not,
    not_le]
  constructor
  · rintro ⟨⟨⟨h1, h2⟩, h3⟩, h4⟩
    exact ⟨h1, h2, h3, h4⟩
  · rintro ⟨h1, h2, h3, h4⟩
    exact ⟨⟨⟨h1, h2⟩, h3⟩, h4⟩

theorem Rect.contains_iff (a : Rect) (px py : Int) :
    a.contains px py = true ↔ a.x ≤ px ∧ px < a.x + a.w ∧ a.y ≤ py ∧ py < a.y + a.h := by
  simp only [Rect.contains, Bool.and_eq_true, decide_eq_true_eq, ge_iff_le]
  constructor
  · rintro ⟨⟨⟨h1, h2⟩, h3⟩, h4⟩
    exact ⟨h1, h2, h3, h4⟩
  · rintro ⟨h1, h2, h3, h4⟩
    exact ⟨⟨⟨h1, h2⟩, h3⟩, h4⟩

/-- C37. Method `Rect::intersects` is symmetric; for two rects of positive width and
height it holds exactly when some integer point is contained in both (and then a common
point exists whose coordinates are coordinates of the rects, hence `int16_t` values);
`Rect::contains` is half-open: a rect of positive size contains its origin `(x, y)`, and
no rect contains a point with `px = x + w` or with `py = y + h`. -/
theorem intersects_contains (a b : Rect) :
    a.intersects b = b.intersects a ∧
    (0 < a.w → 0 < a.h → 0 < b.w → 0 < b.h →
      (a.intersects b = true ↔
        ∃ px py, a.contains px py = true ∧ b.contains px py = true) ∧
      (a.intersects b = true →
        a.contains (max a.x b.x) (max a.y b.y) = true ∧
        b.contains (max a.x b.x) (max a.y b.y) = true)) ∧
    (0 < a.w → 0 < a.h → a.contains a.x a.y = true) ∧
    (∀ py, a.contains (a.x + a.w) py = false) ∧
    (∀ px, a.contains px (a.y + a.h) = false) := by
  refine ⟨?_, fun haw hah hbw hbh => ⟨⟨fun h => ?_, ?_⟩, fun h => ?_⟩, fun haw hah => ?_,
    fun py => ?_, fun px => ?_⟩
  · rw [Bool.eq_iff_iff, Rect.intersects_iff, Rect.intersects_iff]
    constructor <;> rintro ⟨h1, h2, h3, h4⟩ <;> exact ⟨h2, h1, h4, h3⟩
  · rw [Rect.intersects_iff] at h
    refine ⟨max a.x b.x, max a.y b.y, ?_, ?_⟩ <;> rw [Rect.contains_iff] <;>
      simp only [le_max_iff, max_lt_iff, le_refl, true_or, or_true, true_and] <;> omega
  · rintro ⟨px, py, h1, h2⟩
    rw [Rect.contains_iff] at h1 h2
    rw [Rect.intersects_iff]
    omega
  · rw [Rect.intersects_iff] at h
    constructor <;> rw [Rect.contains_iff] <;>
      simp only [le_max_iff, max_lt_iff, le_refl, true_or, or_true, true_and] <;> omega
  · rw [Rect.contains_iff]
    omega
  · rw [Bool.eq_false_iff]
    intro h
    rw [Rect.contains_iff] at h
    omega
  · rw [Bool.eq_false_iff]
    intro h
    rw [Rect.contains_iff] at h
    omega

theorem intersects_contains_witness :
    ((⟨0, 0, 10, 10⟩ : Rect).intersects ⟨9, 9, 5, 5⟩ = true ↔
      ∃ px py, (⟨0, 0, 10, 10⟩ : Rect).contains px py = true ∧
        (⟨9, 9, 5, 5⟩ : Rect).contains px py = true) ∧
    (⟨0, 0, 10, 10⟩ : Rect).contains 9 9 = true ∧
    (⟨0, 0, 10, 10⟩ : Rect).intersects ⟨10, 0, 5, 5⟩ = false :=
  ⟨((intersects_contains ⟨0, 0, 10, 10⟩ ⟨9, 9, 5, 5⟩).2.1 (by decide) (by decide)
      (by decide) (by decide)).1,
    (((intersects_contains ⟨0, 0, 10, 10⟩ ⟨9, 9, 5, 5⟩).2.1 (by decide) (by decide)
      (by decide) (by decide)).2 (by decide)).1,
    by decide⟩

/-! ## C33: the worst hint in a region -/

theorem worstHintChildren_mono (region : Rect) :
    ∀ (cs : List Widget) (result : UpdateHint),
      result.toNat ≤ (Screen.worstHintChildren cs region result).toNat
  | [], _ => by simp [Screen.worstHintChildren]
  | w :: ws, result => by
      simp only [Screen.worstHintChildren]
      split
      · exact le_trans (by omega) (worstHintChildren_mono region ws _)
      · exact worstHintChildren_mono region ws _

mutual

theorem worstHintInRegion_ge :
    ∀ (w : Widget) (region : Rect) (path : List Nat) (n : Widget),
      w.nodeAt path = some n → w.hitAlong region path = true → n.isDirty = true →
      n.updateHint.toNat ≤ (Screen.worstHintInRegion w region).toNat
  | .leaf b k, region, [], n, hn, hh, hd => by
      simp only [Widget.nodeAt, Option.some.injEq] at hn
      subst hn
      simp only [Widget.hitAlong, Bool.and_eq_true] at hh
      simp only [Widget.isDirty, Widget.base] at hd
      simp [Screen.worstHintInRegion, hh.1, hh.2, hd, Widget.updateHint]
  | .leaf b k, region, _ :: _, n, hn, _, _ => by
      simp [Widget.nodeAt] at hn
  | .composite b kind cfg cs, region, [], n, hn, hh, hd => by
      simp only [Widget.nodeAt, Option.some.injEq] at hn
      subst hn
      simp only [Widget.hitAlong, Bool.and_eq_true] at hh
      simp only [Widget.isDirty, Widget.base] at hd
      simp only [Screen.worstHintInRegion, hh.1, hh.2, hd, Bool.not_true, Bool.or_self,
        Bool.false_eq_true, ↓reduceIte, Widget.updateHint]
      exact worstHintChildren_mono region cs _
  | .composite b kind cfg cs, region, i :: path, n, hn, hh, hd => by
      simp only [Widget.nodeAt] at hn
      simp only [Widget.hitAlong, Bool.and_eq_true] at hh
      simp only [Screen.worstHintInRegion, hh.1.1, hh.1.2, Bool.not_true, Bool.or_self,
        Bool.false_eq_true, ↓reduceIte]
      exact worstHintChildren_ge cs region _ i path n hn hh.2 hd

theorem worstHintChildren_ge :
    ∀ (cs : List Widget) (region : Rect) (result : UpdateHint) (i : Nat) (path : List Nat)
      (n : Widget),
      Widget.childAt cs i path = some n → Widget.hitAlongChild cs region i path = true →
      n.isDirty = true →
      n.updateHint.toNat ≤ (Screen.worstHintChildren cs region result).toNat
  | [], _, _, _, _, n, hn, _, _ => by
      simp [Widget.childAt] at hn
  | w :: ws, region, result, 0, path, n, hn, hh, hd => by
      simp only [Widget.childAt] at hn
      simp only [Widget.hitAlongChild] at hh
      have h1 := worstHintInRegion_ge w region path n hn hh hd
      simp only [Screen.worstHintChildren]
      split
      · exact le_trans h1 (worstHintChildren_mono region ws _)
      · exact le_trans (by omega) (worstHintChildren_mono region ws _)
  | w :: ws, region, result, i + 1, path, n, hn, hh, hd => by
      simp only [Widget.childAt] at hn
      simp only [Widget.hitAlongChild] at hh
      simp only [Screen.worstHintChildren]
      exact worstHintChildren_ge ws region _ i path n hn hh hd

end

mutual

theorem worstHintInRegion_attained :
    ∀ (w : Widget) (region : Rect), Screen.worstHintInRegion w region ≠ .NONE →
      ∃ path n, w.nodeAt path = some n ∧ w.hitAlong region path = true ∧
        n.isDirty = true ∧ n.updateHint = Screen.worstHintInRegion w region
  | .leaf b k, region, h => by
      simp only [Screen.worstHintInRegion] at h ⊢
      split at h
      · exact absurd rfl h
      · rename_i hc
        split at h
        · rename_i hd
          simp only [Bool.or_eq_true, Bool.not_eq_true', not_or, Bool.not_eq_false] at hc
          refine ⟨[], .leaf b k, rfl, by simp [Widget.hitAlong, hc.1, hc.2], hd, ?_⟩
          simp [hc.1, hc.2, hd, Widget.updateHint]
        · exact absurd rfl h
  | .composite b kind cfg cs, region, h => by
      simp only [Screen.worstHintInRegion] at h ⊢
      split at h
      · exact absurd rfl h
      · rename_i hc
        simp only [Bool.or_eq_true, Bool.not_eq_true', not_or, Bool.not_eq_false] at hc
        simp only [hc.1, hc.2, Bool.not_true, Bool.or_self, Bool.false_eq_true, ↓reduceIte]
        rcases worstHintChildren_attained cs region (if b.dirty then .FAST else .NONE) with
          he | ⟨i, path, n, hn, hh, hd, hu⟩
        · rw [he] at h ⊢
          split at h
          · rename_i hd
            refine ⟨[], .composite b kind cfg cs, rfl, by simp [Widget.hitAlong, hc.1, hc.2],
              hd, ?_⟩
            simp [hd, Widget.updateHint]
          · exact absurd rfl h
        · exact ⟨i :: path, n, hn, by simp [Widget.hitAlong, hc.1, hc.2, hh], hd, hu⟩

theorem worstHintChildren_attained :
    ∀ (cs : List Widget) (region : Rect) (result : UpdateHint),
      Screen.worstHintChildren cs region result = result ∨
      ∃ i path n, Widget.childAt cs i path = some n ∧
        Widget.hitAlongChild cs region i path = true ∧ n.isDirty = true ∧
        n.updateHint = Screen.worstHintChildren cs region result
  | [], _, _ => Or.inl rfl
  | w :: ws, region, result => by
      simp only [Screen.worstHintChildren]
      split
      · rename_i hgt
        rcases worstHintChildren_attained ws region (Screen.worstHintInRegion w region) with
          he | ⟨i, path, n, hn, hh, hd, hu⟩
        · have hne : Screen.worstHintInRegion w region ≠ .NONE := by
            intro h0
            rw [h0] at hgt
            simp [UpdateHint.toNat] at hgt
          obtain ⟨path, n, hn, hh, hd, hu⟩ := worstHintInRegion_attained w region hne
          exact Or.inr ⟨0, path, n, hn, hh, hd, by rw [he]; exact hu⟩
        · exact Or.inr ⟨i + 1, path, n, hn, hh, hd, hu⟩
      · rcases worstHintChildren_attained ws region result with
          he | ⟨i, path, n, hn, hh, hd, hu⟩
        · exact Or.inl he
        · exact Or.inr ⟨i + 1, path, n, hn, hh, hd, hu⟩

end

/-- C33. `worstHintInRegion(w, region)` is the maximum, in the order
NONE < MONO < FAST < TEXT < QUALITY, of `updateHint()` over the dirty nodes of the subtree
at `w` that are visible and intersect the region and whose ancestors within the subtree
are all visible and intersect the region: it is at least the hint of every such node, it
is the hint of one of them unless it is NONE, and it is NONE when every such node hints
NONE (in particular when there is none). `selectEpdMode` maps QUALITY, TEXT, FAST and MONO
to `epd_quality`, `epd_text`, `epd_fast` and `epd_fastest`, and NONE to `epd_fast`. -/
theorem worst_hint_reduction (w : Widget) (region : Rect) :
    (∀ path n, w.nodeAt path = some n → w.hitAlong region path = true →
      n.isDirty = true →
      n.updateHint.toNat ≤ (Screen.worstHintInRegion w region).toNat) ∧
    (Screen.worstHintInRegion w region ≠ .NONE →
      ∃ path n, w.nodeAt path = some n ∧ w.hitAlong region path = true ∧
        n.isDirty = true ∧ n.updateHint = Screen.worstHintInRegion w region) ∧
    ((∀ path n, w.nodeAt path = some n → w.hitAlong region path = true →
        n.isDirty = true → n.updateHint = .NONE) →
      Screen.worstHintInRegion w region = .NONE) ∧
    (Screen.worstHintInRegion w region = .QUALITY →
      Screen.selectEpdMode (some w) region = .epd_quality) ∧
    (Screen.worstHintInRegion w region = .TEXT →
      Screen.selectEpdMode (some w) region = .epd_text) ∧
    (Screen.worstHintInRegion w region = .FAST →
      Screen.selectEpdMode (some w) region = .epd_fast) ∧
    (Screen.worstHintInRegion w region = .MONO →
      Screen.selectEpdMode (some w) region = .epd_fastest) ∧
    (Screen.worstHintInRegion w region = .NONE →
      Screen.selectEpdMode (some w) region = .epd_fast) := by
  refine ⟨worstHintInRegion_ge w region, worstHintInRegion_attained w region, fun hall => ?_,
    ?_, ?_, ?_, ?_, ?_⟩
  · by_contra hne
    obtain ⟨path, n, hn, hh, hd, hu⟩ := worstHintInRegion_attained w region hne
    exact hne (hu.symm.trans (hall path n hn hh hd))
  all_goals
    intro h
    simp [Screen.selectEpdMode, h]

theorem worst_hint_reduction_witness :
    Screen.worstHintInRegion qualityRoot ⟨0, 0, 100, 100⟩ = .QUALITY ∧
    (∃ path n, qualityRoot.nodeAt path = some n ∧
      qualityRoot.hitAlong ⟨0, 0, 100, 100⟩ path = true ∧ n.isDirty = true ∧
      n.updateHint = Screen.worstHintInRegion qualityRoot ⟨0, 0, 100, 100⟩) ∧
    Screen.selectEpdMode (some qualityRoot) ⟨0, 0, 100, 100⟩ = .epd_quality ∧
    Screen.worstHintInRegion qualityRoot ⟨200, 200, 10, 10⟩ = .NONE :=
  ⟨by decide,
    (worst_hint_reduction qualityRoot ⟨0, 0, 100, 100⟩).2.1 (by decide),
    (worst_hint_reduction qualityRoot ⟨0, 0, 100, 100⟩).2.2.2.1 (by decide),
    by decide⟩

/-! ## C39: the value invariant of `SliderWidget` and `ProgressBarWidget` -/

theorem slider_setValue_spec (s : SliderWidget) (v : Int) :
    (s.setValue v).1.value = constrain v s.min s.max ∧
    (s.setValue v).1.min = s.min ∧ (s.setValue v).1.max = s.max ∧
    ((s.setValue v).2 = true ↔ (s.setValue v).1.value ≠ s.value) := by
  unfold SliderWidget.setValue
  by_cases h : s.value = constrain v s.min s.max
  · simp [h]
  · simp only [ne_eq, h, not_false_eq_true, ↓reduceIte, true_and, true_iff]
    exact fun e => h e.symm

theorem progressBar_setValue_spec (p : ProgressBarWidget) (v : Int) :
    (p.setValue v).1.value = constrain v 0 p.max ∧ (p.setValue v).1.max = p.max ∧
    ((p.setValue v).2 = true ↔ (p.setValue v).1.value ≠ p.value) := by
  unfold ProgressBarWidget.setValue
  by_cases h : p.value = constrain v 0 p.max
  · simp [h]
  · simp only [ne_eq, h, not_false_eq_true, ↓reduceIte, true_and, true_iff]
    exact fun e => h e.symm

/-- C39. Value invariant of `SliderWidget`: after `setRange(lo, hi)` with `lo ≤ hi` the
range is `[lo, hi]` and `lo ≤ value() ≤ hi`; `setValue(v)` on a slider with range
`[lo, hi]`, `lo ≤ hi`, keeps the range, gives `value() = clamp(v, lo, hi)`, so
`lo ≤ value() ≤ hi` again, and marks the slider dirty exactly when the stored value
changes. Likewise `ProgressBarWidget`: after `setMax(m)` with `m ≥ 0` the maximum is `m`
and `0 ≤ value() ≤ m`, and `setValue(v)` on a bar with maximum `m ≥ 0` keeps the
maximum, gives `value() = clamp(v, 0, m)` and marks the bar dirty exactly when the stored
value changes. -/
theorem slider_value_invariant :
    (∀ (s : SliderWidget) (lo hi : Int), lo ≤ hi →
      (s.setRange lo hi).1.min = lo ∧ (s.setRange lo hi).1.max = hi ∧
      lo ≤ (s.setRange lo hi).1.value ∧ (s.setRange lo hi).1.value ≤ hi) ∧
    (∀ (s : SliderWidget) (v : Int), s.min ≤ s.max →
      (s.setValue v).1.min = s.min ∧ (s.setValue v).1.max = s.max ∧
      (s.setValue v).1.value = max s.min (min v s.max) ∧
      s.min ≤ (s.setValue v).1.value ∧ (s.setValue v).1.value ≤ s.max ∧
      ((s.setValue v).2 = true ↔ (s.setValue v).1.value ≠ s.value)) ∧
    (∀ (p : ProgressBarWidget) (m : Int), 0 ≤ m →
      (p.setMax m).1.max = m ∧ 0 ≤ (p.setMax m).1.value ∧ (p.setMax m).1.value ≤ m) ∧
    (∀ (p : ProgressBarWidget) (v : Int), 0 ≤ p.max →
      (p.setValue v).1.max = p.max ∧
      (p.setValue v).1.value = max 0 (min v p.max) ∧
      0 ≤ (p.setValue v).1.value ∧ (p.setValue v).1.value ≤ p.max ∧
      ((p.setValue v).2 = true ↔ (p.setValue v).1.value ≠ p.value)) := by
  refine ⟨fun s lo hi h => ?_, fun s v h => ?_, fun p m h => ?_, fun p v h => ?_⟩
  · obtain ⟨h1, h2, h3, -⟩ :=
      slider_setValue_spec { s with min := lo, max := hi } s.value
    unfold SliderWidget.setRange
    simp only at h1 h2 h3 ⊢
    rw [h1, h2, h3]
    exact ⟨rfl, rfl, constrain_ge _ _ _ h, constrain_le _ _ _ h⟩
  · obtain ⟨h1, h2, h3, h4⟩ := slider_setValue_spec s v
    refine ⟨h2, h3, ?_, ?_, ?_, h4⟩
    · rw [h1, constrain_eq_clamp _ _ _ h]
    · rw [h1]; exact constrain_ge _ _ _ h
    · rw [h1]; exact constrain_le _ _ _ h
  · obtain ⟨h1, h2, -⟩ := progressBar_setValue_spec { p with max := m } p.value
    unfold ProgressBarWidget.setMax
    simp only at h1 h2 ⊢
    rw [h1, h2]
    exact ⟨rfl, constrain_ge _ _ _ h, constrain_le _ _ _ h⟩
  · obtain ⟨h1, h2, h4⟩ := progressBar_setValue_spec p v
    refine ⟨h2, ?_, ?_, ?_, h4⟩
    · rw [h1, constrain_eq_clamp _ _ _ h]
    · rw [h1]; exact constrain_ge _ _ _ h
    · rw [h1]; exact constrain_le _ _ _ h

theorem slider_value_invariant_witness :
    ((({} : SliderWidget).setValue 70).1.setRange 10 50).1.value = 50 ∧
    10 ≤ ((({} : SliderWidget).setValue 70).1.setRange 10 50).1.value ∧
    (((({} : SliderWidget).setValue 70).1.setRange 10 50).1.setValue 5).1.value = 10 ∧
    (((({} : SliderWidget).setValue 70).1.setRange 10 50).1.setValue 50).2 = false ∧
    ((({} : ProgressBarWidget).setValue 70).1.setMax 30).1.value ≤ 30 :=
  ⟨by decide,
    (slider_value_invariant.1 (({} : SliderWidget).setValue 70).1 10 50 (by decide)).2.2.1,
    by decide, by decide,
    (slider_value_invariant.2.2.1 (({} : ProgressBarWidget).setValue 70).1 30
      (by decide)).2.2⟩

/-! ## C40: the buffer invariant of `TextAreaWidget` -/

/-- The string read from a buffer ends at the first NUL: two buffers that agree up to an
index holding NUL hold the same string. -/
theorem takeWhile_agree (f g : Nat → Nat) (k : Nat) (hk : f k = 0)
    (hag : ∀ i, i ≤ k → g i = f i) :
    ∀ (n s : Nat), s ≤ k →
      ((List.range' s n).map g).takeWhile (fun c => decide (c ≠ 0)) =
        ((List.range' s n).map f).takeWhile (fun c => decide (c ≠ 0))
  | 0, _, _ => rfl
  | n + 1, s, hs => by
      simp only [List.range'_succ, List.map_cons, List.takeWhile_cons, hag s hs]
      by_cases h0 : f s = 0
      · simp [h0]
      · have hne : s ≠ k := fun e => h0 (e ▸ hk)
        simp only [ne_eq, h0, not_false_eq_true, decide_True, ↓reduceIte, List.cons.injEq,
          true_and]
        exact takeWhile_agree f g k hk hag n (s + 1) (by omega)

theorem TextAreaWidget.apply_invariant (t : TextAreaWidget) (op : TextOp)
    (h : t.len ≤ 255 ∧ t.buf t.len = 0) :
    (t.apply op).1.len ≤ 255 ∧ (t.apply op).1.buf (t.apply op).1.len = 0 := by
  cases op with
  | appendChar c =>
      simp only [TextAreaWidget.apply, TextAreaWidget.appendChar]
      split
      · rename_i hlt
        have hm : (t.len + 1) % 65536 = t.len + 1 := Nat.mod_eq_of_lt (by omega)
        simp only [hm, Function.update_same, and_true]
        omega
      · exact h
  | deleteChar =>
      simp only [TextAreaWidget.apply, TextAreaWidget.deleteChar]
      split
      · simp only [Function.update_same, and_true]
        omega
      · exact h
  | clear =>
      simp only [TextAreaWidget.apply, TextAreaWidget.clear]
      split
      · simp
      · exact h

theorem TextAreaWidget.run_invariant :
    ∀ (ops : List TextOp) (t : TextAreaWidget), t.len ≤ 255 ∧ t.buf t.len = 0 →
      (t.run ops).len ≤ 255 ∧ (t.run ops).buf (t.run ops).len = 0
  | [], _, h => h
  | op :: ops, t, h => by
      simp only [TextAreaWidget.run]
      exact TextAreaWidget.run_invariant ops _ (TextAreaWidget.apply_invariant t op h)

/-- C40. Buffer invariant of `TextAreaWidget`: after the constructor and any sequence of
`appendChar`, `deleteChar` and `clear`, `length() ≤ 255` and the buffer holds NUL at index
`length()`; `appendChar` on a buffer of length 255 changes nothing; when `length() < 255`
(and the buffer holds NUL at index `length()`), `appendChar(c)` followed by `deleteChar()`
restores the length, every byte of the buffer up to index `length()` and hence the text;
`deleteChar` and `clear` on an empty buffer change nothing and do not mark the widget
dirty. -/
theorem text_area_invariant :
    (∀ (junk : Nat → Nat) (ops : List TextOp),
      ((TextAreaWidget.init junk).run ops).length ≤ 255 ∧
      ((TextAreaWidget.init junk).run ops).buf ((TextAreaWidget.init junk).run ops).length
        = 0) ∧
    (∀ (t : TextAreaWidget) (c : Nat), t.length = 255 → t.appendChar c = (t, false)) ∧
    (∀ (t : TextAreaWidget) (c : Nat), t.length < 255 → t.buf t.length = 0 →
      ((t.appendChar c).1.deleteChar).1.length = t.length ∧
      (∀ i, i ≤ t.length → ((t.appendChar c).1.deleteChar).1.buf i = t.buf i) ∧
      ((t.appendChar c).1.deleteChar).1.text = t.text) ∧
    (∀ (t : TextAreaWidget), t.length = 0 →
      t.deleteChar = (t, false) ∧ t.clear = (t, false)) := by
  refine ⟨fun junk ops => ?_, fun t c h => ?_, fun t c hlt hz => ?_, fun t h => ?_⟩
  · exact TextAreaWidget.run_invariant ops (TextAreaWidget.init junk)
      ⟨by simp [TextAreaWidget.init], by simp [TextAreaWidget.init]⟩
  · simp only [TextAreaWidget.length] at h
    simp [TextAreaWidget.appendChar, h]
  · simp only [TextAreaWidget.length] at hlt hz ⊢
    have hm : (t.len + 1) % 65536 = t.len + 1 := Nat.mod_eq_of_lt (by omega)
    have hlen : ((t.appendChar c).1.deleteChar).1.len = t.len := by
      simp [TextAreaWidget.appendChar, TextAreaWidget.deleteChar, hlt, hm,
        show t.len < 255 from hlt]
    have hbuf : ∀ i, i ≤ t.len → ((t.appendChar c).1.deleteChar).1.buf i = t.buf i := by
      intro i hi
      simp only [TextAreaWidget.appendChar, TextAreaWidget.deleteChar,
        show t.len < 256 - 1 from hlt, ↓reduceIte, hm, gt_iff_lt, Nat.zero_lt_succ,
        Nat.add_sub_cancel]
      rcases Nat.lt_or_ge i t.len with h1 | h1
      · rw [Function.update_noteq (by omega), Function.update_noteq (by omega),
          Function.update_noteq (by omega)]
      · have : i = t.len := by omega
        subst this
        rw [Function.update_same, hz]
    refine ⟨hlen, hbuf, ?_⟩
    unfold TextAreaWidget.text
    rw [List.range_eq_range']
    exact takeWhile_agree t.buf _ t.len hz hbuf 256 0 (Nat.zero_le _)
  · simp only [TextAreaWidget.length] at h
    simp [TextAreaWidget.deleteChar, TextAreaWidget.clear, h]

theorem text_area_invariant_witness :
    (((TextAreaWidget.init (fun _ => 7)).appendChar 65).1.appendChar 66).1.deleteChar.1.text
        = ((TextAreaWidget.init (fun _ => 7)).appendChar 65).1.text ∧
    ((TextAreaWidget.init (fun _ => 7)).appendChar 65).1.text = [65] ∧
    ((TextAreaWidget.init (fun _ => 7)).run
        [.appendChar 65, .appendChar 66, .deleteChar, .clear, .deleteChar]).length ≤ 255 ∧
    (TextAreaWidget.init (fun _ => 7)).deleteChar.2 = false :=
  ⟨(text_area_invariant.2.2.1 ((TextAreaWidget.init (fun _ => 7)).appendChar 65).1 66
      (by decide) (by decide)).2.2,
    by decide,
    (text_area_invariant.1 (fun _ => 7)
      [.appendChar 65, .appendChar 66, .deleteChar, .clear, .deleteChar]).1,
    congrArg Prod.snd ((text_area_invariant.2.2.2 (TextAreaWidget.init (fun _ => 7)) rfl).1)⟩

/-! ## C31: `sync()` of the bindable widgets -/

/-- C31 as stated fails. A `SwitchWidget` that is off is bound to a cell constructed
with the initial value `true` and never changed since: the generation of the cell is 0,
which is also the `_last_gen` that `bind` stores, so `sync()` does nothing and the switch
is still off, while the cell holds `true`. -/
theorem sync_pulls_value_counterexample :
    (SwitchWidget.sync (Bound.bind ⟨false, false, 0⟩) (State.init true)).1.members = false ∧
    (SwitchWidget.sync (Bound.bind ⟨false, false, 0⟩) (State.init true)).2 = false ∧
    (State.init true).get = true ∧ (State.init true).generation = 0 := by
  decide

/-- C31, as amended. The `sync()` of a bindable widget pulls the cell only when the
widget is bound and the generation of the cell differs from the generation the widget
observed last (0 right after `bind`): then the setter of the class runs with the current
value of the cell and the observed generation becomes that of the cell; otherwise
`sync()` changes nothing. After a pull the value of the widget is the value of the cell as
the setter stores it: the value itself for `SwitchWidget`, `CheckboxWidget`, `TextWidget`
and `ValueWidget`, the converted value for `BatteryWidget`, and the converted value
clamped into the range for `SliderWidget` and `ProgressBarWidget`. -/
theorem sync_pulls_value {M C : Type} (set : M → C → M × Bool) (w : Bound M)
    (cell : State C) :
    (w.bound = true → cell.generation ≠ w.last_gen →
      (Bound.sync set w cell).1.members = (set w.members cell.get).1 ∧
      (Bound.sync set w cell).1.last_gen = cell.generation ∧
      (Bound.sync set w cell).2 = (set w.members cell.get).2) ∧
    (w.bound = false ∨ cell.generation = w.last_gen → Bound.sync set w cell = (w, false)) ∧
    (∀ cur v : Bool, (SwitchWidget.setOn cur v).1 = v) ∧
    (∀ cur v : Bool, (CheckboxWidget.setChecked cur v).1 = v) ∧
    (∀ cur v : Nat, (TextWidget.setText cur v).1 = v) ∧
    (∀ cur v : Int, (BatteryWidget.setVoltage cur v).1 = v) ∧
    (∀ (s : SliderWidget) (v : Int), (s.setValue v).1.value = constrain v s.min s.max) ∧
    (∀ (p : ProgressBarWidget) (v : Int), (p.setValue v).1.value = constrain v 0 p.max) ∧
    (∀ (F : Type) (_ : DecidableEq F) (render : F → List Nat) (x : ValueWidget F) (v : F),
      (ValueWidget.assign render x v).1.val = v) := by
  refine ⟨fun hb hg => ?_, fun h => ?_, fun cur v => ?_, fun cur v => ?_, fun cur v => ?_,
    fun cur v => ?_, fun s v => (slider_setValue_spec s v).1,
    fun p v => (progressBar_setValue_spec p v).1, fun F _ render x v => ?_⟩
  · simp [Bound.sync, hb, hg]
  · rcases h with h | h
    · simp [Bound.sync, h]
    · simp [Bound.sync, h]
  · unfold SwitchWidget.setOn
    split <;> simp_all
  · unfold CheckboxWidget.setChecked
    split <;> simp_all
  · unfold TextWidget.setText
    split <;> simp_all
  · unfold BatteryWidget.setVoltage
    split <;> simp_all
  · unfold ValueWidget.assign
    split
    · rename_i h
      exact h.1.symm
    · rfl

theorem sync_pulls_value_witness :
    (SwitchWidget.sync (Bound.bind ⟨false, false, 0⟩) ⟨true, 3⟩).1.members = true ∧
    (SwitchWidget.sync (Bound.bind ⟨false, false, 0⟩) ⟨true, 3⟩).1.last_gen = 3 ∧
    SwitchWidget.sync ⟨false, true, 3⟩ ⟨true, 3⟩ = (⟨false, true, 3⟩, false) :=
  ⟨((sync_pulls_value SwitchWidget.setOn (Bound.bind ⟨false, false, 0⟩) ⟨true, 3⟩).1 rfl
      (by decide)).1.trans (by decide),
    ((sync_pulls_value SwitchWidget.setOn (Bound.bind ⟨false, false, 0⟩) ⟨true, 3⟩).1 rfl
      (by decide)).2.1,
    (sync_pulls_value SwitchWidget.setOn ⟨false, true, 3⟩ ⟨true, 3⟩).2.1 (Or.inr rfl)⟩

/-! ## C38: what `collectDirtyRects` yields -/

mutual

theorem damageLeaves_eq_preorder :
    ∀ (w : Widget) (anc : Bool),
      (w.preorderNodes anc).filterMap damageOf = if anc then w.damageLeaves else []
  | .leaf b k, anc => by
      cases anc <;> cases hv : b.visible <;> cases hd : b.dirty <;>
        simp [Widget.preorderNodes, damageOf, Widget.damageLeaves, Widget.isDirty,
          Widget.isLayout, Widget.isVisible, Widget.base, Widget.bounds, hv, hd]
  | .composite b kind cfg cs, anc => by
      have h := damageLeavesOf_eq_preorder cs (anc && b.visible)
      simp only [Widget.preorderNodes, List.filterMap_cons, h, Widget.damageLeaves]
      cases anc <;> cases hv : b.visible <;>
        simp [damageOf, Widget.isLayout]

theorem damageLeavesOf_eq_preorder :
    ∀ (cs : List Widget) (anc : Bool),
      (Widget.preorderNodesOf cs anc).filterMap damageOf =
        if anc then Widget.damageLeavesOf cs else []
  | [], anc => by cases anc <;> simp [Widget.preorderNodesOf, Widget.damageLeavesOf]
  | w :: ws, anc => by
      simp only [Widget.preorderNodesOf, List.filterMap_append,
        damageLeaves_eq_preorder w anc, damageLeavesOf_eq_preorder ws anc,
        Widget.damageLeavesOf]
      cases anc <;> simp

end

mutual

theorem damageLeaves_applyAt_sublist (f : Widget → Widget × Bool)
    (hf : ∀ n, ((f n).1.damageLeaves).Sublist n.damageLeaves) :
    ∀ (root : Widget) (path : List Nat),
      ((Widget.applyAt f root path).1.damageLeaves).Sublist root.damageLeaves
  | .leaf b k, [] => by simpa only [Widget.applyAt] using hf (.leaf b k)
  | .composite b kind cfg cs, [] => by
      simpa only [Widget.applyAt] using hf (.composite b kind cfg cs)
  | .leaf b k, _ :: _ => by simp only [Widget.applyAt]; exact List.Sublist.refl _
  | .composite b kind cfg cs, i :: path => by
      have h := damageLeavesOf_applyAtChild_sublist f hf cs i path
      simp only [Widget.applyAt, Widget.damageLeaves]
      have hvis : (if (Widget.applyAtChild f cs i path).2 = true then b.markDirty else b).visible
          = b.visible := by
        split <;> simp [WidgetBase.markDirty]
      rw [hvis]
      split
      · exact h
      · exact List.Sublist.refl _

theorem damageLeavesOf_applyAtChild_sublist (f : Widget → Widget × Bool)
    (hf : ∀ n, ((f n).1.damageLeaves).Sublist n.damageLeaves) :
    ∀ (cs : List Widget) (i : Nat) (path : List Nat),
      (Widget.damageLeavesOf (Widget.applyAtChild f cs i path).1).Sublist
        (Widget.damageLeavesOf cs)
  | [], _, _ => by simp only [Widget.applyAtChild]; exact List.Sublist.refl _
  | w :: ws, 0, path => by
      simp only [Widget.applyAtChild, Widget.damageLeavesOf]
      exact List.Sublist.append (damageLeaves_applyAt_sublist f hf w path)
        (List.Sublist.refl _)
  | w :: ws, i + 1, path => by
      simp only [Widget.applyAtChild, Widget.damageLeavesOf]
      exact List.Sublist.append (List.Sublist.refl _)
        (damageLeavesOf_applyAtChild_sublist f hf ws i path)

end

mutual

theorem damageLeaves_applyAt_eq (f : Widget → Widget × Bool)
    (hf : ∀ n, (f n).1.damageLeaves = n.damageLeaves) :
    ∀ (root : Widget) (path : List Nat),
      (Widget.applyAt f root path).1.damageLeaves = root.damageLeaves
  | .leaf b k, [] => by simpa only [Widget.applyAt] using hf (.leaf b k)
  | .composite b kind cfg cs, [] => by
      simpa only [Widget.applyAt] using hf (.composite b kind cfg cs)
  | .leaf b k, _ :: _ => by simp only [Widget.applyAt]
  | .composite b kind cfg cs, i :: path => by
      have h := damageLeavesOf_applyAtChild_eq f hf cs i path
      simp only [Widget.applyAt, Widget.damageLeaves]
      have hvis : (if (Widget.applyAtChild f cs i path).2 = true then b.markDirty else b).visible
          = b.visible := by
        split <;> simp [WidgetBase.markDirty]
      rw [hvis, h]

theorem damageLeavesOf_applyAtChild_eq (f : Widget → Widget × Bool)
    (hf : ∀ n, (f n).1.damageLeaves = n.damageLeaves) :
    ∀ (cs : List Widget) (i : Nat) (path : List Nat),
      Widget.damageLeavesOf (Widget.applyAtChild f cs i path).1 = Widget.damageLeavesOf cs
  | [], _, _ => by simp only [Widget.applyAtChild]
  | w :: ws, 0, path => by
      simp only [Widget.applyAtChild, Widget.damageLeavesOf,
        damageLeaves_applyAt_eq f hf w path]
  | w :: ws, i + 1, path => by
      simp only [Widget.applyAtChild, Widget.damageLeavesOf,
        damageLeavesOf_applyAtChild_eq f hf ws i path]

end

theorem setVisible_false_damage (n : Widget) :
    ((n.setVisible false).1.damageLeaves).Sublist n.damageLeaves := by
  unfold Widget.setVisible
  split
  · cases n <;> simp [Widget.setBase, Widget.damageLeaves, WidgetBase.markDirty]
  · exact List.Sublist.refl _

theorem layoutSetter_damage (n : Widget) (c : Nat) (p : EdgeInsets) (s : Int) :
    (Layout.setBackground c n).1.damageLeaves = n.damageLeaves ∧
    (Layout.setPadding p n).1.damageLeaves = n.damageLeaves ∧
    (Layout.setSpacing s n).1.damageLeaves = n.damageLeaves := by
  cases n <;>
    simp [Layout.setBackground, Layout.setPadding, Layout.setSpacing, Widget.damageLeaves,
      WidgetBase.markDirty]

theorem collect_nil_of_sublist (a b : Widget)
    (hs : (a.damageLeaves).Sublist b.damageLeaves)
    (hb : Screen.collectDirtyRects b [] = []) : Screen.collectDirtyRects a [] = [] := by
  rw [collectDirtyRects_eq b [] (by simp), List.nil_append] at hb
  have hbn : b.damageLeaves = [] := by
    cases hl : b.damageLeaves with
    | nil => rfl
    | cons x xs => rw [hl] at hb; simp [MAX_DIRTY_RECTS] at hb
  rw [hbn] at hs
  rw [collectDirtyRects_eq a [] (by simp), List.nil_append, List.sublist_nil.mp hs]
  rfl

/-- C38. `collectDirtyRects` yields, truncated to the first `MAX_DIRTY_RECTS = 8`, the
bounds of the nodes that are dirty, not layouts, visible, and have only visible ancestors,
in pre-order; a dirty node that is invisible or lies under an invisible ancestor, and a
dirty layout, contribute no rect. So `setVisible(false)` on any node and
`setBackground`, `setPadding`, `setSpacing` on a layout add no rect to that list, and on a
tree from which nothing was collected nothing is collected afterwards. -/
theorem collect_dirty_rects (root : Widget) :
    Screen.collectDirtyRects root [] =
      ((root.preorderNodes true).filterMap damageOf).take MAX_DIRTY_RECTS ∧
    (∀ p : Widget × Bool,
      (p.1.isVisible = false ∨ p.2 = false ∨ p.1.isLayout = true ∨ p.1.isDirty = false) →
      damageOf p = none) ∧
    (∀ (path : List Nat) (c : Nat) (pad : EdgeInsets) (s : Int),
      (((Widget.applyAt (fun n => n.setVisible false) root path).1.preorderNodes
        true).filterMap damageOf).Sublist ((root.preorderNodes true).filterMap damageOf) ∧
      ((Widget.applyAt (Layout.setBackground c) root path).1.preorderNodes
        true).filterMap damageOf = (root.preorderNodes true).filterMap damageOf ∧
      ((Widget.applyAt (Layout.setPadding pad) root path).1.preorderNodes
        true).filterMap damageOf = (root.preorderNodes true).filterMap damageOf ∧
      ((Widget.applyAt (Layout.setSpacing s) root path).1.preorderNodes
        true).filterMap damageOf = (root.preorderNodes true).filterMap damageOf) ∧
    (Screen.collectDirtyRects root [] = [] →
      ∀ (path : List Nat) (c : Nat) (pad : EdgeInsets) (s : Int),
        Screen.collectDirtyRects
          (Widget.applyAt (fun n => n.setVisible false) root path).1 [] = [] ∧
        Screen.collectDirtyRects (Widget.applyAt (Layout.setBackground c) root path).1 []
          = [] ∧
        Screen.collectDirtyRects (Widget.applyAt (Layout.setPadding pad) root path).1 []
          = [] ∧
        Screen.collectDirtyRects (Widget.applyAt (Layout.setSpacing s) root path).1 []
          = []) := by
  have hpre : ∀ w : Widget, (w.preorderNodes true).filterMap damageOf = w.damageLeaves :=
    fun w => by rw [damageLeaves_eq_preorder w true]; rfl
  have hvis := fun path => damageLeaves_applyAt_sublist (fun n => n.setVisible false)
    setVisible_false_damage root path
  have hbg := fun c path => damageLeaves_applyAt_sublist (Layout.setBackground c)
    (fun n => by rw [(layoutSetter_damage n c {} 0).1]) root path
  have hpad := fun pad path => damageLeaves_applyAt_sublist (Layout.setPadding pad)
    (fun n => by rw [(layoutSetter_damage n 0 pad 0).2.1]) root path
  have hsp := fun s path => damageLeaves_applyAt_sublist (Layout.setSpacing s)
    (fun n => by rw [(layoutSetter_damage n 0 {} s).2.2]) root path
  refine ⟨?_, fun p h => ?_, fun path c pad s => ⟨?_, ?_, ?_, ?_⟩,
    fun h0 path c pad s => ⟨?_, ?_, ?_, ?_⟩⟩
  · rw [hpre, collectDirtyRects_eq root [] (by simp), List.nil_append]
  · unfold damageOf
    rcases h with h | h | h | h <;> simp [h]
  · rw [hpre, hpre]; exact hvis path
  · rw [hpre, hpre]
    exact damageLeaves_applyAt_eq _ (fun n => (layoutSetter_damage n c pad s).1) root path
  · rw [hpre, hpre]
    exact damageLeaves_applyAt_eq _ (fun n => (layoutSetter_damage n c pad s).2.1) root path
  · rw [hpre, hpre]
    exact damageLeaves_applyAt_eq _ (fun n => (layoutSetter_damage n c pad s).2.2) root path
  · exact collect_nil_of_sublist _ _ (hvis path) h0
  · exact collect_nil_of_sublist _ _ (hbg c path) h0
  · exact collect_nil_of_sublist _ _ (hpad pad path) h0
  · exact collect_nil_of_sublist _ _ (hsp s path) h0

theorem collect_dirty_rects_witness :
    Screen.collectDirtyRects qualityRoot [] = [⟨10, 10, 60, 30⟩] ∧
    Screen.collectDirtyRects
      (Widget.applyAt (fun n => n.setVisible false) qualityRoot [0]).1 [] = [] ∧
    Screen.collectDirtyRects
      (Widget.applyAt (fun n => n.setVisible false) nestedClean [0, 1]).1 [] = [] ∧
    Screen.collectDirtyRects (Widget.applyAt (Layout.setBackground 0) nestedClean [0]).1 []
      = [] :=
  ⟨(collect_dirty_rects qualityRoot).1.trans (by decide), by decide,
    ((collect_dirty_rects nestedClean).2.2.2 (by decide) [0, 1] 0 {} 0).1,
    ((collect_dirty_rects nestedClean).2.2.2 (by decide) [0] 0 {} 0).2.1⟩

/-! ## C36: the overflow fallback -/

/-- When the left-over space is not positive, the `switch (_arrangement)` gives CENTER,
END and SPACE_BETWEEN the starting cursor and the gap of START. -/
theorem arrangeMain_overflow (a : Arrangement) (ha : a = .CENTER ∨ a = .END ∨ a = .SPACE_BETWEEN)
    (g o sz ps pe S : Int) (n : Nat) (hn : 1 ≤ n) (hg : inInt16 g)
    (h1 : inInt16 (g * ((n : Int) - 1)))
    (h2 : inInt16 (sz - ps - pe - S - g * ((n : Int) - 1)))
    (h3 : sz - ps - pe - S - g * ((n : Int) - 1) ≤ 0) :
    arrangeMain a g o sz ps pe (wrap16 S) n = arrangeMain .START g o sz ps pe (wrap16 S) n := by
  have hex : extraSpace sz ps pe (wrap16 S) (g * ((n : Int) - 1)) = 0 := by
    rw [extraSpace_eq _ _ _ _ _ h2]
    exact max_eq_left h3
  rcases ha with rfl | rfl | rfl
  · simp only [arrangeMain, totalSpacing_eq g n hn h1, hex, Int.zero_tdiv, Int.add_zero,
      wrap16_add_wrap16_left]
    rw [wrap16_of_inInt16 (inInt16_wrap16 _)]
  · simp only [arrangeMain, totalSpacing_eq g n hn h1, hex, Int.add_zero,
      wrap16_add_wrap16_left]
    rw [wrap16_of_inInt16 (inInt16_wrap16 _)]
  · simp only [arrangeMain, totalSpacing_eq g n hn h1, hex, Int.zero_add]
    split
    · rename_i hgt
      have hne : ((n : Int) - 1) ≠ 0 := by omega
      rw [Int.mul_tdiv_cancel _ hne, wrap16_of_inInt16 hg]
    · rfl

/-- C36. Overflow fallback: for a `Column` or `Row` with `n ≥ 1` visible children whose
left-over main-axis space (content main size minus the cached main sizes of the visible
children minus `spacing * (n - 1)`) is not positive, `layout()` under CENTER, END and
SPACE_BETWEEN leaves every child exactly as `layout()` under START does, so every
visible child gets the same rect (the spacing, `spacing * (n - 1)` and the left-over
space being assumed to fit an `int16_t`). -/
theorem overflow_fallback (b : WidgetBase) (kind : LayoutKind) (hkind : kind ≠ .stack)
    (cfg : LayoutData) (cs : List Widget)
    (harr : cfg.arrangement = .CENTER ∨ cfg.arrangement = .END ∨
      cfg.arrangement = .SPACE_BETWEEN)
    (hn : 1 ≤ visibleCount cs) (hg : inInt16 cfg.spacing)
    (h1 : inInt16 (cfg.spacing * ((visibleCount cs : Int) - 1)))
    (h2 : inInt16 (spareSpace kind b.bounds cfg cs))
    (h3 : spareSpace kind b.bounds cfg cs ≤ 0) :
    (Widget.layout (.composite b kind cfg cs)).1.children =
      (Widget.layout (.composite b kind { cfg with arrangement := .START } cs)).1.children ∧
    ∀ k, (Widget.composite b kind cfg cs).placedBounds k =
      (Widget.composite b kind { cfg with arrangement := .START } cs).placedBounds k := by
  have hch : (Widget.layout (.composite b kind cfg cs)).1.children =
      (Widget.layout (.composite b kind { cfg with arrangement := .START } cs)).1.children := by
    apply layout_children_congr b kind hkind cfg .START cs
    rw [visibleCount_eq]
    exact arrangeMain_overflow cfg.arrangement harr cfg.spacing _ _ _ _ _ _ hn hg h1 h2 h3
  refine ⟨hch, fun k => ?_⟩
  unfold Widget.placedBounds
  rw [hch]

theorem overflow_fallback_witness :
    (Widget.layout (.composite ⟨⟨10, 20, 300, 80⟩, false, true⟩ .column
        (mixedCfg .START .SPACE_BETWEEN) mixedChildren)).1.children =
      (Widget.layout (.composite ⟨⟨10, 20, 300, 80⟩, false, true⟩ .column
        { mixedCfg .START .SPACE_BETWEEN with arrangement := .START } mixedChildren)).1.children ∧
    (Widget.composite ⟨⟨10, 20, 300, 80⟩, false, true⟩ .column
        (mixedCfg .START .SPACE_BETWEEN) mixedChildren).placedBounds 3 =
      some ⟨11, 80, 100, 40⟩ :=
  ⟨(overflow_fallback ⟨⟨10, 20, 300, 80⟩, false, true⟩ .column (by decide)
      (mixedCfg .START .SPACE_BETWEEN) mixedChildren (Or.inr (Or.inr rfl)) (by decide)
      (by decide) (by decide) (by decide) (by decide)).1,
    by decide⟩

/-! ## C32: the constraints passed to the children -/

theorem Widget.isVisible_transpose (w : Widget) : w.transpose.isVisible = w.isVisible := by
  cases w <;> rfl

theorem update_transpose (m : Nat → Size) (i : Nat) (s : Size) :
    (fun j => (Function.update m i s j).transpose) =
      Function.update (fun j => (m j).transpose) i s.transpose := by
  funext j
  by_cases h : j = i
  · subst h; simp
  · simp [Function.update_noteq h]

theorem spacer_measure_transpose (fw fh : Int) (c : Constraints) :
    (LeafKind.spacer fw fh).transpose.measure c.transpose =
      ((LeafKind.spacer fw fh).measure c).transpose := rfl

mutual

theorem measure_transpose :
    ∀ (w : Widget) (c : Constraints), w.transposable = true →
      Widget.measure w.transpose c.transpose =
        ((Widget.measure w c).1.transpose, (Widget.measure w c).2.transpose)
  | .leaf b k, c, h => by
      cases k with
      | spacer fw fh =>
          simp only [Widget.transpose, Widget.measure, spacer_measure_transpose]
      | _ => simp [Widget.transposable] at h
  | .composite b .column cfg cs, c, h => by
      simp only [Widget.transposable] at h
      have hl := column_measureLoop_transpose cfg.spacing
        (wrap16 (c.max_w - cfg.padding.left - cfg.padding.right)) c.max_h cs 0
        (wrap16 (cfg.padding.top + cfg.padding.bottom)) 0 cfg.measured h
      simp only [Widget.transpose, LayoutKind.transpose, Widget.measure, LayoutData.transpose,
        EdgeInsets.transpose, Constraints.transpose]
      rw [hl]
      rfl
  | .composite b .row cfg cs, c, h => by
      simp only [Widget.transposable] at h
      have hl := row_measureLoop_transpose cfg.spacing
        (wrap16 (c.max_h - cfg.padding.top - cfg.padding.bottom)) c.max_w cs 0
        (wrap16 (cfg.padding.left + cfg.padding.right)) 0 cfg.measured h
      simp only [Widget.transpose, LayoutKind.transpose, Widget.measure, LayoutData.transpose,
        EdgeInsets.transpose, Constraints.transpose]
      rw [hl]
      rfl
  | .composite b .stack cfg cs, c, h => by
      simp only [Widget.transposable] at h
      have hl := stack_measureLoop_transpose c cs 0 0 0 cfg.measured h
      simp only [Widget.transpose, LayoutKind.transpose, Widget.measure, LayoutData.transpose,
        EdgeInsets.transpose]
      rw [hl]
      rfl

theorem column_measureLoop_transpose (spacing content_w max_h : Int) :
    ∀ (cs : List Widget) (i : Nat) (total_h max_w : Int) (m : Nat → Size),
      Widget.transposableList cs = true →
      Row.measureLoop spacing content_w max_h (Widget.transposeList cs) i total_h max_w
          (fun j => (m j).transpose) =
        (Column.measureLoop spacing content_w max_h cs i total_h max_w m).transpose
  | [], _, _, _, _, _ => rfl
  | w :: ws, i, total_h, max_w, m, h => by
      simp only [Widget.transposableList, Bool.and_eq_true] at h
      simp only [Widget.transposeList, Row.measureLoop, Column.measureLoop,
        Widget.isVisible_transpose]
      split
      · rw [column_measureLoop_transpose spacing content_w max_h ws (i + 1) total_h max_w m h.2]
        rfl
      · have hm : Widget.measure w.transpose ⟨0, 0, wrap16 (max_h - total_h), content_w⟩ = _ :=
          measure_transpose w ⟨0, 0, content_w, wrap16 (max_h - total_h)⟩ h.1
        simp only [hm]
        rw [← update_transpose,
          column_measureLoop_transpose spacing content_w max_h ws (i + 1) _ _ _ h.2]
        rfl

theorem row_measureLoop_transpose (spacing content_h max_w : Int) :
    ∀ (cs : List Widget) (i : Nat) (total_w max_h : Int) (m : Nat → Size),
      Widget.transposableList cs = true →
      Column.measureLoop spacing content_h max_w (Widget.transposeList cs) i total_w max_h
          (fun j => (m j).transpose) =
        (Row.measureLoop spacing content_h max_w cs i total_w max_h m).transpose
  | [], _, _, _, _, _ => rfl
  | w :: ws, i, total_w, max_h, m, h => by
      simp only [Widget.transposableList, Bool.and_eq_true] at h
      simp only [Widget.transposeList, Row.measureLoop, Column.measureLoop,
        Widget.isVisible_transpose]
      split
      · rw [row_measureLoop_transpose spacing content_h max_w ws (i + 1) total_w max_h m h.2]
        rfl
      · have hm : Widget.measure w.transpose ⟨0, 0, content_h, wrap16 (max_w - total_w)⟩ = _ :=
          measure_transpose w ⟨0, 0, wrap16 (max_w - total_w), content_h⟩ h.1
        simp only [hm]
        rw [← update_transpose,
          row_measureLoop_transpose spacing content_h max_w ws (i + 1) _ _ _ h.2]
        rfl

theorem stack_measureLoop_transpose (c : Constraints) :
    ∀ (cs : List Widget) (i : Nat) (max_w max_h : Int) (m : Nat → Size),
      Widget.transposableList cs = true →
      Stack.measureLoop c.transpose (Widget.transposeList cs) i max_h max_w
          (fun j => (m j).transpose) =
        ⟨Widget.transposeList (Stack.measureLoop c cs i max_w max_h m).children,
          (Stack.measureLoop c cs i max_w max_h m).cross,
          (Stack.measureLoop c cs i max_w max_h m).total,
          fun j => ((Stack.measureLoop c cs i max_w max_h m).measured j).transpose⟩
  | [], _, _, _, _, _ => rfl
  | w :: ws, i, max_w, max_h, m, h => by
      simp only [Widget.transposableList, Bool.and_eq_true] at h
      simp only [Widget.transposeList, Stack.measureLoop, Widget.isVisible_transpose]
      split
      · rw [stack_measureLoop_transpose c ws (i + 1) max_w max_h m h.2]
        rfl
      · simp only [measure_transpose w c h.1]
        rw [← update_transpose, stack_measureLoop_transpose c ws (i + 1) _ _ _ h.2]
        rfl

end

theorem Widget.base_transpose (w : Widget) : w.transpose.base = w.base.transpose := by
  cases w <;> rfl

theorem Rect.transpose_injective (a b : Rect) : a.transpose = b.transpose ↔ a = b := by
  cases a; cases b
  simp only [Rect.transpose, Rect.mk.injEq]
  constructor
  · rintro ⟨h1, h2, h3, h4⟩; exact ⟨h2, h1, h4, h3⟩
  · rintro ⟨h1, h2, h3, h4⟩; exact ⟨h2, h1, h4, h3⟩

theorem WidgetBase.place_transpose (b : WidgetBase) (x y w h : Int) :
    b.transpose.place y x h w = ((b.place x y w h).1.transpose, (b.place x y w h).2) := by
  unfold WidgetBase.place
  have hiff : ((⟨y, x, h, w⟩ : Rect) ≠ b.transpose.bounds) ↔ ((⟨x, y, w, h⟩ : Rect) ≠ b.bounds) :=
    not_congr (Rect.transpose_injective ⟨x, y, w, h⟩ b.bounds)
  by_cases hb : (⟨x, y, w, h⟩ : Rect) ≠ b.bounds
  · simp only [if_pos (hiff.mpr hb), if_pos hb]
    rfl
  · simp only [if_neg (fun hc => hb (hiff.mp hc)), if_neg hb]

theorem column_countLoop_transpose (m : Nat → Size) :
    ∀ (cs : List Widget) (i : Nat) (t : Int) (v : Nat),
      Row.countLoop (fun j => (m j).transpose) (Widget.transposeList cs) i t v =
        Column.countLoop m cs i t v
  | [], _, _, _ => rfl
  | w :: ws, i, t, v => by
      simp only [Widget.transposeList, Row.countLoop, Column.countLoop,
        Widget.isVisible_transpose, Size.transpose]
      split
      · exact column_countLoop_transpose m ws (i + 1) t v
      · exact column_countLoop_transpose m ws (i + 1) _ _

theorem row_countLoop_transpose (m : Nat → Size) :
    ∀ (cs : List Widget) (i : Nat) (t : Int) (v : Nat),
      Column.countLoop (fun j => (m j).transpose) (Widget.transposeList cs) i t v =
        Row.countLoop m cs i t v
  | [], _, _, _ => rfl
  | w :: ws, i, t, v => by
      simp only [Widget.transposeList, Row.countLoop, Column.countLoop,
        Widget.isVisible_transpose, Size.transpose]
      split
      · exact row_countLoop_transpose m ws (i + 1) t v
      · exact row_countLoop_transpose m ws (i + 1) _ _

mutual

theorem layoutIn_transpose :
    ∀ (w : Widget) (b : WidgetBase),
      Widget.layoutIn w.transpose b.transpose =
        ((Widget.layoutIn w b).1.transpose, (Widget.layoutIn w b).2)
  | .leaf b0 k, b => rfl
  | .composite b0 .column cfg cs, b => by
      simp only [Widget.transpose, LayoutKind.transpose, Widget.layoutIn]
      have hc : Row.countLoop cfg.transpose.measured (Widget.transposeList cs) 0 0 0 =
          Column.countLoop cfg.measured cs 0 0 0 := column_countLoop_transpose cfg.measured cs 0 0 0
      rw [hc]
      have hl := column_layoutLoop_transpose b.bounds cfg
        (wrap16 (b.bounds.w - cfg.padding.left - cfg.padding.right))
        (arrangeMain cfg.arrangement cfg.spacing b.bounds.y b.bounds.h cfg.padding.top
          cfg.padding.bottom (Column.countLoop cfg.measured cs 0 0 0).1
          (Column.countLoop cfg.measured cs 0 0 0).2).2 cs 0
        (arrangeMain cfg.arrangement cfg.spacing b.bounds.y b.bounds.h cfg.padding.top
          cfg.padding.bottom (Column.countLoop cfg.measured cs 0 0 0).1
          (Column.countLoop cfg.measured cs 0 0 0).2).1
      exact (congrArg (fun r : List Widget × Bool =>
        (Widget.composite { b.transpose with dirty := b.transpose.dirty || r.2 } .row
          cfg.transpose r.1, r.2)) hl).trans rfl
  | .composite b0 .row cfg cs, b => by
      simp only [Widget.transpose, LayoutKind.transpose, Widget.layoutIn]
      have hc : Column.countLoop cfg.transpose.measured (Widget.transposeList cs) 0 0 0 =
          Row.countLoop cfg.measured cs 0 0 0 := row_countLoop_transpose cfg.measured cs 0 0 0
      rw [hc]
      have hl := row_layoutLoop_transpose b.bounds cfg
        (wrap16 (b.bounds.h - cfg.padding.top - cfg.padding.bottom))
        (arrangeMain cfg.arrangement cfg.spacing b.bounds.x b.bounds.w cfg.padding.left
          cfg.padding.right (Row.countLoop cfg.measured cs 0 0 0).1
          (Row.countLoop cfg.measured cs 0 0 0).2).2 cs 0
        (arrangeMain cfg.arrangement cfg.spacing b.bounds.x b.bounds.w cfg.padding.left
          cfg.padding.right (Row.countLoop cfg.measured cs 0 0 0).1
          (Row.countLoop cfg.measured cs 0 0 0).2).1
      exact (congrArg (fun r : List Widget × Bool =>
        (Widget.composite { b.transpose with dirty := b.transpose.dirty || r.2 } .column
          cfg.transpose r.1, r.2)) hl).trans rfl
  | .composite b0 .stack cfg cs, b => by
      simp only [Widget.transpose, LayoutKind.transpose, Widget.layoutIn]
      have hl := stack_layoutLoop_transpose (wrap16 (b.bounds.x + cfg.padding.left))
        (wrap16 (b.bounds.y + cfg.padding.top))
        (wrap16 (b.bounds.w - cfg.padding.left - cfg.padding.right))
        (wrap16 (b.bounds.h - cfg.padding.top - cfg.padding.bottom)) cs
      exact (congrArg (fun r : List Widget × Bool =>
        (Widget.composite { b.transpose with dirty := b.transpose.dirty || r.2 } .stack
          cfg.transpose r.1, r.2)) hl).trans rfl

theorem column_layoutLoop_transpose (bounds : Rect) (cfg : LayoutData) (avail gap : Int) :
    ∀ (cs : List Widget) (i : Nat) (cursor : Int),
      Row.layoutLoop bounds.transpose cfg.transpose avail gap (Widget.transposeList cs) i cursor =
        (Widget.transposeList (Column.layoutLoop bounds cfg avail gap cs i cursor).1,
          (Column.layoutLoop bounds cfg avail gap cs i cursor).2)
  | [], _, _ => rfl
  | w :: ws, i, cursor => by
      simp only [Widget.transposeList, Row.layoutLoop, Column.layoutLoop,
        Widget.isVisible_transpose]
      split
      · rw [column_layoutLoop_transpose bounds cfg avail gap ws (i + 1) cursor]
        rfl
      · have hp := WidgetBase.place_transpose w.base
          (alignCross cfg.cross_align (wrap16 (bounds.x + cfg.padding.left)) avail
            (cfg.measured i).w).1 cursor
          (alignCross cfg.cross_align (wrap16 (bounds.x + cfg.padding.left)) avail
            (cfg.measured i).w).2 (cfg.measured i).h
        rw [← Widget.base_transpose] at hp
        have hp' : w.transpose.base.place cursor
            (alignCross cfg.transpose.cross_align
              (wrap16 (bounds.transpose.y + cfg.transpose.padding.top)) avail
              (cfg.transpose.measured i).h).1 (cfg.transpose.measured i).w
            (alignCross cfg.transpose.cross_align
              (wrap16 (bounds.transpose.y + cfg.transpose.padding.top)) avail
              (cfg.transpose.measured i).h).2 = _ := hp
        rw [hp']
        simp only
        rw [layoutIn_transpose w, column_layoutLoop_transpose bounds cfg avail gap ws (i + 1)]
        rfl

theorem row_layoutLoop_transpose (bounds : Rect) (cfg : LayoutData) (avail gap : Int) :
    ∀ (cs : List Widget) (i : Nat) (cursor : Int),
      Column.layoutLoop bounds.transpose cfg.transpose avail gap (Widget.transposeList cs) i
          cursor =
        (Widget.transposeList (Row.layoutLoop bounds cfg avail gap cs i cursor).1,
          (Row.layoutLoop bounds cfg avail gap cs i cursor).2)
  | [], _, _ => rfl
  | w :: ws, i, cursor => by
      simp only [Widget.transposeList, Row.layoutLoop, Column.layoutLoop,
        Widget.isVisible_transpose]
      split
      · rw [row_layoutLoop_transpose bounds cfg avail gap ws (i + 1) cursor]
        rfl
      · have hp := WidgetBase.place_transpose w.base cursor
          (alignCross cfg.cross_align (wrap16 (bounds.y + cfg.padding.top)) avail
            (cfg.measured i).h).1 (cfg.measured i).w
          (alignCross cfg.cross_align (wrap16 (bounds.y + cfg.padding.top)) avail
            (cfg.measured i).h).2
        rw [← Widget.base_transpose] at hp
        have hp' : w.transpose.base.place
            (alignCross cfg.transpose.cross_align
              (wrap16 (bounds.transpose.x + cfg.transpose.padding.left)) avail
              (cfg.transpose.measured i).w).1 cursor
            (alignCross cfg.transpose.cross_align
              (wrap16 (bounds.transpose.x + cfg.transpose.padding.left)) avail
              (cfg.transpose.measured i).w).2 (cfg.transpose.measured i).h = _ := hp
        rw [hp']
        simp only
        rw [layoutIn_transpose w, row_layoutLoop_transpose bounds cfg avail gap ws (i + 1)]
        rfl

theorem stack_layoutLoop_transpose (cx cy cw ch : Int) :
    ∀ (cs : List Widget),
      Stack.layoutLoop cy cx ch cw (Widget.transposeList cs) =
        (Widget.transposeList (Stack.layoutLoop cx cy cw ch cs).1,
          (Stack.layoutLoop cx cy cw ch cs).2)
  | [] => rfl
  | w :: ws => by
      simp only [Widget.transposeList, Stack.layoutLoop, Widget.isVisible_transpose]
      split
      · rw [stack_layoutLoop_transpose cx cy cw ch ws]
        rfl
      · have hp := WidgetBase.place_transpose w.base cx cy cw ch
        rw [← Widget.base_transpose] at hp
        rw [hp]
        simp only
        rw [layoutIn_transpose w, stack_layoutLoop_transpose cx cy cw ch ws]
        rfl

end

theorem Widget.children_transpose (w : Widget) :
    w.transpose.children = Widget.transposeList w.children := by
  cases w <;> rfl

theorem Widget.bounds_transpose (w : Widget) : w.transpose.bounds = w.bounds.transpose := by
  cases w <;> rfl

theorem transposeList_getElem? :
    ∀ (cs : List Widget) (k : Nat),
      (Widget.transposeList cs)[k]? = cs[k]?.map Widget.transpose
  | [], _ => by simp [Widget.transposeList]
  | w :: ws, 0 => by simp [Widget.transposeList]
  | w :: ws, k + 1 => by
      simp only [Widget.transposeList, List.getElem?_cons_succ]
      exact transposeList_getElem? ws k

theorem placedBounds_transpose (n : Widget) (k : Nat) :
    n.transpose.placedBounds k = (n.placedBounds k).map Rect.transpose := by
  unfold Widget.placedBounds Widget.layout
  rw [Widget.base_transpose, layoutIn_transpose, Widget.children_transpose,
    transposeList_getElem?]
  cases (n.layoutIn n.base).1.children[k]? with
  | none => rfl
  | some w => simp [Widget.bounds_transpose]

/-- C35. `Row` is `Column` with the axes exchanged. For every configuration (bounds,
padding, spacing, cached sizes, Align, Arrangement, children of any kind, visibility)
`Row::layout` on the transposed input places every child at the transpose of the rect
that `Column::layout` gives it, and leaves the whole tree the transpose of what
`Column::layout` leaves. For every constraints and all children built from `Column`,
`Row`, `Stack` and `Spacer` (the leaf whose transposition is again a widget),
`Row::measure` on the transposed input returns the transpose of the `Size` that
`Column::measure` returns and caches the transposed sizes. The same holds with `Row` and
`Column` exchanged. -/
theorem row_is_transposed_column (b : WidgetBase) (cfg : LayoutData) (cs : List Widget) :
    (∀ k, (Widget.composite b.transpose .row cfg.transpose
        (Widget.transposeList cs)).placedBounds k =
      ((Widget.composite b .column cfg cs).placedBounds k).map Rect.transpose) ∧
    (Widget.layout (.composite b.transpose .row cfg.transpose (Widget.transposeList cs))).1 =
      (Widget.layout (.composite b .column cfg cs)).1.transpose ∧
    (∀ k, (Widget.composite b.transpose .column cfg.transpose
        (Widget.transposeList cs)).placedBounds k =
      ((Widget.composite b .row cfg cs).placedBounds k).map Rect.transpose) ∧
    (∀ c : Constraints, Widget.transposableList cs = true →
      (Widget.measure (.composite b.transpose .row cfg.transpose (Widget.transposeList cs))
          c.transpose).1 = (Widget.measure (.composite b .column cfg cs) c).1.transpose ∧
      (Widget.measure (.composite b.transpose .row cfg.transpose (Widget.transposeList cs))
          c.transpose).2 = (Widget.measure (.composite b .column cfg cs) c).2.transpose ∧
      (Widget.measure (.composite b.transpose .column cfg.transpose (Widget.transposeList cs))
          c.transpose).1 = (Widget.measure (.composite b .row cfg cs) c).1.transpose) := by
  refine ⟨fun k => placedBounds_transpose (.composite b .column cfg cs) k, ?_,
    fun k => placedBounds_transpose (.composite b .row cfg cs) k, fun c h => ⟨?_, ?_, ?_⟩⟩
  · have := layoutIn_transpose (.composite b .column cfg cs) b
    exact congrArg Prod.fst this
  · exact congrArg Prod.fst (measure_transpose (.composite b .column cfg cs) c h)
  · exact congrArg Prod.snd (measure_transpose (.composite b .column cfg cs) c h)
  · exact congrArg Prod.fst (measure_transpose (.composite b .row cfg cs) c h)

theorem row_is_transposed_column_witness :
    (Widget.measure (.composite mixedBase.transpose .row (mixedCfg .CENTER .SPACE_EVENLY).transpose
        (Widget.transposeList mixedChildren)) (Constraints.transpose ⟨0, 0, 200, 300⟩)).1 =
      (Widget.measure (.composite mixedBase .column (mixedCfg .CENTER .SPACE_EVENLY)
        mixedChildren) ⟨0, 0, 200, 300⟩).1.transpose ∧
    (Widget.composite mixedBase.transpose .row (mixedCfg .CENTER .SPACE_EVENLY).transpose
        (Widget.transposeList mixedChildren)).placedBounds 2 = some ⟨92, 109, 30, 100⟩ ∧
    (Widget.composite mixedBase .column (mixedCfg .CENTER .SPACE_EVENLY)
        mixedChildren).placedBounds 2 = some ⟨109, 92, 100, 30⟩ :=
  ⟨((row_is_transposed_column mixedBase (mixedCfg .CENTER .SPACE_EVENLY) mixedChildren).2.2.2
      ⟨0, 0, 200, 300⟩ (by decide)).1,
    by decide, by decide⟩

/-! ## C34: children that fit stay inside the content box, in order -/

/-- Truncating division of a non-negative number by a positive one: the quotient is
non-negative, at most the dividend, and its product with the divisor is at most the
dividend. -/
theorem tdiv_bounds (a d : Int) (ha : 0 ≤ a) (hd : 0 < d) :
    0 ≤ Int.tdiv a d ∧ Int.tdiv a d ≤ a ∧ Int.tdiv a d * d ≤ a := by
  rw [Int.tdiv_eq_ediv ha (le_of_lt hd)]
  exact ⟨Int.ediv_nonneg ha (le_of_lt hd), Int.ediv_le_self d ha,
    Int.ediv_mul_le a (ne_of_gt hd)⟩

/-- The `switch (_arrangement)` when the children fit: for each of the five arrangements
the starting cursor is at or after the content start, the gap is non-negative, and the
cursor plus the children plus the gaps between them ends at or before the content end. -/
theorem arrangeMain_fits (a : Arrangement) (g o sz ps pe S : Int) (n : Nat) (hn : 1 ≤ n)
    (hg : 0 ≤ g) (hS : 0 ≤ S)
    (hsp : 0 ≤ sz - ps - pe - S - g * ((n : Int) - 1)) (hc : sz - ps - pe ≤ 32767) :
    ∃ start gap, arrangeMain a g o sz ps pe (wrap16 S) n = (wrap16 start, gap) ∧
      o + ps ≤ start ∧ 0 ≤ gap ∧
      start + S + gap * ((n : Int) - 1) ≤ o + ps + (sz - ps - pe) := by
  have hn1 : (0 : Int) ≤ (n : Int) - 1 := by omega
  have hgn : 0 ≤ g * ((n : Int) - 1) := mul_nonneg hg hn1
  have h1 : inInt16 (g * ((n : Int) - 1)) := by unfold inInt16; omega
  have h2 : inInt16 (sz - ps - pe - S - g * ((n : Int) - 1)) := by unfold inInt16; omega
  have hts := totalSpacing_eq g n hn h1
  have hex : extraSpace sz ps pe (wrap16 S) (g * ((n : Int) - 1)) =
      sz - ps - pe - S - g * ((n : Int) - 1) := by
    rw [extraSpace_eq _ _ _ _ _ h2]
    exact max_eq_right hsp
  cases a with
  | START =>
      refine ⟨o + ps, g, ?_, le_refl _, hg, by omega⟩
      simp only [arrangeMain]
  | CENTER =>
      obtain ⟨q0, q1, -⟩ := tdiv_bounds (sz - ps - pe - S - g * ((n : Int) - 1)) 2 hsp
        (by decide)
      refine ⟨o + ps + Int.tdiv (sz - ps - pe - S - g * ((n : Int) - 1)) 2, g, ?_, by omega,
        hg, by omega⟩
      simp only [arrangeMain, hts, hex, wrap16_add_wrap16_left]
  | END =>
      refine ⟨o + ps + (sz - ps - pe - S - g * ((n : Int) - 1)), g, ?_, by omega, hg,
        by omega⟩
      simp only [arrangeMain, hts, hex, wrap16_add_wrap16_left]
  | SPACE_BETWEEN =>
      by_cases hgt : n > 1
      · have hd : (0 : Int) < (n : Int) - 1 := by omega
        obtain ⟨q0, q1, q2⟩ := tdiv_bounds
          (sz - ps - pe - S - g * ((n : Int) - 1) + g * ((n : Int) - 1)) ((n : Int) - 1)
          (by omega) hd
        simp only [arrangeMain, hts, hex, hgt, ↓reduceIte]
        generalize Int.tdiv (sz - ps - pe - S - g * ((n : Int) - 1) + g * ((n : Int) - 1))
          ((n : Int) - 1) = q at q0 q1 q2 ⊢
        have hw : wrap16 q = q := wrap16_of_inInt16 (by unfold inInt16; omega)
        rw [hw]
        exact ⟨o + ps, q, rfl, le_refl _, q0, by omega⟩
      · have hn' : n = 1 := by omega
        subst hn'
        refine ⟨o + ps, g, ?_, le_refl _, hg, by simp; omega⟩
        simp only [arrangeMain, gt_iff_lt, lt_self_iff_false, ↓reduceIte]
  | SPACE_EVENLY =>
      have hd : (0 : Int) < (n : Int) + 1 := by omega
      obtain ⟨q0, q1, q2⟩ := tdiv_bounds
        (sz - ps - pe - S - g * ((n : Int) - 1) + g * ((n : Int) - 1)) ((n : Int) + 1)
        (by omega) hd
      simp only [arrangeMain, hts, hex, gt_iff_lt, show 0 < n by omega, ↓reduceIte]
      generalize Int.tdiv (sz - ps - pe - S - g * ((n : Int) - 1) + g * ((n : Int) - 1))
        ((n : Int) + 1) = q at q0 q1 q2 ⊢
      have hw : wrap16 q = q := wrap16_of_inInt16 (by unfold inInt16; omega)
      rw [hw, wrap16_add_wrap16_left]
      refine ⟨o + ps + q, q, rfl, by omega, q0, ?_⟩
      have e : q * ((n : Int) + 1) = q + (q + q * ((n : Int) - 1)) := by ring
      omega

theorem slotsFrom_take_split (m : Nat → Size) :
    ∀ (cs : List Widget) (i j k : Nat) (c : Widget), j < k → cs[j]? = some c →
      c.isVisible = true →
      ∃ mid, ((slotsFrom m cs i).take k).filter (fun s => s.1) =
        ((slotsFrom m cs i).take j).filter (fun s => s.1) ++ (true, m (i + j)) :: mid
  | [], _, _, _, _, _, hc, _ => by simp at hc
  | _ :: _, _, j, 0, _, hjk, _, _ => absurd hjk (Nat.not_lt_zero j)
  | w :: ws, i, 0, k + 1, c, _, hc, hv => by
      simp only [List.getElem?_cons_zero, Option.some.injEq] at hc
      subst hc
      exact ⟨((slotsFrom m ws (i + 1)).take k).filter (fun s => s.1), by simp [slotsFrom, hv]⟩
  | w :: ws, i, j + 1, k + 1, c, hjk, hc, hv => by
      simp only [List.getElem?_cons_succ] at hc
      obtain ⟨mid, hmid⟩ := slotsFrom_take_split m ws (i + 1) j k c (by omega) hc hv
      refine ⟨mid, ?_⟩
      have e : i + 1 + j = i + (j + 1) := by omega
      rw [e] at hmid
      simp only [slotsFrom, List.take_succ_cons, List.filter_cons]
      split <;> simp [hmid]

theorem visibleMainBefore_split (kind : LayoutKind) (m : Nat → Size) (cs : List Widget)
    (j k : Nat) (c : Widget) (hjk : j < k) (hc : cs[j]? = some c) (hv : c.isVisible = true) :
    ∃ mid, visibleMainBefore kind m cs k =
      visibleMainBefore kind m cs j ++ kind.mainSize (m j) :: mid := by
  obtain ⟨mid, hmid⟩ := slotsFrom_take_split m cs 0 j k c hjk hc hv
  refine ⟨mid.map (fun s => kind.mainSize s.2), ?_⟩
  unfold visibleMainBefore
  rw [hmid]
  simp

theorem visibleMain_split (kind : LayoutKind) (m : Nat → Size) (cs : List Widget)
    (k : Nat) (c : Widget) (hc : cs[k]? = some c) (hv : c.isVisible = true) :
    ∃ rest, visibleMain kind m cs =
      visibleMainBefore kind m cs k ++ kind.mainSize (m k) :: rest := by
  have hk : k < cs.length := by
    by_contra hge
    rw [List.getElem?_eq_none (by omega)] at hc
    exact absurd hc (by simp)
  exact visibleMainBefore_split kind m cs k cs.length c hk hc hv

/-- The visible child in slot `k` lies between the starting cursor and the end of the
run of children, when the gap and the cached main sizes are non-negative. -/
theorem originAt_inside (kind : LayoutKind) (cfg : LayoutData) (cs : List Widget)
    (start gap : Int) (hgap : 0 ≤ gap)
    (hs : ∀ s ∈ visibleMain kind cfg.measured cs, 0 ≤ s)
    (k : Nat) (c : Widget) (hc : cs[k]? = some c) (hv : c.isVisible = true) :
    start ≤ originAt kind cfg cs start gap k ∧
    0 ≤ kind.mainSize (cfg.measured k) ∧
    originAt kind cfg cs start gap k + kind.mainSize (cfg.measured k) ≤
      start + (visibleMain kind cfg.measured cs).sum +
        gap * (((visibleMain kind cfg.measured cs).length : Int) - 1) := by
  obtain ⟨rest, hsplit⟩ := visibleMain_split kind cfg.measured cs k c hc hv
  rw [hsplit] at hs ⊢
  have hP : 0 ≤ (visibleMainBefore kind cfg.measured cs k).sum :=
    List.sum_nonneg (fun x hx => hs x (List.mem_append_left _ hx))
  have hR : 0 ≤ rest.sum :=
    List.sum_nonneg (fun x hx => hs x (List.mem_append_right _ (List.mem_cons_of_mem _ hx)))
  have hk : 0 ≤ kind.mainSize (cfg.measured k) :=
    hs _ (List.mem_append_right _ (List.mem_cons_self _ _))
  have hgP : 0 ≤ gap * ((visibleMainBefore kind cfg.measured cs k).length : Int) :=
    mul_nonneg hgap (Int.ofNat_nonneg _)
  have hgR : 0 ≤ gap * (rest.length : Int) := mul_nonneg hgap (Int.ofNat_nonneg _)
  unfold originAt
  rw [sum_map_add_const]
  simp only [List.sum_append, List.sum_cons, List.length_append, List.length_cons]
  have e : gap * ((((visibleMainBefore kind cfg.measured cs k).length + (rest.length + 1) :
      Nat) : Int) - 1) = gap * ((visibleMainBefore kind cfg.measured cs k).length : Int) +
      gap * (rest.length : Int) := by
    push_cast
    ring
  rw [e]
  refine ⟨by linarith, hk, by linarith⟩

/-- A later visible child starts at or after the far edge of an earlier one. -/
theorem originAt_order (kind : LayoutKind) (cfg : LayoutData) (cs : List Widget)
    (start gap : Int) (hgap : 0 ≤ gap)
    (hs : ∀ s ∈ visibleMain kind cfg.measured cs, 0 ≤ s)
    (j k : Nat) (cj ck : Widget) (hjk : j < k) (hcj : cs[j]? = some cj)
    (hvj : cj.isVisible = true) (hck : cs[k]? = some ck) (hvk : ck.isVisible = true) :
    originAt kind cfg cs start gap j + kind.mainSize (cfg.measured j) ≤
      originAt kind cfg cs start gap k := by
  obtain ⟨rest, hsplit⟩ := visibleMain_split kind cfg.measured cs k ck hck hvk
  obtain ⟨mid, hmid⟩ := visibleMainBefore_split kind cfg.measured cs j k cj hjk hcj hvj
  rw [hsplit, hmid] at hs
  have hM : 0 ≤ mid.sum :=
    List.sum_nonneg (fun x hx => hs x (List.mem_append_left _
      (List.mem_append_right _ (List.mem_cons_of_mem _ hx))))
  have hgM : 0 ≤ gap * (mid.length : Int) := mul_nonneg hgap (Int.ofNat_nonneg _)
  unfold originAt
  rw [sum_map_add_const, sum_map_add_const, hmid]
  simp only [List.sum_append, List.sum_cons, List.length_append, List.length_cons]
  have e : gap * ((((visibleMainBefore kind cfg.measured cs j).length + (mid.length + 1) :
      Nat) : Int)) = gap * ((visibleMainBefore kind cfg.measured cs j).length : Int) +
      gap * (mid.length : Int) + gap := by
    push_cast
    ring
  rw [e]
  linarith

/-- C34. Children that fit stay inside the content box and in order. For a `Column` or
`Row` with non-negative spacing, `n ≥ 1` visible children with non-negative cached main
sizes, and content main size at least the sum of these sizes plus `spacing * (n - 1)`,
under each of the five Arrangements `layout()` gives every visible child a main-axis
interval inside `[content_start, content_end]`, and every visible child starts at or
after the far edge of each visible child before it (the edges of the content box being
assumed to fit an `int16_t`, and its size to be at most 32767). -/
theorem children_fit_inside (b : WidgetBase) (kind : LayoutKind) (hkind : kind ≠ .stack)
    (cfg : LayoutData) (cs : List Widget) (hg : 0 ≤ cfg.spacing)
    (hs : ∀ s ∈ visibleMain kind cfg.measured cs, 0 ≤ s)
    (hn : 1 ≤ visibleCount cs) (hfit : 0 ≤ spareSpace kind b.bounds cfg cs)
    (hr1 : inInt16 (contentStart kind b.bounds cfg.padding))
    (hr2 : inInt16 (contentStart kind b.bounds cfg.padding +
      contentSize kind b.bounds cfg.padding))
    (hr3 : contentSize kind b.bounds cfg.padding ≤ 32767) :
    (∀ k c, cs[k]? = some c → c.isVisible = true →
      ∃ r, (Widget.composite b kind cfg cs).placedBounds k = some r ∧
        contentStart kind b.bounds cfg.padding ≤ (kind.mainOf r).1 ∧
        0 ≤ (kind.mainOf r).2 ∧
        (kind.mainOf r).1 + (kind.mainOf r).2 ≤
          contentStart kind b.bounds cfg.padding + contentSize kind b.bounds cfg.padding) ∧
    (∀ j k cj ck, j < k → cs[j]? = some cj → cj.isVisible = true → cs[k]? = some ck →
      ck.isVisible = true →
      ∃ rj rk, (Widget.composite b kind cfg cs).placedBounds j = some rj ∧
        (Widget.composite b kind cfg cs).placedBounds k = some rk ∧
        (kind.mainOf rj).1 + (kind.mainOf rj).2 ≤ (kind.mainOf rk).1) := by
  have hS : 0 ≤ (visibleMain kind cfg.measured cs).sum := List.sum_nonneg hs
  have hlen := visibleCount_eq kind cfg.measured cs
  have hsp : 0 ≤ (kind.mainOf b.bounds).2 - (kind.mainPad cfg.padding).1 -
      (kind.mainPad cfg.padding).2 - (visibleMain kind cfg.measured cs).sum -
      cfg.spacing * (((visibleMain kind cfg.measured cs).length : Int) - 1) := by
    rw [hlen]
    exact hfit
  obtain ⟨start, gap, ha, hst, hgap, hend⟩ := arrangeMain_fits cfg.arrangement cfg.spacing
    (kind.mainOf b.bounds).1 (kind.mainOf b.bounds).2 (kind.mainPad cfg.padding).1
    (kind.mainPad cfg.padding).2 (visibleMain kind cfg.measured cs).sum
    (visibleMain kind cfg.measured cs).length (by rw [hlen]; exact hn) hg hS hsp hr3
  unfold inInt16 at hr1 hr2
  unfold contentStart at hr1 hr2
  unfold contentSize at hr2 hr3
  have hplace : ∀ k c, cs[k]? = some c → c.isVisible = true →
      ∃ r, (Widget.composite b kind cfg cs).placedBounds k = some r ∧
        kind.mainOf r = (originAt kind cfg cs start gap k, kind.mainSize (cfg.measured k)) := by
    intro k c hc hv
    obtain ⟨h1, h2, h3⟩ := originAt_inside kind cfg cs start gap hgap hs k c hc hv
    exact layout_child_main b kind hkind cfg cs k c hc hv start gap ha
      (by unfold inInt16; omega)
  refine ⟨fun k c hc hv => ?_, fun j k cj ck hjk hcj hvj hck hvk => ?_⟩
  · obtain ⟨r, hr, hm⟩ := hplace k c hc hv
    obtain ⟨h1, h2, h3⟩ := originAt_inside kind cfg cs start gap hgap hs k c hc hv
    refine ⟨r, hr, ?_⟩
    rw [hm]
    unfold contentStart contentSize
    simp only
    omega
  · obtain ⟨rj, hrj, hmj⟩ := hplace j cj hcj hvj
    obtain ⟨rk, hrk, hmk⟩ := hplace k ck hck hvk
    refine ⟨rj, rk, hrj, hrk, ?_⟩
    rw [hmj, hmk]
    exact originAt_order kind cfg cs start gap hgap hs j k cj ck hjk hcj hvj hck hvk

theorem children_fit_inside_witness :
    (∃ r, (Widget.composite mixedBase .column (mixedCfg .START .SPACE_EVENLY)
        mixedChildren).placedBounds 3 = some r ∧
      contentStart .column mixedBase.bounds (mixedCfg .START .SPACE_EVENLY).padding ≤
        (LayoutKind.column.mainOf r).1 ∧
      0 ≤ (LayoutKind.column.mainOf r).2 ∧
      (LayoutKind.column.mainOf r).1 + (LayoutKind.column.mainOf r).2 ≤
        contentStart .column mixedBase.bounds (mixedCfg .START .SPACE_EVENLY).padding +
          contentSize .column mixedBase.bounds (mixedCfg .START .SPACE_EVENLY).padding) ∧
    (∃ rj rk, (Widget.composite mixedBase .column (mixedCfg .START .CENTER)
        mixedChildren).placedBounds 0 = some rj ∧
      (Widget.composite mixedBase .column (mixedCfg .START .CENTER)
        mixedChildren).placedBounds 2 = some rk ∧
      (LayoutKind.column.mainOf rj).1 + (LayoutKind.column.mainOf rj).2 ≤
        (LayoutKind.column.mainOf rk).1) :=
  ⟨(children_fit_inside mixedBase .column (by decide) (mixedCfg .START .SPACE_EVENLY)
      mixedChildren (by decide) (by decide) (by decide) (by decide) (by decide) (by decide)
      (by decide)).1 3 (.leaf {} (.spacer 100 40)) rfl rfl,
    (children_fit_inside mixedBase .column (by decide) (mixedCfg .START .CENTER)
      mixedChildren (by decide) (by decide) (by decide) (by decide) (by decide) (by decide)
      (by decide)).2 0 2 (.leaf {} (.spacer 100 20)) (.leaf {} (.spacer 100 30)) (by decide)
      rfl rfl rfl rfl⟩

end PaperUI
